import Mathlib

/-!
The tinyap/ping driver: the pump message codec, the frame codec and the amount arithmetic

A shallow embedding of the Go packages `pump` (files `bit.go`, `message.go`,
`pcall.go`, `pump.go`) followed by the properties proved about it.

Conventions of the embedding.

* A Go `[]byte` is a `List Byte` with `Byte = Fin 256`. Indexing or slicing out
  of bounds is a run-time panic in Go; the embedded functions return `none`
  there, and a decoder that recovers from the panic turns the `none` into an
  error value.
* Go's sized integers are `Nat` or `Int` with the wrap-around written out
  (`% 65536`, `wrapInt64`, ...).
* A Go `error` is `Option Error`: `none` is `nil`.
* A method with a pointer receiver that assigns to fields becomes a function
  from the old receiver value to the new one, paired with what it returns.
  Fields assigned before a recovered panic stay assigned, as in Go.
* `float64` arithmetic is IEEE 754 binary64 with round-to-nearest-even, embedded
  in `ℚ` (see `Float64.round`).
-/

namespace pump

/-! ## Bytes and errors -/

/-- A Go `byte` (`uint8`). -/
abbrev Byte := Fin 256

/-- A Go `uint32`. -/
abbrev Word32 := Fin 4294967296

/-- A non-nil Go `error`, identified by the fixed part of its message. -/
abbrev Error := String

/-- The conversion `byte(x)` (equally `uint8(x)`) of an unsigned integer: the low
eight bits. -/
def byte (x : Nat) : Byte := ⟨x % 256, Nat.mod_lt x (by decide)⟩

/-- The conversion `uint16(x)` of an `int64`: the low sixteen bits. -/
def uint16 (x : Int) : Nat := (x % 65536).toNat

/-- The slice expression `b[n:]`: a panic (`none`) when `n > len(b)`. -/
def sliceFrom (n : Nat) (b : List Byte) : Option (List Byte) :=
  if n ≤ b.length then some (b.drop n) else none

/-! ## `bit.go`: the byte codec -/

/-- Go `gbit8`: `return uint8(b[0]), b[1:]`. -/
def gbit8 : List Byte → Option (Byte × List Byte)
  | [] => none
  | x :: b => some (x, b)

/-- Go `gbit16`: `return uint16(b[0]) | uint16(b[1])<<8, b[2:]` (little-endian). -/
def gbit16 : List Byte → Option (Nat × List Byte)
  | b0 :: b1 :: b => some (b0.val ||| (b1.val <<< 8), b)
  | _ => none

/-- Go `gbit32`: little-endian 32-bit read. -/
def gbit32 : List Byte → Option (Nat × List Byte)
  | b0 :: b1 :: b2 :: b3 :: b =>
    some (b0.val ||| (b1.val <<< 8) ||| (b2.val <<< 16) ||| (b3.val <<< 24), b)
  | _ => none

/-- Go `gbit32be`: big-endian 32-bit read. -/
def gbit32be : List Byte → Option (Nat × List Byte)
  | b0 :: b1 :: b2 :: b3 :: b =>
    some ((b0.val <<< 24) ||| (b1.val <<< 16) ||| (b2.val <<< 8) ||| b3.val, b)
  | _ => none

/-- Go `pbit8`: append one byte. The capacity bookkeeping of the Go code only
decides whether the backing array is reallocated; the resulting contents are
the old contents followed by `x`. -/
def pbit8 (b : List Byte) (x : Byte) : List Byte := b ++ [x]

/-- Go `pbit16`: append `byte(x)`, `byte(x >> 8)`. -/
def pbit16 (b : List Byte) (x : Nat) : List Byte := b ++ [byte x, byte (x >>> 8)]

/-- Go `pbit32`: append the four bytes of `x`, least significant first. -/
def pbit32 (b : List Byte) (x : Nat) : List Byte :=
  b ++ [byte x, byte (x >>> 8), byte (x >>> 16), byte (x >>> 24)]

/-- Go `pbit32be`: append the four bytes of `x`, most significant first. -/
def pbit32be (b : List Byte) (x : Nat) : List Byte :=
  b ++ [byte (x >>> 24), byte (x >>> 16), byte (x >>> 8), byte x]

/-! ## `message.go`: amounts and rates -/

/-- Go `type Amount int64`: a count of milliunits. -/
abbrev Amount := Int

/-- Go `type Rate int64`: milliunits per hour. -/
abbrev Rate := Int

/-- The constant `Unit = 1000 * Milliunit`. -/
def Unit : Amount := 1000

/-- The smallest `int64`. -/
def minInt64 : Int := -9223372036854775808

/-- The largest `int64`. -/
def maxInt64 : Int := 9223372036854775807

/-- Whether an integer is a value of type `int64`. -/
def isInt64 (x : Int) : Prop := minInt64 ≤ x ∧ x ≤ maxInt64

instance (x : Int) : Decidable (isInt64 x) := by unfold isInt64; infer_instance

/-- Two's-complement wrap-around of `int64` arithmetic. -/
def wrapInt64 (x : Int) : Int := (x + 9223372036854775808) % 18446744073709551616 - 9223372036854775808

/-- Go `Amount.Truncate`: `return Amount(int64(a) - int64(a)%int64(t))`. Go's `%` is
the remainder of the division truncated toward zero (`Int.tmod`); a zero divisor
is a run-time panic (`none`). The subtraction is `int64` subtraction. -/
def Amount.Truncate (a t : Amount) : Option Amount :=
  if t = 0 then none else some (wrapInt64 (a - Int.tmod a t))

/-! ## `pcall.go`: the pump frame -/

/-- Go `type frame struct { Type uint8; Tag uint8; Body []byte }`. The field `Type`
is spelled `Typ` because `Type` is reserved. A nil `Body` and an empty `Body`
are both `[]`; the code only ever takes `len` of it or ranges over it. -/
structure frame where
  Typ : Byte
  Tag : Byte
  Body : List Byte
  deriving DecidableEq, Repr

/-- How a call of a function that returns an `error` and does not recover from
panics can end. -/
inductive Outcome where
  /-- The function returned `nil`. -/
  | ok : Outcome
  /-- The function returned a non-nil error. -/
  | error : Error → Outcome
  /-- A run-time panic left the function. -/
  | panic : Outcome
  deriving DecidableEq, Repr

/-- The slice expression `b[0:n]` on a slice whose capacity equals its length
(true of `reply.Pkt[:]`, the only argument `frame.Unmarshal` receives, and of
every slice cut from it with a low bound only): a panic when `n > len(b)`. -/
def sliceTo (n : Nat) (b : List Byte) : Option (List Byte) :=
  if n ≤ b.length then some (b.take n) else none

/-- Go `frame.Marshal`. The two checksum functions `crc32hd` (the table lookup over
the 4-byte header, returning the checksum and whether the header was found) and
`crc32` (the checksum of the body) are defined in a file of the package that is
not available here, so they are parameters. -/
def frame.Marshal (crc32hd : List Byte → Word32 × Bool) (crc32 : List Byte → Word32)
    (f : frame) : Except Error (List Byte) :=
  let b := pbit8 [] f.Typ
  let b := pbit8 b 0
  let b := pbit8 b f.Tag
  let b := pbit8 b (byte f.Body.length)
  let chk := (crc32hd b).1
  let ok := (crc32hd b).2
  if !ok then
    .error "checksum missing for header"
  else
    let b := pbit32 b chk.val
    if f.Body.length > 0 then
      let b := b ++ f.Body
      .ok (pbit32be b (crc32 f.Body).val)
    else
      .ok b

/-- Go `frame.Unmarshal`: the receiver after the call and how the call ended. There
is no `recover` in this function, so an out-of-range index or slice and the
explicit `panic(1)` leave it as a panic. -/
def frame.Unmarshal (crc32hd : List Byte → Word32 × Bool) (crc32 : List Byte → Word32)
    (f : frame) (b : List Byte) : frame × Outcome :=
  match sliceTo 4 b with
  | none => (f, .panic)
  | some hd =>
  match gbit8 b with
  | none => (f, .panic)
  | some (typ, b) =>
  let f := { f with Typ := typ }
  match gbit8 b with
  | none => (f, .panic)
  | some (_, b) =>
  match gbit8 b with
  | none => (f, .panic)
  | some (tag, b) =>
  let f := { f with Tag := tag }
  match gbit8 b with
  | none => (f, .panic)
  | some (size, b) =>
  let chk := (crc32hd hd).1
  let ok := (crc32hd hd).2
  match gbit32 b with
  | none => (f, .panic)
  | some (chk1, b) =>
  if ok && chk.val != chk1 then
    (f, .error "header checksum error")
  else if size.val == 0 then
    (f, .ok)
  else if (b.length : Int) - 4 < (size.val : Int) then
    (f, .panic)
  else
    let f := { f with Body := b.take size.val }
    let b := b.drop size.val
    let chk := crc32 f.Body
    match gbit32be b with
    | none => (f, .panic)
    | some (chk1, _) =>
    if chk.val != chk1 then
      (f, .error "payload checksum error")
    else
      (f, .ok)

/-! ## `float64`

The package computes with `float64` in `Duration.Minutes`, `Rate.Total` and
`Pump.SetRate`. A finite `float64` is a rational number, and every operation
returns the exact result rounded to the nearest `float64`, ties to even
(IEEE 754, which the Go specification prescribes). All values that occur are
quotients and products of a few `int64` values and small constants: they stay
far inside the normal range (no overflow to infinity, no subnormal result, no
NaN), where the nearest `float64` of `q` with `2 ^ e ≤ |q| < 2 ^ (e + 1)` is the
nearest multiple of `2 ^ (e - 52)`. -/

/-- Rounding to the nearest integer, a tie going to the even neighbour. -/
def roundHalfEven (q : ℚ) : ℤ :=
  if q - ⌊q⌋ < 1 / 2 then ⌊q⌋
  else if 1 / 2 < q - ⌊q⌋ then ⌊q⌋ + 1
  else if ⌊q⌋ % 2 = 0 then ⌊q⌋ else ⌊q⌋ + 1

/-- The `float64` nearest to the rational `q` (53-bit significand, ties to
even). -/
def Float64.round (q : ℚ) : ℚ :=
  if q = 0 then 0
  else roundHalfEven (q / (2 : ℚ) ^ (Int.log 2 |q| - 52)) * (2 : ℚ) ^ (Int.log 2 |q| - 52)

/-- The conversion `float64(n)` of an integer. -/
def Float64.ofInt (n : Int) : ℚ := Float64.round (n : ℚ)

/-- The sum `x + y` in `float64`. -/
def Float64.add (x y : ℚ) : ℚ := Float64.round (x + y)

/-- The product `x * y` in `float64`. -/
def Float64.mul (x y : ℚ) : ℚ := Float64.round (x * y)

/-- The quotient `x / y` in `float64`, for a divisor that is not zero. -/
def Float64.div (x y : ℚ) : ℚ := Float64.round (x / y)

/-- The integer part of a `float64`: the fraction is discarded (truncation toward
zero). This is the conversion `int(x)` whenever the result fits the integer
type. -/
def Float64.trunc (x : ℚ) : Int := if 0 ≤ x then ⌊x⌋ else ⌈x⌉

/-- The conversion `int64(x)` of a `float64` (also `Amount(x)`, `Rate(x)`): the
fraction is discarded. When the integer part is not an `int64` the Go
specification leaves the result implementation-dependent: `none`. -/
def Float64.toInt64 (x : ℚ) : Option Int :=
  if isInt64 (Float64.trunc x) then some (Float64.trunc x) else none

/-- The conversion `uint8(x)` of a `float64`; `none` when the integer part is not
a `uint8` (implementation-dependent result). -/
def Float64.toUint8 (x : ℚ) : Option Byte :=
  if 0 ≤ Float64.trunc x ∧ Float64.trunc x < 256 then some (byte (Float64.trunc x).toNat)
  else none

/-! ## Durations and times -/

/-- Go's `time.Duration`: an `int64` count of nanoseconds. -/
abbrev Duration := Int

/-- Go `time.Millisecond`. -/
def Millisecond : Duration := 1000000

/-- Go `time.Second`. -/
def Second : Duration := 1000000000

/-- Go `time.Minute`. -/
def Minute : Duration := 60000000000

/-- Go `time.Hour`. -/
def Hour : Duration := 3600000000000

/-- The method `time.Duration.Minutes` of the Go standard library:
`min := d / Minute; nsec := d % Minute; return float64(min) + float64(nsec)/(60*1e9)`.
-/
def Duration.Minutes (d : Duration) : ℚ :=
  Float64.add (Float64.ofInt (Int.tdiv d Minute))
    (Float64.div (Float64.ofInt (Int.tmod d Minute)) 60000000000)

/-- The value `time.Date(year, month, day, hour, min, sec, 0, time.Local)`,
recorded as the arguments handed to `time.Date`. -/
structure Time where
  year : Int
  month : Int
  day : Int
  hour : Int
  min : Int
  sec : Int
  deriving DecidableEq, Repr

/-- The zero `time.Time` (January 1, year 1, 00:00:00), the value of a field that
was never assigned. -/
def Time.zero : Time := ⟨1, 1, 1, 0, 0, 0⟩

/-- Go `gtime`: the packed pump time. `yearmonth&0xf` is the year offset and
`1 + yearmonth>>4` the month, computed in `uint8`. -/
def gtime (b : List Byte) : Option (Time × List Byte) :=
  match gbit8 b with
  | none => none
  | some (yearmonth, b) =>
  let year : Int := 2007 + ((yearmonth.val &&& 0xf : Nat) : Int)
  let month : Int := (((1 + (yearmonth.val >>> 4)) % 256 : Nat) : Int)
  match gbit8 b with
  | none => none
  | some (day, b) =>
  match gbit8 b with
  | none => none
  | some (hour, b) =>
  match gbit8 b with
  | none => none
  | some (min, b) =>
  some (⟨year, month, (day.val : Int), (hour.val : Int), (min.val : Int), 0⟩, b)

/-- Go `gdur`: `time.Duration(h)*time.Hour + time.Duration(m)*time.Minute`. With
`h, m ≤ 255` the `int64` arithmetic cannot overflow. -/
def gdur (b : List Byte) : Option (Duration × List Byte) :=
  match gbit8 b with
  | none => none
  | some (h, b) =>
  match gbit8 b with
  | none => none
  | some (m, b) => some ((h.val : Int) * Hour + (m.val : Int) * Minute, b)

/-! ## `message.go`: the status message -/

/-- The conversion `int8(x)`: two's-complement wrap-around to 8 bits. -/
def int8 (x : Int) : Int := (x + 128) % 256 - 128

/-- Go `type Status struct`. `Temp` is an `int8`. -/
structure Status where
  Warn : Bool
  Now : Time
  Basal : Rate
  Reservoir : Amount
  Temp : Int
  TempRemaining : Duration
  TempDuration : Duration
  deriving DecidableEq, Repr

/-- The zero value `new(Status)`. -/
def Status.zero : Status := ⟨false, Time.zero, 0, 0, 0, 0, 0⟩

/-- Go `Status.Unmarshal`: the receiver after the call and the returned error. Every
out-of-range access panics, the deferred function recovers and the call returns
the error "bad packet at ..."; the fields assigned before the panic keep their
new values. -/
def Status.Unmarshal (s : Status) (b : List Byte) : Status × Option Error :=
  match gbit8 b with
  | none => (s, some "bad packet")
  | some (flag, b) =>
  let s := { s with Warn := (flag.val &&& 0x10 == 0x10) }
  match sliceFrom 3 b with
  | none => (s, some "bad packet")
  | some b =>
  match gtime b with
  | none => (s, some "bad packet")
  | some (now, b) =>
  let s := { s with Now := now }
  match sliceFrom 4 b with
  | none => (s, some "bad packet")
  | some b =>
  match gbit16 b with
  | none => (s, some "bad packet")
  | some (basal, b) =>
  let s := { s with Basal := (basal : Int) * 1 }
  match gbit8 b with
  | none => (s, some "bad packet")
  | some (reservoir, b) =>
  let s := { s with Reservoir := (reservoir.val : Int) * Unit }
  match sliceFrom 2 b with
  | none => (s, some "bad packet")
  | some b =>
  match gbit8 b with
  | none => (s, some "bad packet")
  | some (tempFlag, b) =>
  if tempFlag.val &&& 0x1 == 0x1 then
    match gbit8 b with
    | none => (s, some "bad packet")
    | some (temp, b) =>
    let s := { s with Temp :=
      if temp.val > 128 then int8 (-(int8 (256 - (temp.val : Int)))) else int8 (temp.val : Int) }
    match sliceFrom 1 b with
    | none => (s, some "bad packet")
    | some b =>
    match gdur b with
    | none => (s, some "bad packet")
    | some (remaining, b) =>
    let s := { s with TempRemaining := remaining }
    match gdur b with
    | none => (s, some "bad packet")
    | some (duration, _) =>
    let s := { s with TempDuration := duration }
    (s, none)
  else
    (s, none)

/-- The test vector `status_NoTemp` of `message_test.go`. -/
def status_NoTemp : List Byte :=
  [0x01, 0x03, 0x00, 0x00, 0x59, 0x04, 0x0e, 0x03, 0x00, 0x00, 0x00, 0x00,
   0xfa, 0x00, 0x08, 0x00, 0x00, 0x00, 0x00, 0x00, 0x00, 0x00, 0x04, 0x00]

/-- The test vector `status` of `message_test.go`. -/
def status : List Byte :=
  [0x01, 0x03, 0x00, 0x00, 0x59, 0x05, 0x0f, 0x0a, 0x00, 0x00, 0x00, 0x00,
   0xfa, 0x00, 0x08, 0x00, 0x00, 0x01, 0xba, 0xff, 0x04, 0x0c, 0x04, 0x1e]

/-- The test vector `status_temp` of `message_test.go`. -/
def status_temp : List Byte :=
  [0x01, 0x03, 0x00, 0x00, 0x59, 0x05, 0x0f, 0x17, 0x00, 0x00, 0x00, 0x00,
   0xfa, 0x00, 0x08, 0x00, 0x00, 0x01, 0x28, 0x00, 0x00, 0x18, 0x00, 0x1e]

/-! ## `message.go`: rates and the bolus message -/

/-- Go `Rate.Total`: `return Amount(d.Minutes() / 60 * float64(r))`. -/
def Rate.Total (r : Rate) (d : Duration) : Option Amount :=
  Float64.toInt64 (Float64.mul (Float64.div (Duration.Minutes d) 60) (Float64.ofInt r))

set_option linter.dupNamespace false in
/-- Go `type Bolus struct { Bolus Amount; Duration time.Duration }`. -/
structure Bolus where
  Bolus : Amount
  Duration : Duration
  deriving DecidableEq, Repr

/-- Why a call has no defined result. -/
inductive Fault where
  /-- The call panicked. -/
  | panic : Error → Fault
  /-- The call ran a conversion whose result the language leaves
  implementation-dependent. -/
  | unspecified : Fault
  deriving DecidableEq, Repr

/-- The loop `for i := 0; i < n; i++ { buf = pbit8(buf, 0) }`. -/
def zeroFill : Nat → List Byte → List Byte
  | 0, buf => buf
  | n + 1, buf => zeroFill n (pbit8 buf 0)

/-- Go `Bolus.Marshal`. -/
def Bolus.Marshal (b : pump.Bolus) : Except Fault (List Byte) :=
  if Int.tmod (Float64.trunc (Duration.Minutes b.Duration)) 6 ≠ 0 then
    .error (.panic "combo duration must be multiple of 6")
  else
    let combo : Byte := if b.Duration ≠ 0 then 0x01 else 0
    let buf := pbit8 [] combo
    let buf := pbit8 buf 0
    let buf := pbit16 buf (uint16 b.Bolus)
    let buf := pbit16 buf (0xffff ^^^ uint16 b.Bolus)
    match Float64.toUint8 (Float64.div (Duration.Minutes b.Duration) 6) with
    | none => .error .unspecified
    | some k =>
    let buf := pbit8 buf k
    .ok (zeroFill (28 - buf.length) buf)

/-- Go `Bolus.Unmarshal`: the receiver after the call and the returned error. The
product `u16*6` is computed in `uint16`. -/
def Bolus.Unmarshal (b : pump.Bolus) (buf : List Byte) : pump.Bolus × Option Error :=
  match sliceFrom 2 buf with
  | none => (b, some "frame error")
  | some buf =>
  match gbit16 buf with
  | none => (b, some "frame error")
  | some (u16, buf) =>
  let b := { b with Bolus := (u16 : Int) * 1 }
  match gbit16 buf with
  | none => (b, some "frame error")
  | some (u16, _) =>
  ({ b with Duration := ((u16 * 6 % 65536 : Nat) : Int) * Minute }, none)

/-! ## `pump.go` -/

/-- Go `Pump.Bolus`: the guard on the duration, then the session. Everything after
the guard (`Resume`, the deferred `Adjourn`, the calls, the comparison of the
echo) is the parameter `session`, a function of the arguments and of the state
of pump and radio. -/
def Pump.Bolus {σ : Type} (session : Amount → Duration → σ → σ × Option Error)
    (bolus : Amount) (dur : Duration) (p : σ) : σ × Option Error :=
  if Int.tmod (Float64.trunc (Duration.Minutes dur)) 6 ≠ 0 then
    (p, some "combo duration must be increments of 6 minutes")
  else
    session bolus dur p

/-! ## Clock readings of a `time.Time`

`time.Date` accepts fields outside their usual ranges and carries them over; it
then subtracts the offset of the zone. Here `time.Local` is taken to be a zone
whose offset never changes (no daylight-saving transitions), so that the clock
reading of a time is its normalised civil time and adding seconds to a time adds
them to its civil count of seconds. -/

/-- Go `isLeap` of package `time`. -/
def isLeap (year : Int) : Bool := year % 4 == 0 && (year % 100 != 0 || year % 400 == 0)

/-- Go `daysBefore` of package `time`: the days of a non-leap year before each
month. -/
def daysBefore : List Int := [0, 31, 59, 90, 120, 151, 181, 212, 243, 273, 304, 334]

/-- The days from 0001-01-01 to the first day of `year` in the proleptic
Gregorian calendar. -/
def daysBeforeYear (year : Int) : Int :=
  365 * (year - 1) + (year - 1) / 4 - (year - 1) / 100 + (year - 1) / 400

/-- The second a `Time` names, counted on the local clock from 0001-01-01
00:00:00, as `time.Date` computes it: the month is carried into the year, then
days, hours, minutes and seconds count linearly. Two times are `Equal` in Go when
these counts agree. -/
def Time.abs (t : Time) : Int :=
  let year := t.year + (t.month - 1) / 12
  let m := (t.month - 1) % 12
  let days := daysBeforeYear year + daysBefore.getD m.toNat 0 +
    (if isLeap year && decide (2 ≤ m) then 1 else 0) + (t.day - 1)
  days * 86400 + t.hour * 3600 + t.min * 60 + t.sec

/-- Go `Time.Hour`: the hour of the day, 0..23. -/
def Time.Hour (t : Time) : Int := t.abs % 86400 / 3600

/-- Go `Time.Minute`: the minute of the hour, 0..59. -/
def Time.Minute (t : Time) : Int := t.abs % 3600 / 60

/-- Go `t.Add(time.Duration(n) * time.Second)`: the time `n` seconds later. -/
def Time.AddSeconds (t : Time) (n : Int) : Time := { t with sec := t.sec + n }

/-- Go `t.Sub(u)`: the duration between two times. -/
def Time.Sub (t u : Time) : Duration := (t.abs - u.abs) * Second

/-! ## `message.go`: the other replies -/

/-- Converts the error of a decoder that recovers from panics. -/
def Outcome.ofError : Option Error → Outcome
  | none => .ok
  | some e => .error e

/-- Go `type Empty struct{}`; `Empty.Unmarshal` accepts the empty body only. -/
def Empty.Unmarshal (b : List Byte) : Option Error :=
  if b.length ≠ 0 then some "expected empty message" else none

/-- Go `Wakeup.Marshal`. -/
def Wakeup.Marshal : List Byte := [0x49, 0x01, 0x2d, 0x14]

/-- Go `Clearwarn.Marshal`. -/
def Clearwarn.Marshal : List Byte := [0xa7, 0x01]

/-- Go `type Keepalive struct { Backoff time.Duration }`. -/
structure Keepalive where
  Backoff : Duration
  deriving DecidableEq, Repr

/-- Go `Keepalive.Unmarshal`: `ms, _ := gbit16(b)`, then the backoff in
milliseconds. The function has no deferred `recover`: a body shorter than two
bytes leaves it as a panic. -/
def Keepalive.Unmarshal (k : Keepalive) (b : List Byte) : Keepalive × Outcome :=
  match gbit16 b with
  | none => (k, .panic)
  | some (ms, _) => ({ k with Backoff := (ms : Int) * Millisecond }, .ok)

/-- Go `type Status2 struct { BolusTime time.Time; Bolus, IOB Amount }`. -/
structure Status2 where
  BolusTime : Time
  Bolus : Amount
  IOB : Amount
  deriving DecidableEq, Repr

/-- Go `Status2.Unmarshal`. The product `10*u16` is computed in `uint16`. -/
def Status2.Unmarshal (s : Status2) (b : List Byte) : Status2 × Option Error :=
  match sliceFrom 4 b with
  | none => (s, some "packet error")
  | some b =>
  match gbit16 b with
  | none => (s, some "packet error")
  | some (u16, b) =>
  let s := { s with Bolus := (u16 : Int) * 1 }
  match gtime b with
  | none => (s, some "packet error")
  | some (t, b) =>
  let s := { s with BolusTime := t }
  match sliceFrom 6 b with
  | none => (s, some "packet error")
  | some b =>
  match gbit16 b with
  | none => (s, some "packet error")
  | some (u16, _) =>
  ({ s with IOB := ((10 * u16 % 65536 : Nat) : Int) * 1 }, none)

/-- Go `type Status3 struct { DailyBolus, DailyBasal Amount; Temp, Suspend bool }`.
-/
structure Status3 where
  DailyBolus : Amount
  DailyBasal : Amount
  Temp : Bool
  Suspend : Bool
  deriving DecidableEq, Repr

/-- Go `Status3.Unmarshal`. -/
def Status3.Unmarshal (s : Status3) (b : List Byte) : Status3 × Option Error :=
  match sliceFrom 2 b with
  | none => (s, some "packet error")
  | some b =>
  match gbit8 b with
  | none => (s, some "packet error")
  | some (u8, b) =>
  let s := { s with Temp := (u8.val &&& 0x1 == 0x1) }
  let s := { s with Suspend := (u8.val &&& 0x2 == 0x2) }
  match sliceFrom 1 b with
  | none => (s, some "packet error")
  | some b =>
  match gbit32 b with
  | none => (s, some "packet error")
  | some (u32, b) =>
  let s := { s with DailyBolus := (u32 : Int) * 1 }
  match gbit32 b with
  | none => (s, some "packet error")
  | some (u32, _) =>
  ({ s with DailyBasal := (u32 : Int) * 1 }, none)

/-- Go `type Status4 struct { Active bool; Start, End time.Time; Delivered, Total
Amount }`. -/
structure Status4 where
  Active : Bool
  Start : Time
  End : Time
  Delivered : Amount
  Total : Amount
  deriving DecidableEq, Repr

/-- Go `Status4.Unmarshal`. -/
def Status4.Unmarshal (s : Status4) (b : List Byte) : Status4 × Option Error :=
  match sliceFrom 1 b with
  | none => (s, some "packet error")
  | some b =>
  match gbit8 b with
  | none => (s, some "packet error")
  | some (u8, b) =>
  let s := { s with Active := (u8.val &&& 0x1 == 0x1) }
  match gtime b with
  | none => (s, some "packet error")
  | some (start, b) =>
  let s := { s with Start := start }
  match gbit8 b with
  | none => (s, some "packet error")
  | some (hh, b) =>
  match gbit8 b with
  | none => (s, some "packet error")
  | some (mm, b) =>
  let mm1 : Int := s.Start.Hour * 60 + s.Start.Minute
  let mm2 : Int := (hh.val : Int) * 60 + (mm.val : Int)
  let diff : Int := (mm2 - mm1) * 60
  let diff : Int := if diff < 0 then diff + 24 * 60 * 60 else diff
  let s := { s with End := s.Start.AddSeconds diff }
  match gbit16 b with
  | none => (s, some "packet error")
  | some (u16, b) =>
  let s := { s with Delivered := (u16 : Int) * 1 }
  match gbit16 b with
  | none => (s, some "packet error")
  | some (u16, _) =>
  ({ s with Total := (u16 : Int) * 1 }, none)

/-- Go `type BolusStatus uint8` with `BolusUnknown`, `BolusBusy`, `BolusDone`. -/
inductive BolusStatus where
  | BolusUnknown : BolusStatus
  | BolusBusy : BolusStatus
  | BolusDone : BolusStatus
  deriving DecidableEq, Repr

/-- Go `type Deliverystatus struct { Status BolusStatus }`. -/
structure Deliverystatus where
  Status : BolusStatus
  deriving DecidableEq, Repr

/-- Go `Deliverystatus.Unmarshal`. -/
def Deliverystatus.Unmarshal (d : Deliverystatus) (b : List Byte) :
    Deliverystatus × Option Error :=
  match sliceFrom 1 b with
  | none => (d, some "frame error")
  | some b =>
  match gbit8 b with
  | none => (d, some "frame error")
  | some (flag, _) =>
  if flag.val = 0x01 then ({ d with Status := .BolusBusy }, none)
  else if flag.val = 0x02 then ({ d with Status := .BolusDone }, none)
  else ({ d with Status := .BolusUnknown }, none)

/-- The test vector `status2` of `message_test.go`. -/
def status2 : List Byte :=
  [0x01, 0x29, 0x01, 0x00, 0xfa, 0x00, 0x59, 0x05, 0x12, 0x09, 0xa0, 0x86,
   0x01, 0x00, 0xb8, 0x88, 0x18, 0x00, 0x3b, 0x04, 0x00, 0x00, 0x07, 0x00]

/-- The test vector `status3` of `message_test.go`. -/
def status3 : List Byte :=
  [0x01, 0x64, 0xe1, 0x07, 0xfa, 0x00, 0x00, 0x00, 0x99, 0x03, 0x00, 0x00]

/-- The test vector `status4` of `message_test.go`. -/
def status4 : List Byte :=
  [0x01, 0x01, 0x59, 0x05, 0x16, 0x21, 0x02, 0x21, 0xc8, 0x00, 0xe8, 0x03,
   0x00, 0x00, 0x04, 0x00]

/-- The test vector `status4_cancelled` of `message_test.go`. -/
def status4_cancelled : List Byte :=
  [0x01, 0x02, 0x59, 0x05, 0x16, 0x21, 0x16, 0x25, 0xd2, 0x00, 0xe8, 0x03,
   0x00, 0x00, 0x00, 0x00]

end pump

/-! # Package `radio`

The radio bridge speaks length-prefixed calls. Package `radio` has its own
`bit.go`, in which the 16-bit codec is big-endian. -/

namespace radio

/-- Go `gbit8` of package `radio`. -/
def gbit8 : List pump.Byte → Option (pump.Byte × List pump.Byte)
  | [] => none
  | x :: b => some (x, b)

/-- Go `gbit16` of package `radio`: `return uint16(b[0])<<8 | uint16(b[1]), b[2:]`
(big-endian). -/
def gbit16 : List pump.Byte → Option (Nat × List pump.Byte)
  | b0 :: b1 :: b => some ((b0.val <<< 8) ||| b1.val, b)
  | _ => none

/-- Go `pbit8` of package `radio`: append one byte. -/
def pbit8 (b : List pump.Byte) (x : pump.Byte) : List pump.Byte := b ++ [x]

/-- Go `pbit16` of package `radio`: append `byte(x >> 8)`, `byte(x)`. -/
def pbit16 (b : List pump.Byte) (x : Nat) : List pump.Byte :=
  b ++ [pump.byte (x >>> 8), pump.byte x]

/-- The call type `Nop`. -/
def Nop : pump.Byte := 0

/-- The call type `Trx`. -/
def Trx : pump.Byte := 1

/-- The call type `Rrx`. -/
def Rrx : pump.Byte := 2

/-- The call type `Ttx`. -/
def Ttx : pump.Byte := 3

/-- The call type `Rtx`. -/
def Rtx : pump.Byte := 4

/-- The call type `Ttxrx`. -/
def Ttxrx : pump.Byte := 5

/-- The call type `Rtxrx`. -/
def Rtxrx : pump.Byte := 6

/-- The call type `Tping`. -/
def Tping : pump.Byte := 7

/-- The call type `Rping`. -/
def Rping : pump.Byte := 8

/-- The bound `Tmax` of the enumeration. -/
def Tmax : pump.Byte := 9

/-- The call type `Rerr = 128`. -/
def Rerr : pump.Byte := 128

/-- The call type `Treset = 0xff - 1`. -/
def Treset : pump.Byte := 254

/-- The call type `Rreset`. -/
def Rreset : pump.Byte := 255

/-- The constant `Npkt = 78`. -/
def Npkt : Nat := 78

/-- The constant `CALLMAX = 1 + 1 + 2 + 2 + 1 + 1 + 78`. -/
def CALLMAX : Nat := 1 + 1 + 2 + 2 + 1 + 1 + 78

/-- The error code `ErrMissing`. -/
def ErrMissing : pump.Byte := 1

/-- The error code `ErrBadcall`. -/
def ErrBadcall : pump.Byte := 2

/-- The error code `ErrTimeout`. -/
def ErrTimeout : pump.Byte := 3

/-- Go `[Npkt]byte`: an array of exactly 78 bytes. -/
abbrev Packet := { l : List pump.Byte // l.length = 78 }

/-- The zero packet. -/
def Packet.zero : Packet := ⟨List.replicate 78 0, by simp⟩

/-- Go `copy(pkt[:], src)` into a zero packet: the first 78 bytes of `src`, padded
with zeros. -/
def Packet.copy (src : List pump.Byte) : Packet :=
  ⟨src.take 78 ++ List.replicate (78 - src.length) 0, by
    simp only [List.length_append, List.length_take, List.length_replicate]
    omega⟩

/-- Go `type Call struct` of package `radio`. The field `Type` is spelled `Typ`;
`Err` is a `uint8`. -/
structure Call where
  Typ : pump.Byte
  Flag : pump.Byte
  Err : pump.Byte
  Timeout : pump.Duration
  Preamble : pump.Duration
  Filterbyte3 : pump.Byte
  Pkt : Packet
  deriving DecidableEq

/-- The expression `uint16(d.Nanoseconds()/1e6)`: the whole milliseconds of a
duration (integer division truncates toward zero), reduced to sixteen bits. -/
def millis16 (d : pump.Duration) : Nat := pump.uint16 (Int.tdiv d 1000000)

/-- The statement `pbit8(b[0:0], uint8(len(b)))` at the end of `Call.Bytes`: the
slice `b[0:0]` shares the array of `b`, whose capacity of 100 is never exceeded
(at most 86 bytes are written), so `pbit8` stores the length at index 0. -/
def patchLength (b : List pump.Byte) : List pump.Byte := b.set 0 (pump.byte b.length)

/-- Go `Call.Bytes`. The `switch` is written out case by case, each `fallthrough`
followed to the end of the case it falls into. -/
def Call.Bytes (r : Call) : Except pump.Error (List pump.Byte) :=
  let b := pbit8 [] 0
  let b := pbit8 b r.Typ
  let b := pbit8 b r.Flag
  if r.Typ = Rtx ∨ r.Typ = Tping ∨ r.Typ = Rping then
    .ok (patchLength b)
  else if r.Typ = Trx then
    let b := pbit16 b (millis16 r.Timeout)
    let b := pbit8 b r.Filterbyte3
    .ok (patchLength b)
  else if r.Typ = Ttxrx then
    let b := pbit16 b (millis16 r.Timeout)
    let b := pbit8 b r.Filterbyte3
    let b := pbit16 b (millis16 r.Preamble)
    let b := b ++ r.Pkt.val
    .ok (patchLength b)
  else if r.Typ = Ttx then
    let b := pbit16 b (millis16 r.Preamble)
    let b := b ++ r.Pkt.val
    .ok (patchLength b)
  else if r.Typ = Rrx ∨ r.Typ = Rtxrx then
    let b := b ++ r.Pkt.val
    .ok (patchLength b)
  else if r.Typ = Rerr then
    let b := pbit8 b r.Err
    .ok (patchLength b)
  else
    .error "invalid rcall type"

/-- The closure `gtimeout` of `UnmarshalRcall`: a big-endian u16 count of
milliseconds as a duration. -/
def gtimeout (b : List pump.Byte) : Option (pump.Duration × List pump.Byte) :=
  match gbit16 b with
  | none => none
  | some (u16, b) => some ((u16 : Int) * pump.Millisecond, b)

/-- The statements `copy(r.Pkt[:], b[:Npkt]); b = b[Npkt:]` of `UnmarshalRcall`.
With fewer than 78 bytes left one of the two slice expressions panics (the
first when the capacity of `b` is below 78, the second otherwise), and the
deferred function discards the call either way. -/
def gpkt (b : List pump.Byte) : Option (Packet × List pump.Byte) :=
  if 78 ≤ b.length then some (Packet.copy (b.take 78), b.drop 78) else none

/-- Go `UnmarshalRcall`. Every panic (an index or slice out of range) is recovered
by the deferred function, which returns the error "malformed Fcall" and no call.
The `switch` is written out case by case, each `fallthrough` followed to the end
of the case it falls into. -/
def UnmarshalRcall (b : List pump.Byte) : Except pump.Error Call :=
  match gbit8 b with
  | none => .error "malformed Fcall"
  | some (n, b) =>
  if (b.length : Int) ≠ (n.val : Int) - 1 then
    .error "bad length"
  else
  match gbit8 b with
  | none => .error "malformed Fcall"
  | some (typ, b) =>
  match gbit8 b with
  | none => .error "malformed Fcall"
  | some (flag, b) =>
  let r : Call :=
    { Typ := typ, Flag := flag, Err := 0, Timeout := 0, Preamble := 0, Filterbyte3 := 0,
      Pkt := Packet.zero }
  if typ = Tping ∨ typ = Rping ∨ typ = Rtx then
    .ok r
  else if typ = Trx then
    match gtimeout b with
    | none => .error "malformed Fcall"
    | some (timeout, b) =>
    match gbit8 b with
    | none => .error "malformed Fcall"
    | some (fb3, _) => .ok { r with Timeout := timeout, Filterbyte3 := fb3 }
  else if typ = Ttxrx then
    match gtimeout b with
    | none => .error "malformed Fcall"
    | some (timeout, b) =>
    match gbit8 b with
    | none => .error "malformed Fcall"
    | some (fb3, b) =>
    match gtimeout b with
    | none => .error "malformed Fcall"
    | some (preamble, b) =>
    match gpkt b with
    | none => .error "malformed Fcall"
    | some (pkt, _) =>
      .ok { r with Timeout := timeout, Filterbyte3 := fb3, Preamble := preamble, Pkt := pkt }
  else if typ = Ttx then
    match gtimeout b with
    | none => .error "malformed Fcall"
    | some (preamble, b) =>
    match gpkt b with
    | none => .error "malformed Fcall"
    | some (pkt, _) => .ok { r with Preamble := preamble, Pkt := pkt }
  else if typ = Rrx ∨ typ = Rtxrx then
    match gpkt b with
    | none => .error "malformed Fcall"
    | some (pkt, _) => .ok { r with Pkt := pkt }
  else if typ = Rerr then
    match gbit8 b with
    | none => .error "malformed Fcall"
    | some (u8, _) => .ok { r with Err := u8 }
  else
    .error "invalid Rcall type"

end radio

/-! # Package `pump`: the session

`pcall.go` draws the tags, transmits frames through the radio with retries, and
runs the keepalive loop of `Call`. -/

namespace pump

/-- The call type `CallWakeup`. -/
def CallWakeup : Byte := 0x00

/-- The call type `CallKeepalive`. -/
def CallKeepalive : Byte := 0x03

/-- The call type `CallAdjourn`. -/
def CallAdjourn : Byte := 0x05

/-- The call type `CallStatus`. -/
def CallStatus : Byte := 0x50

/-- The call type `CallStatus1`. -/
def CallStatus1 : Byte := 0x20

/-- The call type `CallStatus2`. -/
def CallStatus2 : Byte := 0x25

/-- The call type `CallStatus3`. -/
def CallStatus3 : Byte := 0x27

/-- The call type `CallStatus4`. -/
def CallStatus4 : Byte := 0x26

/-- The call type `CallCancelcombo`. -/
def CallCancelcombo : Byte := 0x35

/-- The call type `CallBolusack`. -/
def CallBolusack : Byte := 0x30

/-- The call type `CallComboack`. -/
def CallComboack : Byte := 0x31

/-- The call type `CallDeliverycontinue`. -/
def CallDeliverycontinue : Byte := 0x32

/-- The call type `CallDeliverystatus`. -/
def CallDeliverystatus : Byte := 0x33

/-- The call type `CallBolus`. -/
def CallBolus : Byte := 0x37

/-- The call type `CallClearwarn`. -/
def CallClearwarn : Byte := 0x45

/-- Go `tagSeq`. -/
def tagSeq : List Byte :=
  [0x00, 0x0e, 0xf8, 0x12, 0xea,
   0x24, 0xdc, 0x36, 0xc0, 0x4e,
   0xb6]

/-- Go `type Pump struct { radio *radio.Radio; tagidx uint8 }`, with the world the
pump talks to made explicit. The radio bridge is an environment: `replies` lists
what the coming calls of `p.radio.Call` will return, in order (a reply or an
error). `calls` records the radio calls issued so far and `slept` the arguments
of `time.Sleep` so far, both oldest first. -/
structure Pump where
  tagidx : Byte
  replies : List (Except Error radio.Call)
  calls : List radio.Call
  slept : List Duration

/-- Go `Pump.nextTag`: the receiver after the call, the tag and the error. The
increment `p.tagidx++` is a `uint8` increment. -/
def Pump.nextTag (p : Pump) : Pump × Byte × Option Error :=
  if p.tagidx.val ≥ tagSeq.length then
    (p, 0, some "ran out of tags")
  else
    let tag := tagSeq.getD p.tagidx.val 0
    ({ p with tagidx := p.tagidx + 1 }, tag, none)

/-- The statement `reply, err := p.radio.Call(call)`: the call is recorded and the
next answer of the environment is returned; an environment with no answer left
gives an I/O error. -/
def Pump.radioCall (p : Pump) (call : radio.Call) : Pump × Except Error radio.Call :=
  match p.replies with
  | [] => ({ p with calls := p.calls ++ [call] }, .error "EOF")
  | r :: rest => ({ p with replies := rest, calls := p.calls ++ [call] }, r)

/-- The part of `Pump.txrx` from the label `call:` to the end of the `Rerr` branch:
the radio call, repeated by `goto call` while the reply is `Rerr` with
`ErrTimeout` and `tries > 0`. The result is the reply that is neither an error
nor an `Rerr`, or the error returned. -/
def Pump.txrxLoop (call : radio.Call) : Nat → Pump → Pump × Except Error radio.Call
  | tries, p =>
    match p.radioCall call with
    | (p, .error e) => (p, .error e)
    | (p, .ok reply) =>
      if reply.Typ = radio.Rerr then
        if reply.Err = radio.ErrTimeout then
          match tries with
          | 0 => (p, .error "radio error")
          | tries + 1 => Pump.txrxLoop call tries p
        else
          (p, .error "radio error")
      else
        (p, .ok reply)

/-- Go `Pump.txrx`: the pump, the frames `tx` and `rx` after the call, and how the
call ended. Neither `txrx` nor `frame.Unmarshal` recovers, so a panic of the
frame decoder leaves `txrx` as a panic. -/
def Pump.txrx (crc32hd : List Byte → Word32 × Bool) (crc32 : List Byte → Word32)
    (p : Pump) (tx rx : frame) (preamble : Duration) (tries : Nat) (timeout : Duration) :
    Pump × frame × frame × Outcome :=
  match p.nextTag with
  | (p, tag, some e) => (p, { tx with Tag := tag }, rx, .error e)
  | (p, tag, none) =>
    let tx := { tx with Tag := tag }
    let call : radio.Call :=
      { Typ := radio.Ttxrx, Flag := 0, Err := 0, Timeout := timeout, Preamble := preamble,
        Filterbyte3 := 0, Pkt := radio.Packet.zero }
    match frame.Marshal crc32hd crc32 tx with
    | .error e => (p, tx, rx, .error e)
    | .ok pkt =>
      let call := { call with Pkt := radio.Packet.copy pkt }
      match Pump.txrxLoop call tries p with
      | (p, .error e) => (p, tx, rx, .error e)
      | (p, .ok reply) =>
        match frame.Unmarshal crc32hd crc32 rx reply.Pkt.val with
        | (rx, .panic) => (p, tx, rx, .panic)
        | (rx, .error e) => (p, tx, rx, .error e)
        | (rx, .ok) =>
          if rx.Tag ≠ tx.Tag ^^^ 0xff then
            (p, tx, rx, .error "bad reply tag")
          else
            (p, tx, rx, .ok)

/-- Go `Pump.tx`: the pump, the frame after the call, and how the call ended. -/
def Pump.tx (crc32hd : List Byte → Word32 × Bool) (crc32 : List Byte → Word32)
    (p : Pump) (f : frame) : Pump × frame × Outcome :=
  match p.nextTag with
  | (p, tag, some e) => (p, { f with Tag := tag }, .error e)
  | (p, tag, none) =>
    let f := { f with Tag := tag }
    let call : radio.Call :=
      { Typ := radio.Ttx, Flag := 0, Err := 0, Timeout := 0, Preamble := 0,
        Filterbyte3 := 0, Pkt := radio.Packet.zero }
    match frame.Marshal crc32hd crc32 f with
    | .error e => (p, f, .error e)
    | .ok pkt =>
      let call := { call with Pkt := radio.Packet.copy pkt }
      match p.radioCall call with
      | (p, .error e) => (p, f, .error e)
      | (p, .ok reply) =>
        if reply.Typ = radio.Rerr then
          (p, f, .error "radio error")
        else
          (p, f, .ok)

/-- The loop `for rx.Type == CallKeepalive { ... }` of `Pump.Call`, run for at most
`fuel` rounds: the pump and the two frames when the loop is left, and `some` of
how it was left (`.ok` when the condition became false, otherwise what the
`return` inside the loop returned), or `none` when `fuel` rounds did not
suffice. -/
def Pump.keepaliveLoop (crc32hd : List Byte → Word32 × Bool) (crc32 : List Byte → Word32)
    (timeout : Duration) : Nat → Pump → frame → frame → Pump × frame × frame × Option Outcome
  | fuel, p, tx, rx =>
    if rx.Typ = CallKeepalive then
      match fuel with
      | 0 => (p, tx, rx, none)
      | fuel + 1 =>
        match Keepalive.Unmarshal ⟨0⟩ rx.Body with
        | (_, .panic) => (p, tx, rx, some .panic)
        | (_, .error e) => (p, tx, rx, some (.error e))
        | (k, .ok) =>
          let backoff := if k.Backoff = 300 * Millisecond then 450 * Millisecond else k.Backoff
          let p := { p with slept := p.slept ++ [backoff] }
          let tx := { tx with Typ := CallKeepalive, Body := [] }
          match Pump.txrx crc32hd crc32 p tx rx (0 * Second) 10 (2 * timeout) with
          | (p, tx, rx, .ok) => Pump.keepaliveLoop crc32hd crc32 timeout fuel p tx rx
          | (p, tx, rx, out) => (p, tx, rx, some out)
    else
      (p, tx, rx, some .ok)

/-- Go `Pump.Call`: the pump after the call, the reply object after the call, and
how the call ended. The argument is the marshalled body `arg.Marshal()`, or
`none` for a nil `arg`; the reply is the object behind the `Reply` interface
with its `Unmarshal` method, or `none` for a nil `reply`. Every round of the
keepalive loop draws a tag, so `tagSeq.length + 1` rounds are allowed; the
result is `none` only if they did not suffice. -/
def Pump.Call {ρ : Type} (crc32hd : List Byte → Word32 × Bool) (crc32 : List Byte → Word32)
    (p : Pump) (typ : Byte) (arg : Option (List Byte)) (reply : Option ρ)
    (unmarshal : ρ → List Byte → ρ × Outcome) : Pump × Option ρ × Option Outcome :=
  let preamble : Duration := if typ = CallWakeup then 2 * Second else 0
  let timeout : Duration := if typ = CallWakeup then 200 * Millisecond else 300 * Millisecond
  let tries : Nat := if typ = CallWakeup then 10 else 15
  let tx : frame := { Typ := typ, Tag := 0, Body := arg.getD [] }
  if typ = CallAdjourn then
    match Pump.tx crc32hd crc32 p tx with
    | (p, _, out) => (p, reply, some out)
  else
    let rx : frame := { Typ := 0, Tag := 0, Body := [] }
    match Pump.txrx crc32hd crc32 p tx rx preamble tries timeout with
    | (p, tx, rx, .ok) =>
      match Pump.keepaliveLoop crc32hd crc32 timeout (tagSeq.length + 1) p tx rx with
      | (p, _, rx, some .ok) =>
        if rx.Typ ≠ typ then
          (p, reply, some (.error "unexpected reply type"))
        else
          match reply with
          | none => (p, none, some .ok)
          | some r =>
            match unmarshal r rx.Body with
            | (r, out) => (p, some r, some out)
      | (p, _, _, out) => (p, reply, out)
    | (p, _, _, out) => (p, reply, some out)

/-- Go `Pump.Adjourn`. -/
def Pump.Adjourn (crc32hd : List Byte → Word32 × Bool) (crc32 : List Byte → Word32)
    (p : Pump) : Pump × Option Outcome :=
  match Pump.Call crc32hd crc32 p CallAdjourn none (none : Option PUnit) (fun r _ => (r, .ok)) with
  | (p, _, out) => (p, out)

/-- Go `Pump.Resume`: the tag index is reset, then the wakeup call is made. -/
def Pump.Resume (crc32hd : List Byte → Word32 × Bool) (crc32 : List Byte → Word32)
    (p : Pump) : Pump × Option Outcome :=
  let p := { p with tagidx := 0 }
  match Pump.Call crc32hd crc32 p CallWakeup (some Wakeup.Marshal) (none : Option PUnit)
      (fun r _ => (r, .ok)) with
  | (p, _, out) => (p, out)

/-- Go `Pump.Reset`: `p.Adjourn()` with its result dropped, then `p.Resume()`. A
panic inside `Adjourn` is not recovered and ends `Reset` as well. -/
def Pump.Reset (crc32hd : List Byte → Word32 × Bool) (crc32 : List Byte → Word32)
    (p : Pump) : Pump × Option Outcome :=
  match Pump.Adjourn crc32hd crc32 p with
  | (p, some .panic) => (p, some .panic)
  | (p, none) => (p, none)
  | (p, _) => Pump.Resume crc32hd crc32 p

/-- The results of `n` successive calls of `nextTag`: the pump at the end and the
tag and error of each call, in order. -/
def Pump.drawTags : Nat → Pump → Pump × List (Byte × Option Error)
  | 0, p => (p, [])
  | n + 1, p =>
    match p.nextTag with
    | (p, tag, err) =>
      match Pump.drawTags n p with
      | (p, rest) => (p, (tag, err) :: rest)

/-- A radio reply that carries a keepalive frame of the pump (type 0x03, size 2,
backoff `2c 01` = 300 ms) answering the tag `tag`, with zero checksums: the
frame is accepted under checksum functions that return 0. -/
def keepaliveReply (tag : Byte) : radio.Call :=
  { Typ := radio.Rtxrx, Flag := 0, Err := 0, Timeout := 0, Preamble := 0, Filterbyte3 := 0,
    Pkt := radio.Packet.copy [0x03, 0, tag ^^^ 0xff, 2, 0, 0, 0, 0, 0x2c, 0x01, 0, 0, 0, 0] }

/-! ## `pump.go`: the orchestrations -/

/-- Go `t.Add(d)` for a duration of whole seconds (the durations the status
messages carry are whole minutes). -/
def Time.Add (t : Time) (d : Duration) : Time := t.AddSeconds (d / Second)

/-- Go `type Stat struct` of `pump.go`. `Temp` is an `int`. -/
structure Stat where
  Now : Time
  Basal : Rate
  Reservoir : Amount
  IOB : Amount
  LastBolus : Amount
  Temp : Int
  TempBegin : Time
  TempEnd : Time
  ComboActive : Bool
  ComboBegin : Time
  ComboEnd : Time
  ComboDelivered : Amount
  ComboTotal : Amount
  DailyBasal : Amount
  DailyBolus : Amount
  Warn : Bool
  deriving DecidableEq, Repr

/-- The zero value `new(Stat)`. -/
def Stat.zero : Stat :=
  ⟨Time.zero, 0, 0, 0, 0, 0, Time.zero, Time.zero, false, Time.zero, Time.zero, 0, 0, 0, 0,
    false⟩

/-- The reply object `&status` with its `Unmarshal` method, as `Call` takes it. -/
def Status.reply (s : Status) (b : List Byte) : Status × Outcome :=
  ((Status.Unmarshal s b).1, Outcome.ofError (Status.Unmarshal s b).2)

/-- The reply object `&status2` with its `Unmarshal` method. -/
def Status2.reply (s : Status2) (b : List Byte) : Status2 × Outcome :=
  ((Status2.Unmarshal s b).1, Outcome.ofError (Status2.Unmarshal s b).2)

/-- The reply object `&status3` with its `Unmarshal` method. -/
def Status3.reply (s : Status3) (b : List Byte) : Status3 × Outcome :=
  ((Status3.Unmarshal s b).1, Outcome.ofError (Status3.Unmarshal s b).2)

/-- The reply object `&status4` with its `Unmarshal` method. -/
def Status4.reply (s : Status4) (b : List Byte) : Status4 × Outcome :=
  ((Status4.Unmarshal s b).1, Outcome.ofError (Status4.Unmarshal s b).2)

/-- The reply object `&reply` of `Pump.Bolus` with its `Unmarshal` method. -/
def Bolus.reply (s : pump.Bolus) (b : List Byte) : pump.Bolus × Outcome :=
  ((Bolus.Unmarshal s b).1, Outcome.ofError (Bolus.Unmarshal s b).2)

/-- The reply object `&s` of the delivery loop with its `Unmarshal` method. -/
def Deliverystatus.reply (s : Deliverystatus) (b : List Byte) : Deliverystatus × Outcome :=
  ((Deliverystatus.Unmarshal s b).1, Outcome.ofError (Deliverystatus.Unmarshal s b).2)

/-- A call `p.Call(typ, nil, nil)`. -/
def Pump.callNil (crc32hd : List Byte → Word32 × Bool) (crc32 : List Byte → Word32)
    (p : Pump) (typ : Byte) : Pump × Option Outcome :=
  match Pump.Call crc32hd crc32 p typ none (none : Option PUnit) (fun r _ => (r, .ok)) with
  | (p, _, out) => (p, out)

/-- Go `Pump.Stat`: the pump after the call, the `*Stat` returned (`none` for
nil) and how the call ended. There is no deferred call in this function: every
`return nil, err` leaves it at once, and `p.Adjourn()` is reached only at the
end of the success path. -/
def Pump.Stat (crc32hd : List Byte → Word32 × Bool) (crc32 : List Byte → Word32)
    (p : Pump) : Pump × Option Stat × Option Outcome :=
  let s := Stat.zero
  match Pump.Resume crc32hd crc32 p with
  | (p, some .ok) =>
    match Pump.Call crc32hd crc32 p CallStatus none (some Status.zero) Status.reply with
    | (p, some status, some .ok) =>
      let s := { s with Now := status.Now, Reservoir := status.Reservoir,
                        Basal := status.Basal, Temp := status.Temp }
      let s := if s.Temp ≠ (0 : Int) then
          { s with
            TempBegin := (s.Now.Add status.TempRemaining).Add (-status.TempDuration),
            TempEnd := ((s.Now.Add status.TempRemaining).Add (-status.TempDuration)).Add
              status.TempDuration }
        else s
      let s := { s with Warn := status.Warn }
      match Pump.Call crc32hd crc32 p CallStatus4 none
          (some (⟨false, Time.zero, Time.zero, 0, 0⟩ : Status4)) Status4.reply with
      | (p, some status4, some .ok) =>
        let s := { s with ComboActive := status4.Active, ComboBegin := status4.Start,
                          ComboEnd := status4.End, ComboDelivered := status4.Delivered,
                          ComboTotal := status4.Total }
        match Pump.Reset crc32hd crc32 p with
        | (p, some .ok) =>
          match Pump.Call crc32hd crc32 p CallStatus2 none
              (some (⟨Time.zero, 0, 0⟩ : Status2)) Status2.reply with
          | (p, some status2, some .ok) =>
            let s := { s with LastBolus := status2.Bolus, IOB := status2.IOB }
            match Pump.Reset crc32hd crc32 p with
            | (p, some .ok) =>
              match Pump.callNil crc32hd crc32 p CallStatus with
              | (p, some .ok) =>
                match Pump.Call crc32hd crc32 p CallStatus3 none
                    (some (⟨0, 0, false, false⟩ : Status3)) Status3.reply with
                | (p, some status3, some .ok) =>
                  let s := { s with DailyBasal := status3.DailyBasal,
                                    DailyBolus := status3.DailyBolus }
                  match Pump.Adjourn crc32hd crc32 p with
                  | (p, some .panic) => (p, none, some .panic)
                  | (p, none) => (p, none, none)
                  | (p, _) => (p, some s, some .ok)
                | (p, _, out) => (p, none, out)
              | (p, out) => (p, none, out)
            | (p, out) => (p, none, out)
          | (p, _, out) => (p, none, out)
        | (p, out) => (p, none, out)
      | (p, _, out) => (p, none, out)
    | (p, _, out) => (p, none, out)
  | (p, out) => (p, none, out)

/-- The statement `defer p.Adjourn()`, run when the function returns or panics
with `out`: `Adjourn` is called, its result is dropped. -/
def Pump.deferAdjourn (crc32hd : List Byte → Word32 × Bool) (crc32 : List Byte → Word32)
    (r : Pump × Option Outcome) : Pump × Option Outcome :=
  match Pump.Adjourn crc32hd crc32 r.1 with
  | (p, some .panic) => (p, some .panic)
  | (p, none) => (p, none)
  | (p, _) => (p, r.2)

/-- Go `Pump.CancelCombo`. -/
def Pump.CancelCombo (crc32hd : List Byte → Word32 × Bool) (crc32 : List Byte → Word32)
    (p : Pump) : Pump × Option Outcome :=
  match Pump.Resume crc32hd crc32 p with
  | (p, some .ok) =>
    Pump.deferAdjourn crc32hd crc32 (Pump.callNil crc32hd crc32 p CallCancelcombo)
  | (p, out) => (p, out)

/-- Go `Pump.ClearWarn`: the call has the type `CallCancelcombo` and the argument
`&Clearwarn{}`. -/
def Pump.ClearWarn (crc32hd : List Byte → Word32 × Bool) (crc32 : List Byte → Word32)
    (p : Pump) : Pump × Option Outcome :=
  match Pump.Resume crc32hd crc32 p with
  | (p, some .ok) =>
    Pump.deferAdjourn crc32hd crc32
      (match Pump.Call crc32hd crc32 p CallCancelcombo (some Clearwarn.Marshal)
          (none : Option PUnit) (fun r _ => (r, .ok)) with
        | (p, _, out) => (p, out))
  | (p, out) => (p, out)

/-- The loop `Loop: for { ... }` of `Pump.Bolus`, run for at most `fuel` rounds
(`none` when they do not suffice): the delivery status is asked for until it is
`BolusDone`, with a `Deliverycontinue` call after every other status. -/
def Pump.deliveryLoop (crc32hd : List Byte → Word32 × Bool) (crc32 : List Byte → Word32) :
    Nat → Pump → Pump × Option Outcome
  | 0, p => (p, none)
  | fuel + 1, p =>
    match Pump.Call crc32hd crc32 p CallDeliverystatus none
        (some (⟨.BolusUnknown⟩ : Deliverystatus)) Deliverystatus.reply with
    | (p, some s, some .ok) =>
      match s.Status with
      | .BolusDone => (p, some .ok)
      | _ =>
        match Pump.callNil crc32hd crc32 p CallDeliverycontinue with
        | (p, some .ok) => Pump.deliveryLoop crc32hd crc32 fuel p
        | (p, out) => (p, out)
    | (p, _, out) => (p, out)

/-- The part of Go `Pump.Bolus` after the guard on the duration (the parameter
`session` of `Pump.Bolus`): `Resume`, the deferred `Adjourn`, the bolus call, the
comparison of the echo, the acknowledgement and the delivery loop. A panic of
`arg.Marshal()` inside `Call` runs the deferred `Adjourn` as well; `none` stands
for a conversion that the language leaves implementation-dependent, and for a
delivery loop that outlasts `tagSeq.length + 1` rounds. -/
def Pump.bolusSession (crc32hd : List Byte → Word32 × Bool) (crc32 : List Byte → Word32)
    (bolus : Amount) (dur : Duration) (p : Pump) : Pump × Option Outcome :=
  match Pump.Resume crc32hd crc32 p with
  | (p, some .ok) =>
    Pump.deferAdjourn crc32hd crc32
      (match Bolus.Marshal ⟨bolus, dur⟩ with
        | .error (.panic _) => (p, some .panic)
        | .error .unspecified => (p, none)
        | .ok body =>
          match Pump.Call crc32hd crc32 p CallBolus (some body)
              (some (⟨0, 0⟩ : pump.Bolus)) Bolus.reply with
          | (p, some reply, some .ok) =>
            if (⟨bolus, dur⟩ : pump.Bolus) ≠ reply then
              (p, some (.error "pump returned mismatched bolus response"))
            else
              let callack : Byte := if reply.Duration ≠ 0 then CallComboack else CallBolusack
              match Pump.callNil crc32hd crc32 p callack with
              | (p, some .ok) => Pump.deliveryLoop crc32hd crc32 (tagSeq.length + 1) p
              | (p, out) => (p, out)
          | (p, _, out) => (p, out))
  | (p, out) => (p, out)

/-! ## `pump.go`: `SetRate` -/

/-- The value `base` of `Pump.SetRate`:
`scale := (100.0 + float64(stat.Temp)) / 100.0; base := Rate(float64(stat.Basal) * scale)`.
-/
def SetRate.base (basal : Rate) (temp : Int) : Option Rate :=
  Float64.toInt64
    (Float64.mul (Float64.ofInt basal) (Float64.div (Float64.add 100 (Float64.ofInt temp)) 100))

/-- The value `need` of `Pump.SetRate`: zero when `base > rate`, else `rate - base`
(an `int64` subtraction). -/
def SetRate.need (rate base : Rate) : Rate :=
  if base > rate then 0 else wrapInt64 (rate - base)

/-- The slice `durations` of `Pump.SetRate`. -/
def SetRate.durations : List Duration :=
  [30 * Minute, 60 * Minute, 90 * Minute, 120 * Minute, 180 * Minute, 240 * Minute,
   300 * Minute]

/-- The body of the loop of `Pump.SetRate` up to the comparison, for the candidate
duration `d`: `tot`, `proposed` and `diff`, in that order in the result
`(diff, tot, proposed)`. `none` when a conversion of a `float64` to `int64` has no
defined result. -/
def SetRate.candidate (rate need : Rate) (d : Duration) : Option (Rate × Amount × Rate) :=
  match Rate.Total need d with
  | none => none
  | some t =>
  match Amount.Truncate t 50 with
  | none => none
  | some tot =>
  match Float64.toInt64
      (Float64.mul (Float64.div 60 (Duration.Minutes d)) (Float64.ofInt tot)) with
  | none => none
  | some p =>
  let proposed : Rate := wrapInt64 (p * 1)
  let diff : Rate := wrapInt64 (rate - proposed)
  let diff : Rate := if diff < 0 then wrapInt64 (-diff) else diff
  some (diff, tot, proposed)

/-- The variables `min`, `matched`, `total`, `dur` of `Pump.SetRate`. -/
structure Combo where
  min : Rate
  matched : Rate
  total : Amount
  dur : Duration
  deriving DecidableEq, Repr

/-- The loop `for i, d := range durations` of `Pump.SetRate` over the remaining
durations; `first` says whether `i == 0`. -/
def SetRate.loop (rate need : Rate) : List Duration → Bool → Combo → Option Combo
  | [], _, c => some c
  | d :: ds, first, c =>
    match SetRate.candidate rate need d with
    | none => none
    | some (diff, tot, proposed) =>
      if first = true ∨ diff < c.min then
        SetRate.loop rate need ds false { min := diff, matched := proposed, total := tot, dur := d }
      else
        SetRate.loop rate need ds false c

/-- The combo `Pump.SetRate` selects for the target `rate` and the missing rate
`need`. -/
def SetRate.select (rate need : Rate) : Option Combo :=
  SetRate.loop rate need SetRate.durations true { min := 0, matched := 0, total := 0, dur := 0 }

/-- Go `Pump.SetRate`: the world after the call, `done`, and how the call ended
(`none` when a conversion of a `float64` has no defined result). The methods it
calls on the pump (`p.Stat`, `p.ClearWarn`, `p.CancelCombo`, `p.Bolus`) are the
parameters `stat`, `clearWarn`, `cancelCombo`, `bolus`, functions of the state
`σ` of pump and radio; the logger is left out. -/
def Pump.SetRate {σ : Type} (stat : σ → σ × Option pump.Stat × Option Outcome)
    (clearWarn cancelCombo : σ → σ × Option Outcome)
    (bolus : Amount → Duration → σ → σ × Option Outcome)
    (rate : Rate) (p : σ) : σ × Bool × Option Outcome :=
  match stat p with
  | (p, some st, some .ok) =>
    match (if st.Warn = true then clearWarn p else (p, some .ok)) with
    | (p, some .ok) =>
      match SetRate.base st.Basal st.Temp with
      | none => (p, false, none)
      | some base =>
      match SetRate.select rate (SetRate.need rate base) with
      | none => (p, false, none)
      | some c =>
      let issue : σ × Bool × Option Outcome :=
        match cancelCombo p with
        | (p, some .ok) =>
          match bolus c.total c.dur p with
          | (p, out) => (p, false, out)
        | (p, out) => (p, false, out)
      if st.ComboActive = true then
        let dur1 := st.ComboEnd.Sub st.ComboBegin
        let total1 := st.ComboTotal
        if c.total = total1 ∧ dur1 ≥ c.dur - 5 * Minute ∧ dur1 ≤ c.dur + 5 * Minute then
          (p, true, some .ok)
        else issue
      else if c.total = 0 then
        (p, true, some .ok)
      else issue
    | (p, out) => (p, false, out)
  | (p, _, out) => (p, false, out)

end pump

/-! # Properties -/

namespace pump

theorem wrapInt64_of_isInt64 {x : Int} (h : isInt64 x) : wrapInt64 x = x := by
  unfold isInt64 minInt64 maxInt64 at h
  unfold wrapInt64
  omega

theorem emod_le_self_of_nonneg (a : Int) {p : Int} (ha : 0 ≤ a) (hp : 0 < p) : a % p ≤ a := by
  have h1 := Int.emod_add_ediv a p
  have h2 := mul_nonneg hp.le (Int.ediv_nonneg ha hp.le)
  linarith

theorem neg_tmod (a q : Int) : Int.tmod (-a) q = -Int.tmod a q := by
  rw [Int.tmod_def, Int.tmod_def, Int.neg_tdiv]
  ring

/-- Go's remainder by a positive divisor, in terms of the Euclidean remainder. -/
theorem tmod_pos_eq (a : Int) {q : Int} (hq : 0 < q) :
    Int.tmod a q = if 0 ≤ a then a % q else -((-a) % q) := by
  split
  · next h => exact Int.tmod_eq_emod h hq.le
  · next h =>
    have h1 := Int.tmod_eq_emod (a := -a) (b := q) (by omega) hq.le
    rw [neg_tmod] at h1
    omega

/-- The remainder truncated toward zero is smaller in magnitude than the divisor
and has the sign of the dividend. -/
theorem tmod_bounds (a : Int) {q : Int} (hq : q ≠ 0) :
    |Int.tmod a q| < |q| ∧ (0 ≤ a → 0 ≤ Int.tmod a q ∧ Int.tmod a q ≤ a) ∧
      (a ≤ 0 → Int.tmod a q ≤ 0 ∧ a ≤ Int.tmod a q) := by
  have key : ∀ p : Int, 0 < p → |Int.tmod a p| < p ∧
      (0 ≤ a → 0 ≤ Int.tmod a p ∧ Int.tmod a p ≤ a) ∧
      (a ≤ 0 → Int.tmod a p ≤ 0 ∧ a ≤ Int.tmod a p) := by
    intro p hp
    rw [tmod_pos_eq a hp, abs_lt]
    have e1 := Int.emod_nonneg a hp.ne'
    have e2 := Int.emod_lt_of_pos a hp
    have e3 := Int.emod_nonneg (-a) hp.ne'
    have e4 := Int.emod_lt_of_pos (-a) hp
    split
    · next h =>
      have e5 : a % p ≤ a := emod_le_self_of_nonneg a h hp
      refine ⟨⟨by omega, by omega⟩, fun _ => ⟨e1, e5⟩, fun h0 => ?_⟩
      have : a = 0 := by omega
      subst this
      simp
    · next h =>
      have e5 : (-a) % p ≤ -a := emod_le_self_of_nonneg (-a) (by omega) hp
      exact ⟨⟨by omega, by omega⟩, fun h0 => absurd h0 h, fun _ => ⟨by omega, by omega⟩⟩
  rcases lt_or_gt_of_ne hq with h | h
  · have := key (-q) (by omega)
    rw [Int.tmod_neg] at this
    rwa [abs_of_neg h]
  · have := key q h
    rwa [abs_of_pos h]

/-- Without overflow `Truncate` is the plain difference `a - a % t`. -/
theorem Amount.Truncate_eq (a q : Amount) (ha : isInt64 a) (hq : q ≠ 0) :
    Amount.Truncate a q = some (a - Int.tmod a q) := by
  have hb := tmod_bounds a hq
  have hw : wrapInt64 (a - Int.tmod a q) = a - Int.tmod a q := by
    apply wrapInt64_of_isInt64
    unfold isInt64 minInt64 maxInt64 at *
    rcases le_total 0 a with h | h
    · have := hb.2.1 h
      omega
    · have := hb.2.2 h
      omega
  simp [Amount.Truncate, hq, hw]

/-! ## The byte codec -/

/-- A value below `2 ^ i` and a multiple of `2 ^ i` have no bit in common. -/
theorem or_mul_pow_eq_add (a b i : Nat) (h : a < 2 ^ i) : a ||| (b * 2 ^ i) = a + b * 2 ^ i := by
  rw [Nat.or_comm, Nat.mul_comm b, ← Nat.mul_add_lt_is_or h, Nat.add_comm]

theorem mul_pow_or_eq_add (a b i : Nat) (h : a < 2 ^ i) : (b * 2 ^ i) ||| a = b * 2 ^ i + a := by
  rw [Nat.mul_comm b, ← Nat.mul_add_lt_is_or h]

/-- Two bytes combined little-endian, as arithmetic. -/
theorem le16_value (a b : Nat) (ha : a < 256) : a ||| (b <<< 8) = a + b * 256 := by
  have h0 : a < 2 ^ 8 := ha
  rw [Nat.shiftLeft_eq, or_mul_pow_eq_add _ _ 8 h0]
  omega

/-- Four bytes combined little-endian, as arithmetic. -/
theorem le32_value (a b c d : Nat) (ha : a < 256) (hb : b < 256) (hc : c < 256) :
    a ||| (b <<< 8) ||| (c <<< 16) ||| (d <<< 24) =
      a + b * 256 + c * 65536 + d * 16777216 := by
  have h0 : a < 2 ^ 8 := ha
  have h1 : a + b * 2 ^ 8 < 2 ^ 16 := by omega
  have h2 : a + b * 2 ^ 8 + c * 2 ^ 16 < 2 ^ 24 := by omega
  rw [Nat.shiftLeft_eq, Nat.shiftLeft_eq, Nat.shiftLeft_eq, or_mul_pow_eq_add _ _ 8 h0,
    or_mul_pow_eq_add _ _ 16 h1, or_mul_pow_eq_add _ _ 24 h2]
  omega

theorem or_reverse (A B C D : Nat) : A ||| B ||| C ||| D = D ||| C ||| B ||| A := by
  rw [Nat.or_comm (A ||| B ||| C) D, Nat.or_comm (A ||| B) C, Nat.or_comm A B,
    ← Nat.or_assoc, ← Nat.or_assoc]

/-- Four bytes combined big-endian, as arithmetic. -/
theorem be32_value (a b c d : Nat) (hb : b < 256) (hc : c < 256) (hd : d < 256) :
    (a <<< 24) ||| (b <<< 16) ||| (c <<< 8) ||| d =
      a * 16777216 + b * 65536 + c * 256 + d := by
  rw [or_reverse, le32_value d c b a hd hc hb]
  omega

/-- The value `gbit16` reads, as arithmetic. -/
theorem gbit16_cons (b0 b1 : Byte) (b : List Byte) :
    gbit16 (b0 :: b1 :: b) = some (b0.val + b1.val * 256, b) := by
  rw [gbit16, le16_value _ _ b0.isLt]

/-- The value `gbit32` reads, as arithmetic (little-endian). -/
theorem gbit32_cons (b0 b1 b2 b3 : Byte) (b : List Byte) :
    gbit32 (b0 :: b1 :: b2 :: b3 :: b) =
      some (b0.val + b1.val * 256 + b2.val * 65536 + b3.val * 16777216, b) := by
  rw [gbit32, le32_value _ _ _ _ b0.isLt b1.isLt b2.isLt]

/-- The value `gbit32be` reads, as arithmetic (big-endian). -/
theorem gbit32be_cons (b0 b1 b2 b3 : Byte) (b : List Byte) :
    gbit32be (b0 :: b1 :: b2 :: b3 :: b) =
      some (b0.val * 16777216 + b1.val * 65536 + b2.val * 256 + b3.val, b) := by
  rw [gbit32be, be32_value _ _ _ _ b1.isLt b2.isLt b3.isLt]

theorem sliceFrom_zero (b : List Byte) : sliceFrom 0 b = some b := by
  simp [sliceFrom]

theorem sliceFrom_succ_cons (n : Nat) (x : Byte) (b : List Byte) :
    sliceFrom (n + 1) (x :: b) = sliceFrom n b := by
  simp [sliceFrom]

theorem sliceFrom_succ_nil (n : Nat) : sliceFrom (n + 1) [] = none := by
  simp [sliceFrom]

theorem byte_val (x : Nat) : (byte x).val = x % 256 := rfl

/-- Reading back what `pbit16` wrote. -/
theorem gbit16_pbit16 (x : Nat) (hx : x < 65536) (rest : List Byte) :
    gbit16 (pbit16 [] x ++ rest) = some (x, rest) := by
  simp only [pbit16, List.nil_append, List.cons_append, gbit16_cons, byte_val,
    Nat.shiftRight_eq_div_pow]
  congr 2
  omega

/-- Reading back what `pbit32` wrote. -/
theorem gbit32_pbit32 (x : Nat) (hx : x < 4294967296) (rest : List Byte) :
    gbit32 (pbit32 [] x ++ rest) = some (x, rest) := by
  simp only [pbit32, List.nil_append, List.cons_append, gbit32_cons, byte_val,
    Nat.shiftRight_eq_div_pow]
  congr 2
  omega

/-- Reading back what `pbit32be` wrote. -/
theorem gbit32be_pbit32be (x : Nat) (hx : x < 4294967296) (rest : List Byte) :
    gbit32be (pbit32be [] x ++ rest) = some (x, rest) := by
  simp only [pbit32be, List.nil_append, List.cons_append, gbit32be_cons, byte_val,
    Nat.shiftRight_eq_div_pow]
  congr 2
  omega

/-! ## The pump frame -/

/-- The bytes `frame.Marshal` produces, and when it produces them. -/
theorem frame.Marshal_eq_wire (crc32hd : List Byte → Word32 × Bool)
    (crc32 : List Byte → Word32) (f : frame) :
    frame.Marshal crc32hd crc32 f =
      (if (crc32hd [f.Typ, 0, f.Tag, byte f.Body.length]).2 = true then
        Except.ok ([f.Typ, 0, f.Tag, byte f.Body.length] ++
          pbit32 [] (crc32hd [f.Typ, 0, f.Tag, byte f.Body.length]).1.val ++
          (if f.Body = [] then [] else f.Body ++ pbit32be [] (crc32 f.Body).val))
      else Except.error "checksum missing for header") := by
  simp only [frame.Marshal, pbit8, pbit32, pbit32be, List.nil_append, List.cons_append]
  by_cases hb : f.Body = []
  · simp only [hb]
    cases (crc32hd [f.Typ, 0, f.Tag, byte ([] : List Byte).length]).2 <;> simp
  · have hpos : 0 < f.Body.length := List.length_pos.mpr hb
    simp only [hb]
    cases (crc32hd [f.Typ, 0, f.Tag, byte f.Body.length]).2 <;> simp [hpos]

/-- C3: the wire layout of a frame. With `hd` the header
`[Type, 0, Tag, uint8(len(Body))]`, `frame.Marshal` fails exactly when `crc32hd`
reports `hd` as not found; otherwise it returns `hd`, then the table checksum as
four bytes little-endian, and, only for a non-empty body, the body followed by
`crc32(Body)` as four bytes big-endian. That image has 8 bytes for an empty body
and `len(Body) + 12` bytes otherwise. -/
theorem frame.Marshal_wire_layout (crc32hd : List Byte → Word32 × Bool)
    (crc32 : List Byte → Word32) (f : frame) :
    let hd : List Byte := [f.Typ, 0, f.Tag, byte f.Body.length]
    let c := (crc32hd hd).1.val
    let p := (crc32 f.Body).val
    let wire : List Byte :=
      hd ++ [byte c, byte (c / 256), byte (c / 65536), byte (c / 16777216)] ++
        (if f.Body = [] then []
          else f.Body ++ [byte (p / 16777216), byte (p / 65536), byte (p / 256), byte p])
    frame.Marshal crc32hd crc32 f =
        (if (crc32hd hd).2 = true then Except.ok wire
          else Except.error "checksum missing for header") ∧
      wire.length = (if f.Body = [] then 8 else f.Body.length + 12) := by
  intro hd c p wire
  constructor
  · rw [frame.Marshal_eq_wire]
    simp only [hd, wire, c, p, pbit32, pbit32be, List.nil_append, Nat.shiftRight_eq_div_pow]
  · by_cases hb : f.Body = []
    · simp [wire, hd, hb]
    · simp [wire, hd, hb]

/-- C2: frame round trip. For every frame `f` with at most 255 body bytes whose
`Marshal` succeeds with bytes `out`, `Unmarshal` on a fresh (zero) frame applied
to `out` followed by arbitrary padding returns `nil` (so the header checksum and
the payload checksum both validate) and leaves the receiver equal to `f`: same
`Type`, same `Tag`, same `Body`. -/
theorem frame.Unmarshal_Marshal_roundtrip (crc32hd : List Byte → Word32 × Bool)
    (crc32 : List Byte → Word32) (f : frame) (out pad : List Byte)
    (hlen : f.Body.length ≤ 255) (hm : frame.Marshal crc32hd crc32 f = .ok out) :
    frame.Unmarshal crc32hd crc32 ⟨0, 0, []⟩ (out ++ pad) = (f, .ok) := by
  rw [frame.Marshal_eq_wire] at hm
  obtain ⟨typ, tag, body⟩ := f
  dsimp only at hm hlen
  split at hm
  swap
  · exact absurd hm (by simp)
  next hok =>
  have hout := (Except.ok.inj hm).symm
  subst hout
  have hc := (crc32hd [typ, 0, tag, byte body.length]).1.isLt
  have hp := (crc32 body).isLt
  have hsl : ∀ rest : List Byte, sliceTo 4 (typ :: 0 :: tag :: byte body.length :: rest) =
      some [typ, 0, tag, byte body.length] := by
    intro rest
    simp [sliceTo]
  simp only [frame.Unmarshal, List.cons_append, List.nil_append, List.append_assoc, hsl, gbit8,
    gbit32_pbit32 _ hc, hok]
  by_cases hb : body = []
  · subst hb
    simp [byte]
  · have hpos : 0 < body.length := List.length_pos.mpr hb
    have hbv : (byte body.length).val = body.length := by
      rw [byte_val]
      omega
    have htake : List.take body.length (body ++ (pbit32be [] (crc32 body).val ++ pad)) = body := by
      simp
    have hdrop : List.drop body.length (body ++ (pbit32be [] (crc32 body).val ++ pad)) =
        pbit32be [] (crc32 body).val ++ pad := by
      simp
    have hl : (pbit32be [] (crc32 body).val).length = 4 := by simp [pbit32be]
    simp only [hb, if_false, hbv, htake, hdrop, gbit32be_pbit32be _ hp, List.length_append, hl]
    have h1 : ¬ ((body.length : Int) + 4 + (pad.length : Int) - 4 < (body.length : Int)) := by
      omega
    have h0 : ¬ body.length = 0 := by omega
    simp [h1, h0, gbit32be_pbit32be _ hp]

theorem frame.Unmarshal_Marshal_roundtrip_witness :
    frame.Marshal (fun _ => (305419896, true)) (fun _ => 3735928559) ⟨80, 14, [1, 2, 3]⟩ =
      .ok [80, 0, 14, 3, 120, 86, 52, 18, 1, 2, 3, 222, 173, 190, 239] ∧
    frame.Unmarshal (fun _ => (305419896, true)) (fun _ => 3735928559) ⟨0, 0, []⟩
      ([80, 0, 14, 3, 120, 86, 52, 18, 1, 2, 3, 222, 173, 190, 239] ++ [0, 0]) =
        (⟨80, 14, [1, 2, 3]⟩, .ok) :=
  ⟨by rfl, frame.Unmarshal_Marshal_roundtrip _ _ ⟨80, 14, [1, 2, 3]⟩ _ [0, 0] (by decide) (by rfl)⟩

/-! ## `Amount.Truncate` -/

/-- C6 (as stated, refuted): truncating the negative amount -7 to the quantum 5
gives -5, which is larger than -7. -/
theorem Amount.Truncate_neg_increases :
    Amount.Truncate (-7) 5 = some (-5) ∧ ¬ ((-5 : Amount) ≤ -7) := by
  refine ⟨?_, by decide⟩
  rw [Amount.Truncate_eq (-7) 5 (by decide) (by decide)]
  rfl

/-- C6 (amended): `Truncate` moves an amount toward zero and never past it. For
every `int64` amount `a` and every quantum `q ≠ 0` the call returns; for `a ≥ 0`
the result lies in `[0, a]` (it never increases the amount), and for `a ≤ 0` it
lies in `[a, 0]`. -/
theorem Amount.Truncate_toward_zero (a q : Amount) (ha : isInt64 a) (hq : q ≠ 0) :
    ∃ r, Amount.Truncate a q = some r ∧
      (0 ≤ a → 0 ≤ r ∧ r ≤ a) ∧ (a ≤ 0 → a ≤ r ∧ r ≤ 0) := by
  refine ⟨a - Int.tmod a q, Amount.Truncate_eq a q ha hq, fun h => ?_, fun h => ?_⟩
  · have := (tmod_bounds a hq).2.1 h
    dsimp only [Amount] at *
    omega
  · have := (tmod_bounds a hq).2.2 h
    dsimp only [Amount] at *
    omega

theorem Amount.Truncate_toward_zero_witness :
    isInt64 127 ∧ (50 : Amount) ≠ 0 ∧
    ∃ r, Amount.Truncate 127 50 = some r ∧
      ((0 : Amount) ≤ 127 → 0 ≤ r ∧ r ≤ 127) ∧ ((127 : Amount) ≤ 0 → 127 ≤ r ∧ r ≤ 0) :=
  ⟨by decide, by decide, Amount.Truncate_toward_zero 127 50 (by decide) (by decide)⟩

/-- C7: for every `int64` amount `a` and every quantum `q ≠ 0`, `a.Truncate(q)`
returns `a` minus the remainder of `a` by `q` computed without `int64` overflow;
the result leaves remainder 0 on division by `q` (it is a multiple of `q`) and
differs from `a` by less than `|q|`. -/
theorem Amount.Truncate_multiple (a q : Amount) (ha : isInt64 a) (hq : q ≠ 0) :
    ∃ r, Amount.Truncate a q = some r ∧ r = a - Int.tmod a q ∧ isInt64 r ∧
      Int.tmod r q = 0 ∧ q ∣ r ∧ |a - r| < |q| := by
  have hb := tmod_bounds a hq
  have hr : a - Int.tmod a q = q * Int.tdiv a q := by
    have := Int.tmod_add_tdiv a q
    dsimp only [Amount] at *
    omega
  refine ⟨a - Int.tmod a q, Amount.Truncate_eq a q ha hq, rfl, ?_, ?_, ?_, ?_⟩
  · unfold isInt64 minInt64 maxInt64 at *
    rcases le_total 0 a with h | h
    · have := hb.2.1 h
      omega
    · have := hb.2.2 h
      omega
  · rw [hr]
    exact Int.mul_tmod_right q _
  · exact ⟨Int.tdiv a q, hr⟩
  · have : a - (a - Int.tmod a q) = Int.tmod a q := by ring
    rw [this]
    exact hb.1

theorem Amount.Truncate_multiple_witness :
    isInt64 (-127) ∧ (50 : Amount) ≠ 0 ∧
    ∃ r, Amount.Truncate (-127) 50 = some r ∧ r = -127 - Int.tmod (-127) 50 ∧ isInt64 r ∧
      Int.tmod r 50 = 0 ∧ 50 ∣ r ∧ |-127 - r| < |(50 : Amount)| :=
  ⟨by decide, by decide, Amount.Truncate_multiple (-127) 50 (by decide) (by decide)⟩

/-! ## `float64` rounding -/

theorem roundHalfEven_intCast (z : ℤ) : roundHalfEven (z : ℚ) = z := by
  simp [roundHalfEven]

theorem roundHalfEven_bounds (q : ℚ) : ⌊q⌋ ≤ roundHalfEven q ∧ roundHalfEven q ≤ ⌊q⌋ + 1 := by
  unfold roundHalfEven
  split_ifs <;> omega

theorem roundHalfEven_mono {a b : ℚ} (h : a ≤ b) : roundHalfEven a ≤ roundHalfEven b := by
  have hf : ⌊a⌋ ≤ ⌊b⌋ := Int.floor_mono h
  rcases lt_or_eq_of_le hf with hlt | heq
  · have := (roundHalfEven_bounds a).2
    have := (roundHalfEven_bounds b).1
    omega
  · unfold roundHalfEven
    rw [← heq]
    have hab : a - ⌊a⌋ ≤ b - ⌊a⌋ := by linarith
    split_ifs <;> first | omega | (exfalso; linarith)

theorem log_eq_of_bounds {q : ℚ} {e : ℤ} (h1 : (2 : ℚ) ^ e ≤ q) (h2 : q < (2 : ℚ) ^ (e + 1)) :
    Int.log 2 q = e := by
  have hq : 0 < q := lt_of_lt_of_le (by positivity) h1
  have a1 : e ≤ Int.log 2 q := by
    rw [← Int.zpow_le_iff_le_log (by norm_num) hq]
    simpa using h1
  have a2 : Int.log 2 q < e + 1 := by
    rw [← Int.lt_zpow_iff_log_lt (by norm_num) hq]
    simpa using h2
  omega

theorem log_bounds {q : ℚ} (hq : 0 < q) :
    (2 : ℚ) ^ Int.log 2 q ≤ q ∧ q < (2 : ℚ) ^ (Int.log 2 q + 1) := by
  have h1 := Int.zpow_log_le_self (b := 2) (by norm_num) hq
  have h2 := Int.lt_zpow_succ_log_self (b := 2) (by norm_num) q
  simp only [Nat.cast_ofNat] at h1 h2
  exact ⟨h1, h2⟩

theorem Float64.round_zero : Float64.round 0 = 0 := by
  simp [Float64.round]

/-- A value `m * 2 ^ e` with `|m| < 2 ^ 53` is a binary64 number: rounding leaves it
unchanged. -/
theorem Float64.round_exact (m e : ℤ) (hm : |m| < 2 ^ 53) :
    Float64.round ((m : ℚ) * (2 : ℚ) ^ e) = (m : ℚ) * (2 : ℚ) ^ e := by
  by_cases hm0 : m = 0
  · simp [hm0, Float64.round]
  have h2e : (0 : ℚ) < (2 : ℚ) ^ e := by positivity
  have hq0 : (m : ℚ) * (2 : ℚ) ^ e ≠ 0 :=
    mul_ne_zero (by exact_mod_cast hm0) h2e.ne'
  have habs : |(m : ℚ) * (2 : ℚ) ^ e| = (|m| : ℤ) * (2 : ℚ) ^ e := by
    rw [abs_mul, abs_of_pos h2e, Int.cast_abs]
  have hpos : 0 < |(m : ℚ) * (2 : ℚ) ^ e| := abs_pos.mpr hq0
  have hL : Int.log 2 |(m : ℚ) * (2 : ℚ) ^ e| < e + 53 := by
    rw [← Int.lt_zpow_iff_log_lt (by norm_num) hpos, habs, zpow_add₀ (by norm_num)]
    have : ((|m| : ℤ) : ℚ) < 2 ^ 53 := by exact_mod_cast hm
    have h3 : ((2 : ℕ) : ℚ) ^ e = (2 : ℚ) ^ e := by norm_num
    rw [h3, mul_comm]
    have h4 : ((2 : ℕ) : ℚ) ^ (53 : ℤ) = (2 : ℚ) ^ 53 := by norm_num
    rw [h4]
    exact mul_lt_mul_of_pos_left this h2e
  obtain ⟨n, hn⟩ := Int.eq_ofNat_of_zero_le
    (show 0 ≤ e + 52 - Int.log 2 |(m : ℚ) * (2 : ℚ) ^ e| by omega)
  have hdiv : (m : ℚ) * (2 : ℚ) ^ e / (2 : ℚ) ^ (Int.log 2 |(m : ℚ) * (2 : ℚ) ^ e| - 52) =
      ((m * 2 ^ n : ℤ) : ℚ) := by
    rw [mul_div_assoc, ← zpow_sub₀ (by norm_num)]
    have : e - (Int.log 2 |(m : ℚ) * (2 : ℚ) ^ e| - 52) = (n : ℤ) := by omega
    rw [this, zpow_natCast]
    push_cast
    rfl
  rw [Float64.round, if_neg hq0, hdiv, roundHalfEven_intCast]
  push_cast
  rw [mul_assoc, ← zpow_natCast, ← zpow_add₀ (by norm_num)]
  congr 2
  omega

theorem Float64.round_intCast (n : ℤ) (hn : |n| ≤ 2 ^ 53) : Float64.round (n : ℚ) = n := by
  rcases lt_or_eq_of_le hn with h | h
  · simpa using Float64.round_exact n 0 h
  · rcases abs_eq (by norm_num : (0:ℤ) ≤ 2 ^ 53) |>.mp h with h1 | h1
    · have := Float64.round_exact 1 53 (by norm_num)
      rw [h1]
      norm_num at this ⊢
      exact this
    · have := Float64.round_exact (-1) 53 (by norm_num)
      rw [h1]
      norm_num at this ⊢
      exact this

theorem Float64.round_nonneg {x : ℚ} (hx : 0 ≤ x) : 0 ≤ Float64.round x := by
  unfold Float64.round
  split_ifs with h
  · exact le_refl 0
  · apply mul_nonneg _ (by positivity)
    have h1 : (0:ℚ) ≤ x / (2 : ℚ) ^ (Int.log 2 |x| - 52) := div_nonneg hx (by positivity)
    have := roundHalfEven_mono h1
    rw [show (0:ℚ) = ((0:ℤ):ℚ) by norm_num, roundHalfEven_intCast] at this
    exact_mod_cast this

/-- Rounding maps the binade `[2 ^ e, 2 ^ (e + 1))` into `[2 ^ e, 2 ^ (e + 1)]`. -/
theorem Float64.round_binade {x : ℚ} (hx : 0 < x) :
    (2 : ℚ) ^ Int.log 2 x ≤ Float64.round x ∧ Float64.round x ≤ (2 : ℚ) ^ (Int.log 2 x + 1) := by
  obtain ⟨h1, h2⟩ := log_bounds hx
  have hu : (0 : ℚ) < (2 : ℚ) ^ (Int.log 2 x - 52) := by positivity
  rw [Float64.round, if_neg hx.ne', abs_of_pos hx]
  have e1 : (2 : ℚ) ^ Int.log 2 x = ((2 ^ 52 : ℤ) : ℚ) * (2 : ℚ) ^ (Int.log 2 x - 52) := by
    rw [zpow_sub₀ (by norm_num)]
    push_cast
    field_simp
    norm_num
    ring
  have e2 : (2 : ℚ) ^ (Int.log 2 x + 1) = ((2 ^ 53 : ℤ) : ℚ) * (2 : ℚ) ^ (Int.log 2 x - 52) := by
    rw [zpow_sub₀ (by norm_num), zpow_add₀ (by norm_num)]
    push_cast
    field_simp
    ring
  constructor
  · have : ((2 ^ 52 : ℤ) : ℚ) ≤ x / (2 : ℚ) ^ (Int.log 2 x - 52) := by
      rw [le_div_iff₀ hu, ← e1]
      exact h1
    have := roundHalfEven_mono this
    rw [roundHalfEven_intCast] at this
    rw [e1]
    exact mul_le_mul_of_nonneg_right (by exact_mod_cast this) hu.le
  · have : x / (2 : ℚ) ^ (Int.log 2 x - 52) ≤ ((2 ^ 53 : ℤ) : ℚ) := by
      rw [div_le_iff₀ hu, ← e2]
      exact h2.le
    have := roundHalfEven_mono this
    rw [roundHalfEven_intCast] at this
    rw [e2]
    exact mul_le_mul_of_nonneg_right (by exact_mod_cast this) hu.le

/-- Rounding is monotone on the non-negative values. -/
theorem Float64.round_mono {x y : ℚ} (hx : 0 ≤ x) (hxy : x ≤ y) :
    Float64.round x ≤ Float64.round y := by
  rcases eq_or_lt_of_le hx with h0 | hpos
  · rw [← h0, Float64.round_zero]
    exact Float64.round_nonneg (hx.trans hxy)
  have hy : 0 < y := lt_of_lt_of_le hpos hxy
  have hlog : Int.log 2 x ≤ Int.log 2 y := Int.log_mono_right hpos hxy
  rcases lt_or_eq_of_le hlog with hlt | heq
  · have a := (Float64.round_binade hpos).2
    have b := (Float64.round_binade hy).1
    have c : (2 : ℚ) ^ (Int.log 2 x + 1) ≤ (2 : ℚ) ^ Int.log 2 y :=
      zpow_le_zpow_right₀ (by norm_num) (by omega)
    linarith
  · have hu : (0 : ℚ) < (2 : ℚ) ^ (Int.log 2 y - 52) := by positivity
    rw [Float64.round, Float64.round, if_neg hpos.ne', if_neg hy.ne', abs_of_pos hpos,
      abs_of_pos hy, heq]
    apply mul_le_mul_of_nonneg_right _ hu.le
    have : x / (2 : ℚ) ^ (Int.log 2 y - 52) ≤ y / (2 : ℚ) ^ (Int.log 2 y - 52) :=
      div_le_div_of_nonneg_right hxy hu.le
    exact_mod_cast roundHalfEven_mono this

theorem Float64.trunc_intCast (n : ℤ) : Float64.trunc (n : ℚ) = n := by
  unfold Float64.trunc
  split_ifs <;> simp

theorem Float64.ofInt_exact (n : ℤ) (hn : |n| ≤ 2 ^ 53) : Float64.ofInt n = n :=
  Float64.round_intCast n hn

/-! ## Durations in minutes -/

/-- A whole number of minutes is converted exactly. -/
theorem Duration.Minutes_whole (n : ℤ) (hn : |n| ≤ 2 ^ 53) :
    Duration.Minutes (n * Minute) = n := by
  have h1 : Int.tdiv (n * Minute) Minute = n := Int.mul_tdiv_cancel n (by decide)
  have h2 : Int.tmod (n * Minute) Minute = 0 := Int.mul_tmod_left n Minute
  rw [Duration.Minutes, h1, h2, Float64.ofInt_exact n hn, Float64.ofInt, Float64.div,
    Float64.add]
  simp only [Int.cast_zero, zero_div, Float64.round_zero, add_zero]
  exact Float64.round_intCast n hn

/-- A whole number of minutes and a half is converted exactly. -/
theorem Duration.Minutes_and_a_half (n : ℤ) (h0 : 0 ≤ n) (hn : n < 2 ^ 51) :
    Duration.Minutes (n * Minute + 30 * Second) = (n : ℚ) + 1 / 2 := by
  have h1 : Int.tdiv (n * Minute + 30 * Second) Minute = n := by
    rw [Int.tdiv_eq_ediv (by unfold Minute Second; omega) (by decide)]
    unfold Minute Second
    omega
  have h2 : Int.tmod (n * Minute + 30 * Second) Minute = 30000000000 := by
    rw [Int.tmod_eq_emod (by unfold Minute Second; omega) (by decide)]
    unfold Minute Second
    omega
  have e1 : Float64.round ((30000000000 : ℚ) / 60000000000) = 1 / 2 := by
    have := Float64.round_exact 1 (-1) (by norm_num)
    norm_num at this ⊢
    exact this
  have e2 : Float64.round ((n : ℚ) + 1 / 2) = (n : ℚ) + 1 / 2 := by
    have := Float64.round_exact (2 * n + 1) (-1) (by rw [abs_lt]; constructor <;> omega)
    have e : ((2 * n + 1 : ℤ) : ℚ) * (2 : ℚ) ^ (-1 : ℤ) = (n : ℚ) + 1 / 2 := by
      push_cast
      rw [zpow_neg_one]
      ring
    rwa [e] at this
  rw [Duration.Minutes, h1, h2, Float64.ofInt_exact n (by rw [abs_le]; constructor <;> omega),
    Float64.ofInt_exact 30000000000 (by norm_num), Float64.div, Float64.add]
  push_cast
  rw [e1, e2]

/-! ## The bolus message -/

theorem zeroFill_eq (n : Nat) (buf : List Byte) :
    zeroFill n buf = buf ++ List.replicate n 0 := by
  induction n generalizing buf with
  | zero => simp [zeroFill]
  | succ n ih => simp [zeroFill, ih, pbit8, List.replicate_succ]

theorem uint16_of_range (a : Int) (h0 : 0 ≤ a) (h1 : a ≤ 65535) : uint16 a = a.toNat := by
  unfold uint16
  congr 1
  omega

/-- The bytes `Bolus.Marshal` produces for an amount within `uint16` and a
duration of `k` times six minutes, `k` within `uint8`. -/
theorem Bolus.Marshal_eq_bytes (a : Amount) (k : Nat) (h0 : 0 ≤ a) (h1 : a ≤ 65535) (hk : k ≤ 255) :
    Bolus.Marshal ⟨a, (k : Int) * (6 * Minute)⟩ =
      .ok ([if k = 0 then 0 else 1, 0, byte a.toNat, byte (a.toNat / 256),
        byte (0xffff ^^^ a.toNat), byte ((0xffff ^^^ a.toNat) / 256), byte k] ++
        List.replicate 21 0) := by
  have hd : (k : Int) * (6 * Minute) = ((6 * k : Nat) : Int) * Minute := by
    push_cast
    ring
  have hmin : Duration.Minutes ((k : Int) * (6 * Minute)) = ((6 * k : Nat) : ℚ) := by
    rw [hd, Duration.Minutes_whole _ (by rw [abs_le]; constructor <;> omega)]
    push_cast
    ring
  have htr : Float64.trunc ((6 * k : Nat) : ℚ) = ((6 * k : Nat) : Int) := by
    have := Float64.trunc_intCast ((6 * k : Nat) : Int)
    simpa using this
  have hdiv : Float64.div ((6 * k : Nat) : ℚ) 6 = ((k : Int) : ℚ) := by
    have e : (((6 * k : Nat) : ℚ)) / 6 = ((k : Int) : ℚ) := by
      push_cast
      field_simp
    rw [Float64.div, e]
    exact Float64.round_intCast k (by rw [abs_le]; constructor <;> omega)
  have hu8 : Float64.toUint8 ((k : Int) : ℚ) = some (byte k) := by
    rw [Float64.toUint8, Float64.trunc_intCast]
    simp
    omega
  have hmod : Int.tmod ((6 * k : Nat) : Int) 6 = 0 := by
    push_cast
    exact Int.mul_tmod_right 6 k
  have hz : ((k : Int) * (6 * Minute) = 0) ↔ k = 0 := by
    unfold Minute
    omega
  simp only [Bolus.Marshal, hmin, htr, hmod, hdiv, hu8, uint16_of_range a h0 h1, pbit8, pbit16,
    zeroFill_eq, Nat.shiftRight_eq_div_pow, ne_eq, not_true_eq_false, if_false, hz]
  by_cases hk0 : k = 0 <;> simp [hk0]

/-- The complement within sixteen bits is below `2 ^ 16`. -/
theorem xor_ffff_lt (n : Nat) (hn : n ≤ 65535) : 0xffff ^^^ n < 65536 :=
  Nat.xor_lt_two_pow (n := 16) (by norm_num) (by norm_num; omega)

/-- C4: the wire encoding of a bolus. For every amount `a` in 0..65535 and every
duration of `k` times six minutes with `k` in 0..255, `Bolus.Marshal` returns
exactly 28 bytes: byte 0 is 1 if the duration is not zero and 0 otherwise, byte 1
is 0, bytes 2-3 are `a` little-endian, bytes 4-5 are `0xffff XOR a`
little-endian, byte 6 is `k`, and the 21 remaining bytes are 0. -/
theorem Bolus.Marshal_encoding (a : Amount) (k : Nat) (h0 : 0 ≤ a) (h1 : a ≤ 65535)
    (hk : k ≤ 255) :
    ∃ out, Bolus.Marshal ⟨a, (k : Int) * (6 * Minute)⟩ = .ok out ∧ out.length = 28 ∧
      out = [if (k : Int) * (6 * Minute) = 0 then 0 else 1, 0,
        byte (a.toNat % 256), byte (a.toNat / 256),
        byte ((0xffff ^^^ a.toNat) % 256), byte ((0xffff ^^^ a.toNat) / 256),
        byte k,
        0, 0, 0, 0, 0, 0, 0, 0, 0, 0, 0, 0, 0, 0, 0, 0, 0, 0, 0, 0, 0] := by
  have hz : ((k : Int) * (6 * Minute) = 0) ↔ k = 0 := by
    unfold Minute
    omega
  have hb : ∀ n : Nat, byte (n % 256) = byte n := by
    intro n
    apply Fin.ext
    simp [byte_val]
  refine ⟨_, Bolus.Marshal_eq_bytes a k h0 h1 hk, by simp, ?_⟩
  simp [hz, hb, List.replicate]

theorem Bolus.Marshal_encoding_witness :
    (0 : Amount) ≤ 1000 ∧ (1000 : Amount) ≤ 65535 ∧ 5 ≤ 255 ∧
    ∃ out, Bolus.Marshal ⟨1000, ((5 : Nat) : Int) * (6 * Minute)⟩ = .ok out ∧ out.length = 28 ∧
      out = [if ((5 : Nat) : Int) * (6 * Minute) = 0 then 0 else 1, 0,
        byte ((1000 : Amount).toNat % 256), byte ((1000 : Amount).toNat / 256),
        byte ((0xffff ^^^ (1000 : Amount).toNat) % 256),
        byte ((0xffff ^^^ (1000 : Amount).toNat) / 256),
        byte 5,
        0, 0, 0, 0, 0, 0, 0, 0, 0, 0, 0, 0, 0, 0, 0, 0, 0, 0, 0, 0, 0] :=
  ⟨by decide, by decide, by decide, Bolus.Marshal_encoding 1000 5 (by decide) (by decide) (by decide)⟩

/-- What `Bolus.Unmarshal` reads from the bytes `Bolus.Marshal` wrote. -/
theorem Bolus.Unmarshal_Marshal_eq (a : Amount) (k : Nat) (h0 : 0 ≤ a) (h1 : a ≤ 65535)
    (hk : k ≤ 255) (b0 : pump.Bolus) :
    ∃ out, Bolus.Marshal ⟨a, (k : Int) * (6 * Minute)⟩ = .ok out ∧
      Bolus.Unmarshal b0 out =
        (⟨a, (((0xffff ^^^ a.toNat) * 6 % 65536 : Nat) : Int) * Minute⟩, none) := by
  refine ⟨_, Bolus.Marshal_eq_bytes a k h0 h1 hk, ?_⟩
  obtain ⟨n, rfl⟩ := Int.eq_ofNat_of_zero_le h0
  have hn : n ≤ 65535 := by exact_mod_cast h1
  have hx := xor_ffff_lt n hn
  have e1 : n % 256 + n / 256 % 256 * 256 = n := by omega
  have e2 : (0xffff ^^^ n) % 256 + (0xffff ^^^ n) / 256 % 256 * 256 = 0xffff ^^^ n := by omega
  simp only [Bolus.Unmarshal, List.cons_append, sliceFrom_succ_cons, sliceFrom_zero, gbit16_cons,
    byte_val, Int.toNat_ofNat, e1, e2, mul_one]

/-- C1 (as stated, refuted): the bolus of 1000 milliunits over 30 minutes is
encoded, and decoding the encoding gives 1000 milliunits over 59530 minutes, not
over 30. -/
theorem Bolus.Unmarshal_Marshal_differs :
    ∃ out, Bolus.Marshal ⟨1000, 30 * Minute⟩ = .ok out ∧
      Bolus.Unmarshal ⟨0, 0⟩ out = (⟨1000, 59530 * Minute⟩, none) ∧
      (⟨1000, 59530 * Minute⟩ : pump.Bolus) ≠ ⟨1000, 30 * Minute⟩ := by
  obtain ⟨out, h1, h2⟩ :=
    Bolus.Unmarshal_Marshal_eq 1000 5 (by decide) (by decide) (by decide) ⟨0, 0⟩
  refine ⟨out, ?_, ?_, by decide⟩
  · rw [← h1]
    rfl
  · rw [h2]
    decide

/-- C1 (amended): for every bolus message with amount `a` in 0..65535 and duration
`k` times six minutes, `k` in 0..255, `Bolus.Marshal` succeeds and
`Bolus.Unmarshal` of its output returns `nil` with the same amount `a`; the
duration it yields is six minutes times the u16 at bytes 4-5 of the encoding,
which hold the complement of the amount: `((0xffff XOR a) * 6 mod 65536)`
minutes, whatever the duration of the message was. -/
theorem Bolus.Unmarshal_Marshal_amount (a : Amount) (k : Nat) (h0 : 0 ≤ a) (h1 : a ≤ 65535)
    (hk : k ≤ 255) (b0 : pump.Bolus) :
    ∃ out, Bolus.Marshal ⟨a, (k : Int) * (6 * Minute)⟩ = .ok out ∧
      (Bolus.Unmarshal b0 out).2 = none ∧
      (Bolus.Unmarshal b0 out).1.Bolus = a ∧
      (Bolus.Unmarshal b0 out).1.Duration =
        (((0xffff ^^^ a.toNat) * 6 % 65536 : Nat) : Int) * Minute := by
  obtain ⟨out, h, hu⟩ := Bolus.Unmarshal_Marshal_eq a k h0 h1 hk b0
  exact ⟨out, h, by rw [hu], by rw [hu], by rw [hu]⟩

theorem Bolus.Unmarshal_Marshal_amount_witness :
    (0 : Amount) ≤ 250 ∧ (250 : Amount) ≤ 65535 ∧ 10 ≤ 255 ∧
    ∃ out, Bolus.Marshal ⟨250, ((10 : Nat) : Int) * (6 * Minute)⟩ = .ok out ∧
      (Bolus.Unmarshal ⟨0, 0⟩ out).2 = none ∧
      (Bolus.Unmarshal ⟨0, 0⟩ out).1.Bolus = 250 ∧
      (Bolus.Unmarshal ⟨0, 0⟩ out).1.Duration =
        (((0xffff ^^^ (250 : Amount).toNat) * 6 % 65536 : Nat) : Int) * Minute :=
  ⟨by decide, by decide, by decide,
    Bolus.Unmarshal_Marshal_amount 250 10 (by decide) (by decide) (by decide) ⟨0, 0⟩⟩

/-! ## The guard of `Pump.Bolus` -/

/-- C5 (the code at the failing inputs): for the durations 30 seconds and
6 minutes 30 seconds, neither a whole multiple of six minutes, the guard of
`Pump.Bolus` does not fire: the call is the session itself (`Resume`, the bolus
call, ...) and no usage error is returned before it. -/
theorem Pump.Bolus_accepts_fraction {σ : Type}
    (session : Amount → Duration → σ → σ × Option Error) (bolus : Amount) (p : σ) :
    Pump.Bolus session bolus (30 * Second) p = session bolus (30 * Second) p ∧
    Pump.Bolus session bolus (6 * Minute + 30 * Second) p =
      session bolus (6 * Minute + 30 * Second) p ∧
    ¬ (6 * Minute ∣ 30 * Second) ∧ ¬ (6 * Minute ∣ 6 * Minute + 30 * Second) := by
  have m1 : Duration.Minutes (30 * Second) = 1 / 2 := by
    have := Duration.Minutes_and_a_half 0 (by decide) (by decide)
    simpa using this
  have m2 : Duration.Minutes (6 * Minute + 30 * Second) = 13 / 2 := by
    have := Duration.Minutes_and_a_half 6 (by decide) (by decide)
    rw [this]
    norm_num
  have t1 : Float64.trunc (1 / 2) = 0 := by
    unfold Float64.trunc
    norm_num
  have t2 : Float64.trunc (13 / 2) = 6 := by
    unfold Float64.trunc
    rw [if_pos (by norm_num), Int.floor_eq_iff]
    norm_num
  refine ⟨?_, ?_, by decide, by decide⟩
  · unfold Pump.Bolus
    rw [m1, t1]
    simp
  · unfold Pump.Bolus
    rw [m2, t2]
    simp

/-- The guard of `Pump.Bolus` lets every whole multiple of six minutes pass. -/
theorem Pump.Bolus_accepts_multiple {σ : Type}
    (session : Amount → Duration → σ → σ × Option Error) (bolus : Amount) (p : σ) (k : Int)
    (hk : isInt64 (k * (6 * Minute))) :
    Pump.Bolus session bolus (k * (6 * Minute)) p = session bolus (k * (6 * Minute)) p := by
  have hd : k * (6 * Minute) = (6 * k) * Minute := by ring
  have hb : |6 * k| ≤ 2 ^ 53 := by
    unfold isInt64 minInt64 maxInt64 Minute at hk
    rw [abs_le]
    constructor <;> omega
  have hmod : Int.tmod (6 * k) 6 = 0 := Int.mul_tmod_right 6 k
  unfold Pump.Bolus
  rw [hd, Duration.Minutes_whole (6 * k) hb, Float64.trunc_intCast, hmod]
  simp

/-! ## `Rate.Total` -/

theorem Float64.ofInt_nonneg {n : ℤ} (hn : 0 ≤ n) : 0 ≤ Float64.ofInt n :=
  Float64.round_nonneg (by exact_mod_cast hn)

theorem Float64.ofInt_mono {m n : ℤ} (hm : 0 ≤ m) (h : m ≤ n) :
    Float64.ofInt m ≤ Float64.ofInt n :=
  Float64.round_mono (by exact_mod_cast hm) (by exact_mod_cast h)

theorem Float64.trunc_of_nonneg {x : ℚ} (hx : 0 ≤ x) : Float64.trunc x = ⌊x⌋ := by
  simp [Float64.trunc, hx]

/-- The fraction-of-a-minute term of `Duration.Minutes` lies between 0 and 1. -/
theorem Float64.fraction_bounds {n : ℤ} (h0 : 0 ≤ n) (h1 : n < 60000000000) :
    0 ≤ Float64.div (Float64.ofInt n) 60000000000 ∧
      Float64.div (Float64.ofInt n) 60000000000 ≤ 1 := by
  have hn : Float64.ofInt n = n :=
    Float64.ofInt_exact n (by rw [abs_le]; constructor <;> omega)
  have hq0 : (0 : ℚ) ≤ (n : ℚ) / 60000000000 := by
    apply div_nonneg (by exact_mod_cast h0) (by norm_num)
  have hq1 : (n : ℚ) / 60000000000 ≤ 1 := by
    rw [div_le_one (by norm_num)]
    exact_mod_cast h1.le
  rw [Float64.div, hn]
  refine ⟨Float64.round_nonneg hq0, ?_⟩
  have := Float64.round_mono hq0 hq1
  have h1' : Float64.round 1 = 1 := by
    simpa using Float64.round_intCast 1 (by norm_num)
  rwa [h1'] at this

theorem Duration.Minutes_nonneg {d : ℤ} (hd : 0 ≤ d) : 0 ≤ Duration.Minutes d := by
  have hm : 0 ≤ Int.tdiv d Minute := Int.tdiv_nonneg hd (by decide)
  have hn : 0 ≤ Int.tmod d Minute := Int.tmod_nonneg _ hd
  have hn1 : Int.tmod d Minute < 60000000000 := Int.tmod_lt_of_pos d (by decide)
  have := (Float64.fraction_bounds hn hn1).1
  exact Float64.round_nonneg (add_nonneg (Float64.ofInt_nonneg hm) this)

/-- The function `Duration.Minutes` is monotone on the non-negative `int64` durations. -/
theorem Duration.Minutes_mono {d1 d2 : ℤ} (h0 : 0 ≤ d1) (h12 : d1 ≤ d2)
    (h2 : d2 ≤ maxInt64) : Duration.Minutes d1 ≤ Duration.Minutes d2 := by
  have hd2 : (0 : Int) ≤ d2 := le_trans h0 h12
  have ed1 : Int.tdiv d1 Minute = d1 / 60000000000 := Int.tdiv_eq_ediv h0 (by decide)
  have ed2 : Int.tdiv d2 Minute = d2 / 60000000000 := Int.tdiv_eq_ediv hd2 (by decide)
  have em1 : Int.tmod d1 Minute = d1 % 60000000000 := Int.tmod_eq_emod h0 (by decide)
  have em2 : Int.tmod d2 Minute = d2 % 60000000000 := Int.tmod_eq_emod hd2 (by decide)
  unfold maxInt64 at h2
  have b1 := Float64.fraction_bounds (n := d1 % 60000000000) (by omega) (by omega)
  have b2 := Float64.fraction_bounds (n := d2 % 60000000000) (by omega) (by omega)
  have a1 : Float64.ofInt (d1 / 60000000000) = ((d1 / 60000000000 : ℤ) : ℚ) :=
    Float64.ofInt_exact _ (by rw [abs_le]; constructor <;> omega)
  have a2 : Float64.ofInt (d2 / 60000000000) = ((d2 / 60000000000 : ℤ) : ℚ) :=
    Float64.ofInt_exact _ (by rw [abs_le]; constructor <;> omega)
  have n1 : (0 : ℚ) ≤ ((d1 / 60000000000 : ℤ) : ℚ) := by
    have : (0 : ℤ) ≤ d1 / 60000000000 := by omega
    exact_mod_cast this
  unfold Duration.Minutes Float64.add
  rw [ed1, ed2, em1, em2, a1, a2]
  apply Float64.round_mono (add_nonneg n1 b1.1)
  rcases lt_or_eq_of_le (show d1 / 60000000000 ≤ d2 / 60000000000 by omega) with hlt | heq
  · have : ((d1 / 60000000000 : ℤ) : ℚ) + 1 ≤ ((d2 / 60000000000 : ℤ) : ℚ) := by
      have : d1 / 60000000000 + 1 ≤ d2 / 60000000000 := by omega
      exact_mod_cast this
    linarith [b1.2, b2.1]
  · rw [heq]
    have hle : Float64.div (Float64.ofInt (d1 % 60000000000)) 60000000000 ≤
        Float64.div (Float64.ofInt (d2 % 60000000000)) 60000000000 := by
      unfold Float64.div
      have hm : d1 % 60000000000 ≤ d2 % 60000000000 := by omega
      have e1 : Float64.ofInt (d1 % 60000000000) = ((d1 % 60000000000 : ℤ) : ℚ) :=
        Float64.ofInt_exact _ (by rw [abs_le]; constructor <;> omega)
      have e2 : Float64.ofInt (d2 % 60000000000) = ((d2 % 60000000000 : ℤ) : ℚ) :=
        Float64.ofInt_exact _ (by rw [abs_le]; constructor <;> omega)
      rw [e1, e2]
      apply Float64.round_mono
      · apply div_nonneg _ (by norm_num)
        have : (0 : ℤ) ≤ d1 % 60000000000 := by omega
        exact_mod_cast this
      · apply div_le_div_of_nonneg_right _ (by norm_num)
        exact_mod_cast hm
    linarith

/-- The `float64` product that `Rate.Total` converts. -/
theorem Rate.Total_product_mono {r1 r2 d1 d2 : ℤ} (hr : 0 ≤ r1) (hr12 : r1 ≤ r2)
    (hd : 0 ≤ d1) (hd12 : d1 ≤ d2) (hd2 : d2 ≤ maxInt64) :
    0 ≤ Float64.mul (Float64.div (Duration.Minutes d1) 60) (Float64.ofInt r1) ∧
    Float64.mul (Float64.div (Duration.Minutes d1) 60) (Float64.ofInt r1) ≤
      Float64.mul (Float64.div (Duration.Minutes d2) 60) (Float64.ofInt r2) := by
  have m0 := Duration.Minutes_nonneg hd
  have m12 := Duration.Minutes_mono hd hd12 hd2
  have q0 : 0 ≤ Duration.Minutes d1 / 60 := div_nonneg m0 (by norm_num)
  have q12 : Duration.Minutes d1 / 60 ≤ Duration.Minutes d2 / 60 :=
    div_le_div_of_nonneg_right m12 (by norm_num)
  have f0 : 0 ≤ Float64.div (Duration.Minutes d1) 60 := Float64.round_nonneg q0
  have f12 : Float64.div (Duration.Minutes d1) 60 ≤ Float64.div (Duration.Minutes d2) 60 :=
    Float64.round_mono q0 q12
  have r0 := Float64.ofInt_nonneg hr
  have r12 := Float64.ofInt_mono hr hr12
  have p0 := mul_nonneg f0 r0
  exact ⟨Float64.round_nonneg p0,
    Float64.round_mono p0 (mul_le_mul f12 r12 r0 (f0.trans f12))⟩

theorem Rate.Total_mono_aux (r1 r2 d1 d2 : ℤ) (hr : 0 ≤ r1) (hr12 : r1 ≤ r2)
    (hd : 0 ≤ d1) (hd12 : d1 ≤ d2) (hd2 : d2 ≤ maxInt64) (t2 : ℤ)
    (h2 : Rate.Total r2 d2 = some t2) :
    ∃ t1 : ℤ, Rate.Total r1 d1 = some t1 ∧ 0 ≤ t1 ∧ t1 ≤ t2 := by
  obtain ⟨p0, p12⟩ := Rate.Total_product_mono hr hr12 hd hd12 hd2
  unfold Rate.Total Float64.toInt64 at h2 ⊢
  rw [Float64.trunc_of_nonneg p0]
  rw [Float64.trunc_of_nonneg (p0.trans p12)] at h2
  have hf := Int.floor_mono p12
  have hf0 : 0 ≤ ⌊Float64.mul (Float64.div (Duration.Minutes d1) 60) (Float64.ofInt r1)⌋ :=
    Int.floor_nonneg.mpr p0
  split at h2
  · next hi =>
    have ht : ⌊Float64.mul (Float64.div (Duration.Minutes d2) 60) (Float64.ofInt r2)⌋ = t2 :=
      Option.some.inj h2
    have hi1 : isInt64 ⌊Float64.mul (Float64.div (Duration.Minutes d1) 60) (Float64.ofInt r1)⌋ := by
      unfold isInt64 minInt64 maxInt64 at hi ⊢
      omega
    rw [if_pos hi1]
    exact ⟨_, rfl, hf0, ht ▸ hf⟩
  · exact absurd h2 (by simp)

theorem Rate.Total_hour (r : ℤ) (hr : |r| ≤ 2 ^ 53) : Rate.Total r (60 * Minute) = some r := by
  have hm : Duration.Minutes (60 * Minute) = 60 := by
    simpa using Duration.Minutes_whole 60 (by norm_num)
  have h1 : Float64.div 60 60 = 1 := by
    unfold Float64.div
    simpa using Float64.round_intCast 1 (by norm_num)
  have hi : isInt64 r := by
    unfold isInt64 minInt64 maxInt64
    rw [abs_le] at hr
    constructor <;> omega
  unfold Rate.Total
  rw [hm, h1, Float64.ofInt_exact r hr, Float64.mul, one_mul, Float64.round_intCast r hr,
    Float64.toInt64, Float64.trunc_intCast, if_pos hi]

theorem Rate.Total_zero (r : ℤ) : Rate.Total r 0 = some 0 := by
  have hm : Duration.Minutes 0 = 0 := by
    simpa using Duration.Minutes_whole 0 (by norm_num)
  unfold Rate.Total
  rw [hm]
  simp [Float64.div, Float64.mul, Float64.round_zero, Float64.toInt64, Float64.trunc, isInt64,
    minInt64, maxInt64]

theorem Float64.round_two_pow_53_succ :
    Float64.round 9007199254740993 = 9007199254740992 := by
  have hl : Int.log 2 |(9007199254740993 : ℚ)| = 53 := by
    rw [abs_of_pos (by norm_num)]
    apply log_eq_of_bounds <;> norm_num
  have hf : ⌊(9007199254740993 : ℚ) / 2⌋ = 4503599627370496 := by
    rw [Int.floor_eq_iff]
    norm_num
  unfold Float64.round
  rw [if_neg (by norm_num), hl]
  norm_num
  unfold roundHalfEven
  rw [hf]
  norm_num

/-- A power of two is a `float64`. -/
theorem Float64.round_two_pow (e : ℕ) : Float64.round ((2 : ℚ) ^ e) = (2 : ℚ) ^ e := by
  have := Float64.round_exact 1 e (by norm_num)
  simpa using this

/-- The rate `2 ^ 62` over 120 minutes: the `float64` product is `2 ^ 63`, which is
not an `int64`. -/
theorem Rate.Total_overflow : Rate.Total 4611686018427387904 (120 * Minute) = none := by
  have hm : Duration.Minutes (120 * Minute) = 120 := by
    simpa using Duration.Minutes_whole 120 (by norm_num)
  have h1 : Float64.div 120 60 = 2 := by
    unfold Float64.div
    rw [show (120 : ℚ) / 60 = 2 by norm_num]
    simpa using Float64.round_intCast 2 (by norm_num)
  have h2 : Float64.ofInt 4611686018427387904 = 4611686018427387904 := by
    have := Float64.round_two_pow 62
    unfold Float64.ofInt
    norm_num at this ⊢
    exact this
  have h3 : Float64.round 9223372036854775808 = 9223372036854775808 := by
    have := Float64.round_two_pow 63
    norm_num at this
    exact this
  have h4 : Float64.trunc 9223372036854775808 = 9223372036854775808 := by
    simpa using Float64.trunc_intCast 9223372036854775808
  unfold Rate.Total
  rw [hm, h1, h2, Float64.mul]
  norm_num
  rw [h3, Float64.toInt64, h4, if_neg (by decide)]

/-- C8 (as stated, refuted): for the rate `2 ^ 53 + 1`, which `float64` does not
represent, the total over 60 minutes is `2 ^ 53`, not the rate; and for the rate
`2 ^ 62` the total over 120 minutes is not defined at all (the product `2 ^ 63` is
outside `int64`), although both arguments are non-negative. -/
theorem Rate.Total_two_pow_53_succ :
    (Rate.Total 9007199254740993 (60 * Minute) = some 9007199254740992 ∧
      (9007199254740992 : Amount) ≠ 9007199254740993) ∧
    Rate.Total 4611686018427387904 (120 * Minute) = none := by
  have hm : Duration.Minutes (60 * Minute) = 60 := by
    simpa using Duration.Minutes_whole 60 (by norm_num)
  have h1 : Float64.div 60 60 = 1 := by
    unfold Float64.div
    simpa using Float64.round_intCast 1 (by norm_num)
  have h2 : Float64.ofInt 9007199254740993 = 9007199254740992 := by
    unfold Float64.ofInt
    exact_mod_cast Float64.round_two_pow_53_succ
  have h3 : Float64.round 9007199254740992 = 9007199254740992 := by
    simpa using Float64.round_intCast 9007199254740992 (by norm_num)
  have h4 : Float64.trunc 9007199254740992 = 9007199254740992 := by
    simpa using Float64.trunc_intCast 9007199254740992
  refine ⟨⟨?_, by decide⟩, Rate.Total_overflow⟩
  unfold Rate.Total
  rw [hm, h1, h2, Float64.mul, one_mul, h3, Float64.toInt64, h4, if_pos (by decide)]

/-- C8 (amended): `Rate.Total` is monotone wherever its conversion to `int64`
is defined. For all rates `0 ≤ r1 ≤ r2` and all `int64` durations `0 ≤ d1 ≤ d2` such
that `r2.Total(d2)` is defined (the `float64` product has an integer part within
`int64`), `r1.Total(d1)` is defined and `r1.Total(d1) ≤ r2.Total(d2)`, the total
being the integer part of the `float64` value `(minutes(d) / 60) * float64(r)`.
Moreover `r.Total(60 min) = r` for every rate up to `2 ^ 53`, and
`r.Total(0) = 0`. -/
theorem Rate.Total_monotone (r1 r2 : Rate) (d1 d2 : Duration) (hr : 0 ≤ r1) (hr12 : r1 ≤ r2)
    (hd : 0 ≤ d1) (hd12 : d1 ≤ d2) (hd2 : d2 ≤ maxInt64) (t2 : Amount)
    (h2 : Rate.Total r2 d2 = some t2) :
    (∃ t1, Rate.Total r1 d1 = some t1 ∧ 0 ≤ t1 ∧ t1 ≤ t2) ∧
    Rate.Total r1 d1 =
      Float64.toInt64 (Float64.mul (Float64.div (Duration.Minutes d1) 60) (Float64.ofInt r1)) ∧
    (r2 ≤ 2 ^ 53 → Rate.Total r1 (60 * Minute) = some r1 ∧
      Rate.Total r2 (60 * Minute) = some r2) ∧
    Rate.Total r1 0 = some 0 ∧ Rate.Total r2 0 = some 0 := by
  refine ⟨Rate.Total_mono_aux r1 r2 d1 d2 hr hr12 hd hd12 hd2 t2 h2, rfl, fun h => ?_,
    Rate.Total_zero r1, Rate.Total_zero r2⟩
  have hr2 : (0 : ℤ) ≤ r2 := le_trans hr hr12
  have hle : (r1 : ℤ) ≤ 2 ^ 53 := le_trans hr12 h
  exact ⟨Rate.Total_hour r1 (abs_le.mpr ⟨by linarith, hle⟩),
    Rate.Total_hour r2 (abs_le.mpr ⟨by linarith, h⟩)⟩

theorem Rate.Total_monotone_witness :
    ((0 : Rate) ≤ 300 ∧ (300 : Rate) ≤ 800 ∧ (0 : Duration) ≤ 30 * Minute ∧
      30 * Minute ≤ 60 * Minute ∧ 60 * Minute ≤ maxInt64 ∧
      Rate.Total 800 (60 * Minute) = some 800) ∧
    ((∃ t1, Rate.Total 300 (30 * Minute) = some t1 ∧ 0 ≤ t1 ∧ t1 ≤ 800) ∧
    Rate.Total 300 (30 * Minute) =
      Float64.toInt64 (Float64.mul (Float64.div (Duration.Minutes (30 * Minute)) 60)
        (Float64.ofInt 300)) ∧
    ((800 : Rate) ≤ 2 ^ 53 → Rate.Total 300 (60 * Minute) = some 300 ∧
      Rate.Total 800 (60 * Minute) = some 800) ∧
    Rate.Total 300 0 = some 0 ∧ Rate.Total 800 0 = some 0) :=
  ⟨⟨by decide, by decide, by decide, by decide, by decide, Rate.Total_hour 800 (by norm_num)⟩,
    Rate.Total_monotone 300 800 (30 * Minute) (60 * Minute) (by decide) (by decide) (by decide)
      (by decide) (by decide) 800 (Rate.Total_hour 800 (by norm_num))⟩

/-! ## The status message -/

/-- A list with at least `n + 6` elements starts with six elements and goes on
with at least `n`. -/
theorem exists_six_cons (n : Nat) (b : List Byte) (h : n + 6 ≤ b.length) :
    ∃ x0 x1 x2 x3 x4 x5 rest, b = x0 :: x1 :: x2 :: x3 :: x4 :: x5 :: rest ∧
      n ≤ rest.length := by
  rcases b with _ | ⟨x0, _ | ⟨x1, _ | ⟨x2, _ | ⟨x3, _ | ⟨x4, _ | ⟨x5, rest⟩⟩⟩⟩⟩⟩ <;>
    simp only [List.length_cons, List.length_nil] at h
  all_goals first | omega | exact ⟨x0, x1, x2, x3, x4, x5, rest, rfl, by omega⟩

set_option maxRecDepth 100000 in
theorem and_16_eq_testBit : ∀ x : Byte, (x.val &&& 0x10 == 0x10) = x.val.testBit 4 := by
  decide

set_option maxRecDepth 100000 in
theorem and_1_eq_testBit : ∀ x : Byte, (x.val &&& 0x1 == 0x1) = x.val.testBit 0 := by
  decide

set_option maxRecDepth 100000 in
theorem and_15_eq_mod : ∀ x : Byte, x.val &&& 0xf = x.val % 16 := by
  decide

set_option maxRecDepth 100000 in
theorem shiftRight_4_eq_div : ∀ x : Byte, (1 + (x.val >>> 4)) % 256 = 1 + x.val / 16 := by
  decide

/-- What `Status.Unmarshal` does to the first eighteen bytes. -/
theorem Status.Unmarshal_head (s : Status)
    (b0 b1 b2 b3 b4 b5 b6 b7 b8 b9 b10 b11 b12 b13 b14 b15 b16 b17 : Byte) (rest : List Byte) :
    Status.Unmarshal s (b0 :: b1 :: b2 :: b3 :: b4 :: b5 :: b6 :: b7 :: b8 :: b9 :: b10 :: b11 ::
        b12 :: b13 :: b14 :: b15 :: b16 :: b17 :: rest) =
      let s1 : Status := { s with
        Warn := b0.val.testBit 4
        Now := ⟨2007 + ((b4.val % 16 : Nat) : Int), ((1 + b4.val / 16 : Nat) : Int),
          (b5.val : Int), (b6.val : Int), (b7.val : Int), 0⟩
        Basal := ((b12.val + b13.val * 256 : Nat) : Int)
        Reservoir := (b14.val : Int) * 1000 }
      if b17.val.testBit 0 = true then
        match rest with
        | t :: _ :: h1 :: m1 :: h2 :: m2 :: _ =>
          ({ s1 with
              Temp := if t.val ≥ 128 then (t.val : Int) - 256 else (t.val : Int)
              TempRemaining := (h1.val : Int) * Hour + (m1.val : Int) * Minute
              TempDuration := (h2.val : Int) * Hour + (m2.val : Int) * Minute }, none)
        | _ => ((Status.Unmarshal s (b0 :: b1 :: b2 :: b3 :: b4 :: b5 :: b6 :: b7 :: b8 :: b9 ::
            b10 :: b11 :: b12 :: b13 :: b14 :: b15 :: b16 :: b17 :: rest)).1, some "bad packet")
      else (s1, none) := by
  have hflag := and_1_eq_testBit b17
  simp only [Status.Unmarshal, gbit8, sliceFrom_succ_cons, sliceFrom_zero, gtime, gbit16_cons,
    and_16_eq_testBit, and_15_eq_mod, shiftRight_4_eq_div, hflag, Unit, mul_one]
  cases hb : b17.val.testBit 0
  · simp
  · simp only [if_true]
    rcases rest with _ | ⟨t, _ | ⟨x, _ | ⟨h1, _ | ⟨m1, _ | ⟨h2, _ | ⟨m2, rest⟩⟩⟩⟩⟩⟩ <;>
      simp [gdur, gbit8, sliceFrom_succ_cons, sliceFrom_zero, sliceFrom_succ_nil, int8]
    have := t.isLt
    split <;> split <;> omega

/-- C9: the layout `Status.Unmarshal` decodes. For every receiver `s` and every
input `b` of at least 18 bytes, and of at least 24 bytes when bit 0x01 of `b[17]`
is set, the call returns `nil` with `Warn` = bit 0x10 of `b[0]`, `Now` = the
packed time of `b[4..7]` (year 2007 + low nibble of `b[4]`, month 1 + high
nibble, day `b[5]`, hour `b[6]`, minute `b[7]`, second 0), `Basal` = the
little-endian u16 of `b[12..13]`, `Reservoir` = `b[14] * 1000`; with the bit of
`b[17]` set, `TempRemaining` = `b[20]` hours + `b[21]` minutes and `TempDuration`
= `b[22]` hours + `b[23]` minutes; with the bit clear, `Temp`, `TempRemaining`
and `TempDuration` are those of `s`. -/
theorem Status.Unmarshal_layout (s : Status) (b : List Byte) (hlen : 18 ≤ b.length)
    (htemp : (b.getD 17 0).val.testBit 0 = true → 24 ≤ b.length) :
    (Status.Unmarshal s b).2 = none ∧
    (Status.Unmarshal s b).1.Warn = (b.getD 0 0).val.testBit 4 ∧
    (Status.Unmarshal s b).1.Now =
      ⟨2007 + (((b.getD 4 0).val % 16 : Nat) : Int), ((1 + (b.getD 4 0).val / 16 : Nat) : Int),
        ((b.getD 5 0).val : Int), ((b.getD 6 0).val : Int), ((b.getD 7 0).val : Int), 0⟩ ∧
    (Status.Unmarshal s b).1.Basal = (((b.getD 12 0).val + (b.getD 13 0).val * 256 : Nat) : Int) ∧
    (Status.Unmarshal s b).1.Reservoir = ((b.getD 14 0).val : Int) * 1000 ∧
    (if (b.getD 17 0).val.testBit 0 = true then
      (Status.Unmarshal s b).1.TempRemaining =
          ((b.getD 20 0).val : Int) * Hour + ((b.getD 21 0).val : Int) * Minute ∧
        (Status.Unmarshal s b).1.TempDuration =
          ((b.getD 22 0).val : Int) * Hour + ((b.getD 23 0).val : Int) * Minute
    else
      (Status.Unmarshal s b).1.Temp = s.Temp ∧
        (Status.Unmarshal s b).1.TempRemaining = s.TempRemaining ∧
        (Status.Unmarshal s b).1.TempDuration = s.TempDuration) := by
  obtain ⟨b0, b1, b2, b3, b4, b5, r1, rfl, h1⟩ := exists_six_cons 12 b hlen
  obtain ⟨b6, b7, b8, b9, b10, b11, r2, rfl, h2⟩ := exists_six_cons 6 r1 h1
  obtain ⟨b12, b13, b14, b15, b16, b17, rest, rfl, -⟩ := exists_six_cons 0 r2 h2
  rw [Status.Unmarshal_head]
  simp only [List.getD_cons_succ, List.getD_cons_zero] at htemp ⊢
  cases hb : b17.val.testBit 0
  · simp
  · have h24 := htemp hb
    simp only [List.length_cons] at h24
    obtain ⟨t, x, h1, m1, h2, m2, rest, rfl, -⟩ := exists_six_cons 0 rest (by omega)
    simp

theorem Status.Unmarshal_layout_witness :
    (18 ≤ status_NoTemp.length ∧ 18 ≤ status.length ∧ 18 ≤ status_temp.length) ∧
    (Status.Unmarshal Status.zero status_NoTemp =
        (⟨false, ⟨2016, 6, 4, 14, 3, 0⟩, 250, 8000, 0, 0, 0⟩, none) ∧
      Status.Unmarshal Status.zero status =
        (⟨false, ⟨2016, 6, 5, 15, 10, 0⟩, 250, 8000, -70,
          4 * Hour + 12 * Minute, 4 * Hour + 30 * Minute⟩, none) ∧
      Status.Unmarshal Status.zero status_temp =
        (⟨false, ⟨2016, 6, 5, 15, 23, 0⟩, 250, 8000, 40, 24 * Minute, 30 * Minute⟩, none)) ∧
    ((Status.Unmarshal Status.zero status_NoTemp).1.Basal = 250 ∧
      (Status.Unmarshal Status.zero status).1.TempRemaining = 4 * Hour + 12 * Minute ∧
      (Status.Unmarshal Status.zero status_temp).1.TempDuration = 30 * Minute) :=
  ⟨by decide, by decide,
    by
      have h1 := Status.Unmarshal_layout Status.zero status_NoTemp (by decide) (by decide)
      have h2 := Status.Unmarshal_layout Status.zero status (by decide) (by decide)
      have h3 := Status.Unmarshal_layout Status.zero status_temp (by decide) (by decide)
      refine ⟨?_, ?_, ?_⟩
      · rw [h1.2.2.2.1]; decide
      · have := h2.2.2.2.2.2
        rw [if_pos (by decide)] at this
        rw [this.1]; decide
      · have := h3.2.2.2.2.2
        rw [if_pos (by decide)] at this
        rw [this.2]; decide⟩

/-- C10 (as stated, refuted): with the temp block present and the raw temp byte
`b[18] = 0x80 = 128`, which is not greater than 128, `Temp` is not 128 but -128:
`Temp` is an `int8` and `int8(128)` wraps. -/
theorem Status.Unmarshal_raw_128_wraps :
    (Status.Unmarshal Status.zero
      [0x01, 0x03, 0x00, 0x00, 0x59, 0x05, 0x0f, 0x17, 0x00, 0x00, 0x00, 0x00,
       0xfa, 0x00, 0x08, 0x00, 0x00, 0x01, 0x80, 0x00, 0x00, 0x18, 0x00, 0x1e]).1.Temp = -128 ∧
    ¬ ((128 : Nat) > 128) ∧ (-128 : Int) ≠ 128 := by
  decide

/-- C10 (amended): the sign decoding of the temp byte. When the temp block is
present (bit 0x01 of `b[17]` set, at least 24 bytes), for every raw temp byte
`r = b[18]`, `Status.Unmarshal` sets `Temp = -(256 - r)` when `r ≥ 128` and
`Temp = r` when `r < 128`: the two's-complement reading of `r`, always within
-128..127. -/
theorem Status.Unmarshal_temp (s : Status) (b : List Byte) (hlen : 24 ≤ b.length)
    (hflag : (b.getD 17 0).val.testBit 0 = true) :
    (Status.Unmarshal s b).2 = none ∧
    (Status.Unmarshal s b).1.Temp =
      (if (b.getD 18 0).val ≥ 128 then -(256 - ((b.getD 18 0).val : Int))
        else ((b.getD 18 0).val : Int)) ∧
    -128 ≤ (Status.Unmarshal s b).1.Temp ∧ (Status.Unmarshal s b).1.Temp ≤ 127 := by
  obtain ⟨b0, b1, b2, b3, b4, b5, r1, rfl, h1⟩ := exists_six_cons 18 b hlen
  obtain ⟨b6, b7, b8, b9, b10, b11, r2, rfl, h2⟩ := exists_six_cons 12 r1 h1
  obtain ⟨b12, b13, b14, b15, b16, b17, r3, rfl, h3⟩ := exists_six_cons 6 r2 h2
  obtain ⟨t, x, hh1, m1, hh2, m2, rest, rfl, -⟩ := exists_six_cons 0 r3 h3
  rw [Status.Unmarshal_head]
  simp only [List.getD_cons_succ, List.getD_cons_zero] at hflag ⊢
  simp only [hflag, if_true, true_and]
  have := t.isLt
  split <;> omega

theorem Status.Unmarshal_temp_witness :
    (24 ≤ status.length ∧ (status.getD 17 0).val.testBit 0 = true ∧
      (status.getD 18 0).val = 0xba ∧ (Status.Unmarshal Status.zero status).1.Temp = -70) ∧
    (24 ≤ status_temp.length ∧ (status_temp.getD 17 0).val.testBit 0 = true ∧
      (status_temp.getD 18 0).val = 0x28 ∧
      (Status.Unmarshal Status.zero status_temp).1.Temp = 40) :=
  ⟨⟨by decide, by decide, by decide, by
      rw [(Status.Unmarshal_temp Status.zero status (by decide) (by decide)).2.1]
      decide⟩,
    ⟨by decide, by decide, by decide, by
      rw [(Status.Unmarshal_temp Status.zero status_temp (by decide) (by decide)).2.1]
      decide⟩⟩

/-! ## Short inputs -/

/-- An input of fewer than 18 bytes is rejected by `Status.Unmarshal`. -/
theorem Status_Unmarshal_short (s : Status) (b : List Byte) (h : b.length < 18) :
    (Status.Unmarshal s b).2 = some "bad packet" := by
  rcases b with _ | ⟨x0, _ | ⟨x1, _ | ⟨x2, _ | ⟨x3, _ | ⟨x4, _ | ⟨x5, _ | ⟨x6, _ | ⟨x7, _ | ⟨x8, _ | ⟨x9, _ | ⟨x10, _ | ⟨x11, _ | ⟨x12, _ | ⟨x13, _ | ⟨x14, _ | ⟨x15, _ | ⟨x16, _ | ⟨x17, rest⟩⟩⟩⟩⟩⟩⟩⟩⟩⟩⟩⟩⟩⟩⟩⟩⟩⟩ <;>
    simp only [List.length_cons, List.length_nil] at h <;>
    first
    | omega
    | simp [Status.Unmarshal, gbit8, sliceFrom_succ_cons, sliceFrom_zero, sliceFrom_succ_nil,
        gtime, gbit16]

/-- C11: `Status.Unmarshal` returns for every input (its panics are recovered),
and it returns an error exactly when the input is too short for its layout:
fewer than 18 bytes, or at least 18 bytes with bit 0x01 of `b[17]` set and fewer
than 24 bytes. On every other input it returns `nil`. -/
theorem Status.Unmarshal_error_iff (s : Status) (b : List Byte) :
    ((Status.Unmarshal s b).2 = some "bad packet" ↔
      (b.length < 18 ∨
        (18 ≤ b.length ∧ (b.getD 17 0).val.testBit 0 = true ∧ b.length < 24))) ∧
    ((Status.Unmarshal s b).2 = none ∨ (Status.Unmarshal s b).2 = some "bad packet") := by
  rcases Nat.lt_or_ge b.length 18 with hlt | hge
  · have := Status_Unmarshal_short s b hlt
    simp [this, hlt]
  · obtain ⟨b0, b1, b2, b3, b4, b5, r1, rfl, h1⟩ := exists_six_cons 12 b hge
    obtain ⟨b6, b7, b8, b9, b10, b11, r2, rfl, h2⟩ := exists_six_cons 6 r1 h1
    obtain ⟨b12, b13, b14, b15, b16, b17, rest, rfl, -⟩ := exists_six_cons 0 r2 h2
    rw [Status.Unmarshal_head]
    simp only [List.getD_cons_succ, List.getD_cons_zero, List.length_cons]
    cases hb : b17.val.testBit 0
    · simp
    · rcases rest with _ | ⟨t, _ | ⟨x, _ | ⟨h1, _ | ⟨m1, _ | ⟨h2, _ | ⟨m2, rest⟩⟩⟩⟩⟩⟩ <;> simp

theorem Status.Unmarshal_error_iff_witness :
    (Status.Unmarshal Status.zero [1, 2, 3]).2 = some "bad packet" ∧
    (Status.Unmarshal Status.zero status_NoTemp).2 = none ∧
    (Status.Unmarshal Status.zero (status.take 23)).2 = some "bad packet" :=
  ⟨(Status.Unmarshal_error_iff Status.zero [1, 2, 3]).1.mpr (Or.inl (by decide)),
    by decide, (Status.Unmarshal_error_iff Status.zero (status.take 23)).1.mpr
      (Or.inr (by decide))⟩

set_option maxRecDepth 100000 in
theorem and_2_eq_testBit : ∀ x : Byte, (x.val &&& 0x2 == 0x2) = x.val.testBit 1 := by
  decide

/-! ## The replies `Status2`, `Status3`, `Status4` -/

/-- What `Status2.Unmarshal` does to an input of at least 18 bytes. -/
theorem Status2_Unmarshal_head (s : Status2)
    (b0 b1 b2 b3 b4 b5 b6 b7 b8 b9 b10 b11 b12 b13 b14 b15 b16 b17 : Byte) (rest : List Byte) :
    Status2.Unmarshal s (b0 :: b1 :: b2 :: b3 :: b4 :: b5 :: b6 :: b7 :: b8 :: b9 :: b10 ::
        b11 :: b12 :: b13 :: b14 :: b15 :: b16 :: b17 :: rest) =
      (⟨⟨2007 + ((b6.val % 16 : Nat) : Int), ((1 + b6.val / 16 : Nat) : Int),
          (b7.val : Int), (b8.val : Int), (b9.val : Int), 0⟩,
        ((b4.val + b5.val * 256 : Nat) : Int),
        ((10 * (b16.val + b17.val * 256) % 65536 : Nat) : Int)⟩, none) := by
  simp only [Status2.Unmarshal, gbit8, sliceFrom_succ_cons, sliceFrom_zero, gtime, gbit16_cons,
    and_15_eq_mod, shiftRight_4_eq_div, mul_one]

/-- An input of fewer than 18 bytes is rejected by `Status2.Unmarshal`. -/
theorem Status2_Unmarshal_short (s : Status2) (b : List Byte) (h : b.length < 18) :
    (Status2.Unmarshal s b).2 = some "packet error" := by
  rcases b with _ | ⟨x0, _ | ⟨x1, _ | ⟨x2, _ | ⟨x3, _ | ⟨x4, _ | ⟨x5, _ | ⟨x6, _ | ⟨x7, _ | ⟨x8, _ | ⟨x9, _ | ⟨x10, _ | ⟨x11, _ | ⟨x12, _ | ⟨x13, _ | ⟨x14, _ | ⟨x15, _ | ⟨x16, _ | ⟨x17, rest⟩⟩⟩⟩⟩⟩⟩⟩⟩⟩⟩⟩⟩⟩⟩⟩⟩⟩ <;>
    simp only [List.length_cons, List.length_nil] at h <;>
    first
    | omega
    | simp [Status2.Unmarshal, gbit8, sliceFrom_succ_cons, sliceFrom_zero, sliceFrom_succ_nil,
        gtime, gbit16]

/-- The part of C14 that holds: for every input of at least 18 bytes
`Status2.Unmarshal` succeeds with `Bolus` = the little-endian u16 of `b[4..5]`,
`BolusTime` = the packed time of `b[6..9]`, and `IOB` = 10 times the raw u16 of
`b[16..17]` reduced modulo 65536, which is 10 times the raw value when that is
at most 6553. -/
theorem Status2.Unmarshal_fields (s : Status2) (b : List Byte) (hlen : 18 ≤ b.length) :
    (Status2.Unmarshal s b).2 = none ∧
    (Status2.Unmarshal s b).1.Bolus = (((b.getD 4 0).val + (b.getD 5 0).val * 256 : Nat) : Int) ∧
    (Status2.Unmarshal s b).1.BolusTime =
      ⟨2007 + (((b.getD 6 0).val % 16 : Nat) : Int), ((1 + (b.getD 6 0).val / 16 : Nat) : Int),
        ((b.getD 7 0).val : Int), ((b.getD 8 0).val : Int), ((b.getD 9 0).val : Int), 0⟩ ∧
    (Status2.Unmarshal s b).1.IOB =
      ((10 * ((b.getD 16 0).val + (b.getD 17 0).val * 256) % 65536 : Nat) : Int) ∧
    ((b.getD 16 0).val + (b.getD 17 0).val * 256 ≤ 6553 →
      (Status2.Unmarshal s b).1.IOB =
        10 * (((b.getD 16 0).val + (b.getD 17 0).val * 256 : Nat) : Int)) := by
  obtain ⟨b0, b1, b2, b3, b4, b5, r1, rfl, h1⟩ := exists_six_cons 12 b hlen
  obtain ⟨b6, b7, b8, b9, b10, b11, r2, rfl, h2⟩ := exists_six_cons 6 r1 h1
  obtain ⟨b12, b13, b14, b15, b16, b17, rest, rfl, -⟩ := exists_six_cons 0 r2 h2
  rw [Status2_Unmarshal_head]
  simp only [List.getD_cons_succ, List.getD_cons_zero, true_and]
  intro h
  have hx : 10 * (b16.val + b17.val * 256) % 65536 = 10 * (b16.val + b17.val * 256) := by
    omega
  rw [hx]
  push_cast
  rfl

/-- C14 (the code at the failing input): the test vector of `TestStatus2` with
the raw IOB bytes `b[16..17]` set to `9a 19`, the raw value 6554. The decoder
returns `nil` with `IOB` = 4 milliunits; ten times the raw value is 65540. -/
theorem Status2.Unmarshal_IOB_wraps :
    ((Status2.Unmarshal ⟨Time.zero, 0, 0⟩
      [0x01, 0x29, 0x01, 0x00, 0xfa, 0x00, 0x59, 0x05, 0x12, 0x09, 0xa0, 0x86,
       0x01, 0x00, 0xb8, 0x88, 0x9a, 0x19, 0x3b, 0x04, 0x00, 0x00, 0x07, 0x00]) =
      (⟨⟨2016, 6, 5, 18, 9, 0⟩, 250, 4⟩, none)) ∧
    (0x9a + 0x19 * 256 = 6554) ∧ ((4 : Amount) ≠ 10 * 6554) ∧
    Status2.Unmarshal ⟨Time.zero, 0, 0⟩ status2 = (⟨⟨2016, 6, 5, 18, 9, 0⟩, 250, 240⟩, none) := by
  decide

/-- What `Status3.Unmarshal` does to an input of at least 12 bytes. -/
theorem Status3_Unmarshal_head (s : Status3)
    (b0 b1 b2 b3 b4 b5 b6 b7 b8 b9 b10 b11 : Byte) (rest : List Byte) :
    Status3.Unmarshal s (b0 :: b1 :: b2 :: b3 :: b4 :: b5 :: b6 :: b7 :: b8 :: b9 :: b10 ::
        b11 :: rest) =
      (⟨((b4.val + b5.val * 256 + b6.val * 65536 + b7.val * 16777216 : Nat) : Int),
        ((b8.val + b9.val * 256 + b10.val * 65536 + b11.val * 16777216 : Nat) : Int),
        b2.val.testBit 0, b2.val.testBit 1⟩, none) := by
  simp only [Status3.Unmarshal, gbit8, sliceFrom_succ_cons, sliceFrom_zero, gbit32_cons,
    and_1_eq_testBit, and_2_eq_testBit, mul_one]

/-- An input of fewer than 12 bytes is rejected by `Status3.Unmarshal`. -/
theorem Status3_Unmarshal_short (s : Status3) (b : List Byte) (h : b.length < 12) :
    (Status3.Unmarshal s b).2 = some "packet error" := by
  rcases b with _ | ⟨x0, _ | ⟨x1, _ | ⟨x2, _ | ⟨x3, _ | ⟨x4, _ | ⟨x5, _ | ⟨x6, _ | ⟨x7, _ | ⟨x8, _ | ⟨x9, _ | ⟨x10, _ | ⟨x11, rest⟩⟩⟩⟩⟩⟩⟩⟩⟩⟩⟩⟩ <;>
    simp only [List.length_cons, List.length_nil] at h <;>
    first
    | omega
    | simp [Status3.Unmarshal, gbit8, sliceFrom_succ_cons, sliceFrom_zero, sliceFrom_succ_nil,
        gbit32]

/-- C15: the layout `Status3.Unmarshal` decodes. For every input of at least 12
bytes the call returns `nil` with `Temp` = bit 0x01 of `b[2]`, `Suspend` = bit
0x02 of `b[2]`, `DailyBolus` = the little-endian u32 of `b[4..7]` and
`DailyBasal` = the little-endian u32 of `b[8..11]`, in milliunits; for every
shorter input it returns an error. -/
theorem Status3.Unmarshal_daily_totals (s : Status3) (b : List Byte) :
    (12 ≤ b.length →
      (Status3.Unmarshal s b).2 = none ∧
      (Status3.Unmarshal s b).1.Temp = (b.getD 2 0).val.testBit 0 ∧
      (Status3.Unmarshal s b).1.Suspend = (b.getD 2 0).val.testBit 1 ∧
      (Status3.Unmarshal s b).1.DailyBolus =
        (((b.getD 4 0).val + (b.getD 5 0).val * 256 + (b.getD 6 0).val * 65536 +
          (b.getD 7 0).val * 16777216 : Nat) : Int) ∧
      (Status3.Unmarshal s b).1.DailyBasal =
        (((b.getD 8 0).val + (b.getD 9 0).val * 256 + (b.getD 10 0).val * 65536 +
          (b.getD 11 0).val * 16777216 : Nat) : Int)) ∧
    (b.length < 12 → (Status3.Unmarshal s b).2 = some "packet error") := by
  refine ⟨fun hlen => ?_, Status3_Unmarshal_short s b⟩
  obtain ⟨b0, b1, b2, b3, b4, b5, r1, rfl, h1⟩ := exists_six_cons 6 b hlen
  obtain ⟨b6, b7, b8, b9, b10, b11, rest, rfl, -⟩ := exists_six_cons 0 r1 h1
  rw [Status3_Unmarshal_head]
  simp only [List.getD_cons_succ, List.getD_cons_zero, and_self]

theorem Status3.Unmarshal_daily_totals_witness :
    12 ≤ status3.length ∧
    Status3.Unmarshal ⟨0, 0, false, false⟩ status3 = (⟨250, 921, true, false⟩, none) ∧
    (Status3.Unmarshal ⟨0, 0, false, false⟩ status3).1.DailyBasal = 921 ∧
    (Status3.Unmarshal ⟨0, 0, false, false⟩ (status3.take 11)).2 = some "packet error" :=
  ⟨by decide, by decide,
    by
      rw [((Status3.Unmarshal_daily_totals ⟨0, 0, false, false⟩ status3).1 (by decide)).2.2.2.2]
      decide,
    (Status3.Unmarshal_daily_totals ⟨0, 0, false, false⟩ (status3.take 11)).2 (by decide)⟩

theorem Time.clock_bounds (t : Time) :
    0 ≤ t.Hour * 60 + t.Minute ∧ t.Hour * 60 + t.Minute < 1440 := by
  unfold Time.Hour Time.Minute
  omega

theorem Time.abs_AddSeconds (t : Time) (n : Int) : (t.AddSeconds n).abs = t.abs + n := by
  simp only [Time.abs, Time.AddSeconds]
  ring

theorem Time.Sub_AddSeconds (t : Time) (n : Int) : (t.AddSeconds n).Sub t = n * Second := by
  rw [Time.Sub, Time.abs_AddSeconds]
  ring

/-- The arithmetic of the combo window: with both times of day below 24:00, one
conditional wrap is the reduction modulo a day. -/
theorem window_arith (m1 m2 : ℤ) (h1 : 0 ≤ m1) (h1' : m1 < 1440) (h2 : 0 ≤ m2)
    (h2' : m2 < 1440) :
    (if (m2 - m1) * 60 < 0 then (m2 - m1) * 60 + 86400 else (m2 - m1) * 60) =
        (m2 - m1) * 60 % 86400 ∧
      0 ≤ (if (m2 - m1) * 60 < 0 then (m2 - m1) * 60 + 86400 else (m2 - m1) * 60) *
        1000000000 ∧
      (if (m2 - m1) * 60 < 0 then (m2 - m1) * 60 + 86400 else (m2 - m1) * 60) * 1000000000 <
        24 * 3600000000000 := by
  split <;> omega

/-- What `Status4.Unmarshal` does to an input of at least 12 bytes. -/
theorem Status4_Unmarshal_head (s : Status4)
    (b0 b1 b2 b3 b4 b5 b6 b7 b8 b9 b10 b11 : Byte) (rest : List Byte) :
    Status4.Unmarshal s (b0 :: b1 :: b2 :: b3 :: b4 :: b5 :: b6 :: b7 :: b8 :: b9 :: b10 ::
        b11 :: rest) =
      let start : Time := ⟨2007 + ((b2.val % 16 : Nat) : Int), ((1 + b2.val / 16 : Nat) : Int),
          (b3.val : Int), (b4.val : Int), (b5.val : Int), 0⟩
      let d : Int := ((b6.val : Int) * 60 + (b7.val : Int) - (start.Hour * 60 + start.Minute)) * 60
      (⟨b1.val.testBit 0, start, start.AddSeconds (if d < 0 then d + 86400 else d),
        ((b8.val + b9.val * 256 : Nat) : Int), ((b10.val + b11.val * 256 : Nat) : Int)⟩,
        none) := by
  simp only [Status4.Unmarshal, gbit8, sliceFrom_succ_cons, sliceFrom_zero, gtime, gbit16_cons,
    and_1_eq_testBit, and_15_eq_mod, shiftRight_4_eq_div, mul_one]
  norm_num

/-- An input of fewer than 12 bytes is rejected by `Status4.Unmarshal`. -/
theorem Status4_Unmarshal_short (s : Status4) (b : List Byte) (h : b.length < 12) :
    (Status4.Unmarshal s b).2 = some "packet error" := by
  rcases b with _ | ⟨x0, _ | ⟨x1, _ | ⟨x2, _ | ⟨x3, _ | ⟨x4, _ | ⟨x5, _ | ⟨x6, _ | ⟨x7, _ | ⟨x8, _ | ⟨x9, _ | ⟨x10, _ | ⟨x11, rest⟩⟩⟩⟩⟩⟩⟩⟩⟩⟩⟩⟩ <;>
    simp only [List.length_cons, List.length_nil] at h <;>
    first
    | omega
    | simp [Status4.Unmarshal, gbit8, sliceFrom_succ_cons, sliceFrom_zero, sliceFrom_succ_nil,
        gtime, gbit16]

/-- C16 (as stated, refuted): the test vector of `TestStatus4` with the end hour
byte `b[6]` set to 48. The start is 22:33, the end bytes say 48:33, and `End`
lies 93600 seconds (26 hours) after `Start`, not the 7200 seconds that the
reduction modulo 24 hours gives. -/
theorem Status4.Unmarshal_hour_48 :
    (Status4.Unmarshal ⟨false, Time.zero, Time.zero, 0, 0⟩
      [0x01, 0x01, 0x59, 0x05, 0x16, 0x21, 0x30, 0x21, 0xc8, 0x00, 0xe8, 0x03,
       0x00, 0x00, 0x04, 0x00]) =
      (⟨true, ⟨2016, 6, 5, 22, 33, 0⟩, ⟨2016, 6, 5, 22, 33, 93600⟩, 200, 1000⟩, none) ∧
    Time.Sub ⟨2016, 6, 5, 22, 33, 93600⟩ ⟨2016, 6, 5, 22, 33, 0⟩ = 26 * Hour ∧
    ¬ (26 * Hour < 24 * Hour) ∧
    ((((48 : Int) * 60 + 33) - (22 * 60 + 33)) * 60) % 86400 = 7200 := by
  decide

/-- C16 (amended): the combo window `Status4.Unmarshal` decodes. For every input
of at least 12 bytes the call returns `nil` with `Active` = bit 0x01 of `b[1]`,
`Start` = the packed time of `b[2..5]`, `Delivered` and `Total` = the
little-endian u16 values of `b[8..9]` and `b[10..11]`, and `End` = `Start` plus
`D` seconds, where `d = ((hh*60 + mm) - (Start.hour*60 + Start.minute)) * 60`
with `hh = b[6]`, `mm = b[7]`, and `D = d + 86400` when `d < 0`, `D = d`
otherwise (one wrap, not a reduction modulo 24 hours). When the end bytes are a
time of day below 24:00 (`hh*60 + mm < 1440`), `D` is `d mod 86400`, so
`0 ≤ End - Start < 24 h`, and an end time of day earlier than the start gives
the next day. -/
theorem Status4.Unmarshal_window (s : Status4) (b : List Byte) (hlen : 12 ≤ b.length) :
    (Status4.Unmarshal s b).2 = none ∧
    (Status4.Unmarshal s b).1.Active = (b.getD 1 0).val.testBit 0 ∧
    (Status4.Unmarshal s b).1.Start =
      ⟨2007 + (((b.getD 2 0).val % 16 : Nat) : Int), ((1 + (b.getD 2 0).val / 16 : Nat) : Int),
        ((b.getD 3 0).val : Int), ((b.getD 4 0).val : Int), ((b.getD 5 0).val : Int), 0⟩ ∧
    (Status4.Unmarshal s b).1.Delivered =
      (((b.getD 8 0).val + (b.getD 9 0).val * 256 : Nat) : Int) ∧
    (Status4.Unmarshal s b).1.Total =
      (((b.getD 10 0).val + (b.getD 11 0).val * 256 : Nat) : Int) ∧
    (∀ d : Int,
      d = (((b.getD 6 0).val : Int) * 60 + ((b.getD 7 0).val : Int) -
        ((Status4.Unmarshal s b).1.Start.Hour * 60 +
          (Status4.Unmarshal s b).1.Start.Minute)) * 60 →
      (Status4.Unmarshal s b).1.End =
          (Status4.Unmarshal s b).1.Start.AddSeconds (if d < 0 then d + 86400 else d) ∧
        (Status4.Unmarshal s b).1.End.Sub (Status4.Unmarshal s b).1.Start =
          (if d < 0 then d + 86400 else d) * Second ∧
        ((b.getD 6 0).val * 60 + (b.getD 7 0).val < 1440 →
          (if d < 0 then d + 86400 else d) = d % 86400 ∧
          0 ≤ (Status4.Unmarshal s b).1.End.Sub (Status4.Unmarshal s b).1.Start ∧
          (Status4.Unmarshal s b).1.End.Sub (Status4.Unmarshal s b).1.Start < 24 * Hour)) := by
  obtain ⟨b0, b1, b2, b3, b4, b5, r1, rfl, h1⟩ := exists_six_cons 6 b hlen
  obtain ⟨b6, b7, b8, b9, b10, b11, rest, rfl, -⟩ := exists_six_cons 0 r1 h1
  rw [Status4_Unmarshal_head]
  simp only [List.getD_cons_succ, List.getD_cons_zero, true_and]
  intro d hd
  subst hd
  refine ⟨rfl, Time.Sub_AddSeconds _ _, fun hday => ?_⟩
  rw [Time.Sub_AddSeconds]
  have hc := Time.clock_bounds ⟨2007 + ((b2.val % 16 : Nat) : Int),
    ((1 + b2.val / 16 : Nat) : Int), (b3.val : Int), (b4.val : Int), (b5.val : Int), 0⟩
  have hday' : (b6.val : Int) * 60 + (b7.val : Int) < 1440 := by exact_mod_cast hday
  exact window_arith _ _ hc.1 hc.2 (by positivity) hday'

theorem Status4.Unmarshal_window_witness :
    (12 ≤ status4.length ∧ 12 ≤ status4_cancelled.length) ∧
    (Status4.Unmarshal ⟨false, Time.zero, Time.zero, 0, 0⟩ status4 =
        (⟨true, ⟨2016, 6, 5, 22, 33, 0⟩, ⟨2016, 6, 5, 22, 33, 14400⟩, 200, 1000⟩, none) ∧
      Time.abs ⟨2016, 6, 5, 22, 33, 14400⟩ = Time.abs ⟨2016, 6, 6, 2, 33, 0⟩) ∧
    (Status4.Unmarshal ⟨false, Time.zero, Time.zero, 0, 0⟩ status4_cancelled =
        (⟨false, ⟨2016, 6, 5, 22, 33, 0⟩, ⟨2016, 6, 5, 22, 33, 240⟩, 210, 1000⟩, none) ∧
      Time.abs ⟨2016, 6, 5, 22, 33, 240⟩ = Time.abs ⟨2016, 6, 5, 22, 37, 0⟩) ∧
    ((Status4.Unmarshal ⟨false, Time.zero, Time.zero, 0, 0⟩ status4).1.Total = 1000 ∧
      (Status4.Unmarshal ⟨false, Time.zero, Time.zero, 0, 0⟩ status4_cancelled).1.Delivered
        = 210) :=
  ⟨by decide, by decide, by decide,
    by
      rw [(Status4.Unmarshal_window ⟨false, Time.zero, Time.zero, 0, 0⟩ status4
        (by decide)).2.2.2.2.1]
      decide,
    by
      rw [(Status4.Unmarshal_window ⟨false, Time.zero, Time.zero, 0, 0⟩ status4_cancelled
        (by decide)).2.2.2.1]
      decide⟩

/-! ## Decoders and short inputs -/

/-- An input of fewer than 6 bytes is rejected by `Bolus.Unmarshal`. -/
theorem Bolus_Unmarshal_short (s : pump.Bolus) (b : List Byte) (h : b.length < 6) :
    (Bolus.Unmarshal s b).2 = some "frame error" := by
  rcases b with _ | ⟨x0, _ | ⟨x1, _ | ⟨x2, _ | ⟨x3, _ | ⟨x4, _ | ⟨x5, rest⟩⟩⟩⟩⟩⟩ <;>
    simp only [List.length_cons, List.length_nil] at h <;>
    first
    | omega
    | simp [Bolus.Unmarshal, sliceFrom_succ_cons, sliceFrom_zero, sliceFrom_succ_nil, gbit16]

/-- An input of fewer than 2 bytes is rejected by `Deliverystatus.Unmarshal`. -/
theorem Deliverystatus_Unmarshal_short (s : Deliverystatus) (b : List Byte)
    (h : b.length < 2) : (Deliverystatus.Unmarshal s b).2 = some "frame error" := by
  rcases b with _ | ⟨x0, _ | ⟨x1, rest⟩⟩ <;>
    simp only [List.length_cons, List.length_nil] at h <;>
    first
    | omega
    | simp [Deliverystatus.Unmarshal, sliceFrom_succ_cons, sliceFrom_zero, sliceFrom_succ_nil,
        gbit8]

/-- C12 (the code at the failing input): `Keepalive.Unmarshal`, the one decoder
without a deferred `recover`, panics on the empty body and on a one-byte body.
The decoders that recover return an error on the empty input (and `Empty`
accepts it). -/
theorem Keepalive.Unmarshal_short_panics (k : Keepalive) (x : Byte) :
    Keepalive.Unmarshal k [] = (k, .panic) ∧ Keepalive.Unmarshal k [x] = (k, .panic) ∧
    (Status.Unmarshal Status.zero []).2 = some "bad packet" ∧
    (Status2.Unmarshal ⟨Time.zero, 0, 0⟩ []).2 = some "packet error" ∧
    (Status3.Unmarshal ⟨0, 0, false, false⟩ []).2 = some "packet error" ∧
    (Status4.Unmarshal ⟨false, Time.zero, Time.zero, 0, 0⟩ []).2 = some "packet error" ∧
    (Bolus.Unmarshal ⟨0, 0⟩ []).2 = some "frame error" ∧
    (Deliverystatus.Unmarshal ⟨.BolusUnknown⟩ []).2 = some "frame error" ∧
    Empty.Unmarshal [] = none := by
  refine ⟨rfl, rfl, ?_, ?_, ?_, ?_, ?_, ?_, ?_⟩ <;> decide

/-! ## The frame decoder -/

theorem getD_drop (l : List Byte) (n i : Nat) : (l.drop n).getD i 0 = l.getD (n + i) 0 := by
  simp [List.getD_eq_getElem?_getD, List.getElem?_drop]

/-- A list with at least `n + 4` elements starts with four elements and goes on
with at least `n`. -/
theorem exists_four_cons (n : Nat) (b : List Byte) (h : n + 4 ≤ b.length) :
    ∃ x0 x1 x2 x3 rest, b = x0 :: x1 :: x2 :: x3 :: rest ∧ n ≤ rest.length := by
  rcases b with _ | ⟨x0, _ | ⟨x1, _ | ⟨x2, _ | ⟨x3, rest⟩⟩⟩⟩ <;>
    simp only [List.length_cons, List.length_nil] at h
  all_goals first | omega | exact ⟨x0, x1, x2, x3, rest, rfl, by omega⟩

/-- The frame decoder on an input that starts with eight bytes. -/
theorem frame.Unmarshal_cons (crc32hd : List Byte → Word32 × Bool)
    (crc32 : List Byte → Word32) (f : frame) (b0 b1 b2 b3 b4 b5 b6 b7 : Byte)
    (rest : List Byte) :
    frame.Unmarshal crc32hd crc32 f (b0 :: b1 :: b2 :: b3 :: b4 :: b5 :: b6 :: b7 :: rest) =
      if (crc32hd [b0, b1, b2, b3]).2 = true ∧ (crc32hd [b0, b1, b2, b3]).1.val ≠
          b4.val + b5.val * 256 + b6.val * 65536 + b7.val * 16777216 then
        ({ f with Typ := b0, Tag := b2 }, .error "header checksum error")
      else if b3.val = 0 then
        ({ f with Typ := b0, Tag := b2 }, .ok)
      else if rest.length < b3.val + 4 then
        ({ f with Typ := b0, Tag := b2 }, .panic)
      else
        match gbit32be (rest.drop b3.val) with
        | none => (⟨b0, b2, rest.take b3.val⟩, .panic)
        | some (chk1, _) =>
          if (crc32 (rest.take b3.val)).val ≠ chk1 then
            (⟨b0, b2, rest.take b3.val⟩, .error "payload checksum error")
          else (⟨b0, b2, rest.take b3.val⟩, .ok) := by
  have hsl : sliceTo 4 (b0 :: b1 :: b2 :: b3 :: b4 :: b5 :: b6 :: b7 :: rest) =
      some [b0, b1, b2, b3] := by
    simp [sliceTo]
  simp only [frame.Unmarshal, hsl, gbit8, gbit32_cons]
  by_cases h1 : (crc32hd [b0, b1, b2, b3]).2 = true ∧ (crc32hd [b0, b1, b2, b3]).1.val ≠
      b4.val + b5.val * 256 + b6.val * 65536 + b7.val * 16777216
  · simp [h1]
  · rw [if_neg h1]
    have h1' : ((crc32hd [b0, b1, b2, b3]).2 &&
        ((crc32hd [b0, b1, b2, b3]).1.val != b4.val + b5.val * 256 + b6.val * 65536 +
          b7.val * 16777216)) = false := by
      simp only [Bool.and_eq_false_imp, bne_eq_false_iff_eq]
      intro h
      by_contra hne
      exact h1 ⟨h, hne⟩
    rw [h1']
    simp only [Bool.false_eq_true, if_false]
    by_cases h2 : b3.val = 0
    · simp [h2]
    · have h2' : (b3.val == 0) = false := by simpa using h2
      rw [h2', if_neg h2]
      simp only [Bool.false_eq_true, if_false]
      by_cases h3 : rest.length < b3.val + 4
      · have : (rest.length : Int) - 4 < (b3.val : Int) := by omega
        simp [h3, this]
      · have : ¬ ((rest.length : Int) - 4 < (b3.val : Int)) := by omega
        rw [if_neg this, if_neg h3]
        cases gbit32be (List.drop b3.val rest) with
        | none => rfl
        | some r => simp

/-- C19: checksum validation on decode. For every input `b` of at least 8 bytes,
and of at least `8 + size + 4` bytes when `size = b[3] > 0`, `frame.Unmarshal`
returns `nil` or an error (it does not panic), and it returns an error if and
only if (a) the header `b[0..3]` has an entry in the header table and the entry
differs from the little-endian u32 of `b[4..7]`, or (b) `size > 0` and `crc32` of
the `size` body bytes differs from the big-endian u32 that follows the body. A
header without a table entry is accepted whatever `b[4..7]` holds. -/
theorem frame.Unmarshal_checksums (crc32hd : List Byte → Word32 × Bool)
    (crc32 : List Byte → Word32) (f : frame) (b : List Byte) (h8 : 8 ≤ b.length)
    (hsize : 0 < (b.getD 3 0).val → 8 + (b.getD 3 0).val + 4 ≤ b.length) :
    ((frame.Unmarshal crc32hd crc32 f b).2 = .ok ∨
      (frame.Unmarshal crc32hd crc32 f b).2 = .error "header checksum error" ∨
      (frame.Unmarshal crc32hd crc32 f b).2 = .error "payload checksum error") ∧
    ((frame.Unmarshal crc32hd crc32 f b).2 ≠ .ok ↔
      (((crc32hd (b.take 4)).2 = true ∧
        (crc32hd (b.take 4)).1.val ≠ (b.getD 4 0).val + (b.getD 5 0).val * 256 +
          (b.getD 6 0).val * 65536 + (b.getD 7 0).val * 16777216) ∨
      (0 < (b.getD 3 0).val ∧
        (crc32 ((b.drop 8).take (b.getD 3 0).val)).val ≠
          (b.getD (8 + (b.getD 3 0).val) 0).val * 16777216 +
          (b.getD (8 + (b.getD 3 0).val + 1) 0).val * 65536 +
          (b.getD (8 + (b.getD 3 0).val + 2) 0).val * 256 +
          (b.getD (8 + (b.getD 3 0).val + 3) 0).val))) := by
  obtain ⟨b0, b1, b2, b3, r1, rfl, h1⟩ := exists_four_cons 4 b h8
  obtain ⟨b4, b5, b6, b7, rest, rfl, -⟩ := exists_four_cons 0 r1 h1
  rw [frame.Unmarshal_cons]
  have hg : ∀ i, (b0 :: b1 :: b2 :: b3 :: b4 :: b5 :: b6 :: b7 :: rest).getD (8 + i) 0 =
      rest.getD i 0 := by
    intro i
    rw [← getD_drop]
    rfl
  have e3 : (b0 :: b1 :: b2 :: b3 :: b4 :: b5 :: b6 :: b7 :: rest).getD 3 0 = b3 := rfl
  have e4 : (b0 :: b1 :: b2 :: b3 :: b4 :: b5 :: b6 :: b7 :: rest).getD 4 0 = b4 := rfl
  have e5 : (b0 :: b1 :: b2 :: b3 :: b4 :: b5 :: b6 :: b7 :: rest).getD 5 0 = b5 := rfl
  have e6 : (b0 :: b1 :: b2 :: b3 :: b4 :: b5 :: b6 :: b7 :: rest).getD 6 0 = b6 := rfl
  have e7 : (b0 :: b1 :: b2 :: b3 :: b4 :: b5 :: b6 :: b7 :: rest).getD 7 0 = b7 := rfl
  have et : (b0 :: b1 :: b2 :: b3 :: b4 :: b5 :: b6 :: b7 :: rest).take 4 = [b0, b1, b2, b3] :=
    rfl
  have ed : (b0 :: b1 :: b2 :: b3 :: b4 :: b5 :: b6 :: b7 :: rest).drop 8 = rest := rfl
  rw [e3] at hsize
  simp only [List.length_cons] at hsize
  rw [e3, e4, e5, e6, e7, et, ed, show 8 + b3.val + 1 = 8 + (b3.val + 1) by omega,
    show 8 + b3.val + 2 = 8 + (b3.val + 2) by omega,
    show 8 + b3.val + 3 = 8 + (b3.val + 3) by omega, hg, hg, hg, hg]
  by_cases ha : (crc32hd [b0, b1, b2, b3]).2 = true ∧ (crc32hd [b0, b1, b2, b3]).1.val ≠
      b4.val + b5.val * 256 + b6.val * 65536 + b7.val * 16777216
  · rw [if_pos ha]
    simp [ha]
  · rw [if_neg ha]
    by_cases hz : b3.val = 0
    · rw [if_pos hz]
      simp [ha, hz]
    · rw [if_neg hz]
      have hpos : 0 < b3.val := Nat.pos_of_ne_zero hz
      have hlen := hsize hpos
      have hnot : ¬ rest.length < b3.val + 4 := by omega
      rw [if_neg hnot]
      obtain ⟨c0, c1, c2, c3, tail, hdrop, -⟩ :=
        exists_four_cons 0 (rest.drop b3.val) (by rw [List.length_drop]; omega)
      have g0 : rest.getD b3.val 0 = c0 := by
        have := getD_drop rest b3.val 0
        rw [hdrop] at this
        simpa using this.symm
      have g1 : rest.getD (b3.val + 1) 0 = c1 := by
        have := getD_drop rest b3.val 1
        rw [hdrop] at this
        simpa using this.symm
      have g2 : rest.getD (b3.val + 2) 0 = c2 := by
        have := getD_drop rest b3.val 2
        rw [hdrop] at this
        simpa using this.symm
      have g3 : rest.getD (b3.val + 3) 0 = c3 := by
        have := getD_drop rest b3.val 3
        rw [hdrop] at this
        simpa using this.symm
      rw [hdrop, gbit32be_cons, g0, g1, g2, g3]
      by_cases hb : (crc32 (List.take b3.val rest)).val =
          c0.val * 16777216 + c1.val * 65536 + c2.val * 256 + c3.val
      · simp [ha, hb, hpos]
      · simp [ha, hb, hpos]

theorem frame.Unmarshal_checksums_witness :
    (8 ≤ ([80, 0, 14, 3, 120, 86, 52, 18, 1, 2, 3, 222, 173, 190, 238] : List Byte).length ∧
      (0 < (([80, 0, 14, 3, 120, 86, 52, 18, 1, 2, 3, 222, 173, 190, 238] :
          List Byte).getD 3 0).val →
        8 + (([80, 0, 14, 3, 120, 86, 52, 18, 1, 2, 3, 222, 173, 190, 238] :
          List Byte).getD 3 0).val + 4 ≤
          ([80, 0, 14, 3, 120, 86, 52, 18, 1, 2, 3, 222, 173, 190, 238] : List Byte).length)) ∧
    (frame.Unmarshal (fun _ => (305419896, true)) (fun _ => 3735928559) ⟨0, 0, []⟩
        [80, 0, 14, 3, 120, 86, 52, 18, 1, 2, 3, 222, 173, 190, 238]).2 ≠ .ok ∧
    (frame.Unmarshal (fun _ => (305419896, true)) (fun _ => 3735928559) ⟨0, 0, []⟩
        [80, 0, 14, 3, 120, 86, 52, 18, 1, 2, 3, 222, 173, 190, 238]).2 =
      .error "payload checksum error" :=
  ⟨⟨by decide, by decide⟩,
    (frame.Unmarshal_checksums (fun _ => (305419896, true)) (fun _ => 3735928559) ⟨0, 0, []⟩
      [80, 0, 14, 3, 120, 86, 52, 18, 1, 2, 3, 222, 173, 190, 238] (by decide)
      (by decide)).2.mpr (Or.inr (by decide)),
    by rfl⟩

/-- C13 (the code at the failing inputs): `frame.Unmarshal` has no deferred
`recover`. On a 78-byte packet whose size byte is 255 and whose header checksum
is accepted (bytes 4..7 carry whatever the table holds for the header, if
anything), it runs into its own `panic(1)`, because the packet holds 66 bytes
after the header and its checksum; on the empty slice and on a 7-byte slice it
panics on an index out of range. -/
theorem frame.Unmarshal_panics (crc32hd : List Byte → Word32 × Bool)
    (crc32 : List Byte → Word32) (f : frame) (typ tag : Byte) :
    ([typ, 0, tag, 255] ++ pbit32 [] (crc32hd [typ, 0, tag, 255]).1.val ++
        List.replicate 70 (0 : Byte)).length = 78 ∧
    frame.Unmarshal crc32hd crc32 f
      ([typ, 0, tag, 255] ++ pbit32 [] (crc32hd [typ, 0, tag, 255]).1.val ++
        List.replicate 70 0) = ({ f with Typ := typ, Tag := tag }, .panic) ∧
    frame.Unmarshal crc32hd crc32 f [] = (f, .panic) ∧
    frame.Unmarshal crc32hd crc32 f [typ, 0, tag, 0, 0, 0, 0] =
      ({ f with Typ := typ, Tag := tag }, .panic) := by
  have hc := (crc32hd [typ, 0, tag, 255]).1.isLt
  have e : (crc32hd [typ, 0, tag, 255]).1.val % 256 +
      (crc32hd [typ, 0, tag, 255]).1.val / 256 % 256 * 256 +
      (crc32hd [typ, 0, tag, 255]).1.val / 65536 % 256 * 65536 +
      (crc32hd [typ, 0, tag, 255]).1.val / 16777216 % 256 * 16777216 =
      (crc32hd [typ, 0, tag, 255]).1.val := by omega
  refine ⟨by simp [pbit32], ?_, by simp [frame.Unmarshal, sliceTo], ?_⟩
  · simp only [pbit32, List.nil_append, List.cons_append, frame.Unmarshal_cons, byte_val,
      Nat.shiftRight_eq_div_pow]
    rw [if_neg (fun h => h.2 e.symm)]
    simp only [List.length_replicate]
    rw [if_neg (by decide), if_pos (by decide)]
  · simp [frame.Unmarshal, sliceTo, gbit8, gbit32]

end pump

namespace radio

/-! ## Radio calls -/

/-- The milliseconds of a duration below 65536 ms, as `Call.Bytes` computes
them. -/
theorem millis16_eq (d : ℤ) (h0 : 0 ≤ d) (h1 : d < 65536000000) :
    millis16 d = (d / 1000000).toNat ∧ (d / 1000000).toNat ≤ 65535 := by
  unfold millis16 pump.uint16
  rw [Int.tdiv_eq_ediv h0 (by decide)]
  constructor
  · congr 1
    omega
  · omega

/-- The bytes of each valid type of call. -/
theorem Call.Bytes_cases (r : Call) :
    (r.Typ = Trx → r.Bytes = .ok [6, Trx, r.Flag, pump.byte (millis16 r.Timeout / 256),
      pump.byte (millis16 r.Timeout), r.Filterbyte3]) ∧
    (r.Typ = Ttxrx → r.Bytes = .ok ([86, Ttxrx, r.Flag, pump.byte (millis16 r.Timeout / 256),
      pump.byte (millis16 r.Timeout), r.Filterbyte3, pump.byte (millis16 r.Preamble / 256),
      pump.byte (millis16 r.Preamble)] ++ r.Pkt.val)) ∧
    (r.Typ = Ttx → r.Bytes = .ok ([83, Ttx, r.Flag, pump.byte (millis16 r.Preamble / 256),
      pump.byte (millis16 r.Preamble)] ++ r.Pkt.val)) ∧
    (r.Typ = Rrx ∨ r.Typ = Rtxrx → r.Bytes = .ok ([81, r.Typ, r.Flag] ++ r.Pkt.val)) ∧
    (r.Typ = Rtx ∨ r.Typ = Tping ∨ r.Typ = Rping → r.Bytes = .ok [3, r.Typ, r.Flag]) ∧
    (r.Typ = Rerr → r.Bytes = .ok [4, Rerr, r.Flag, r.Err]) ∧
    (¬ (r.Typ = Trx ∨ r.Typ = Rrx ∨ r.Typ = Ttx ∨ r.Typ = Rtx ∨ r.Typ = Ttxrx ∨ r.Typ = Rtxrx ∨
        r.Typ = Tping ∨ r.Typ = Rping ∨ r.Typ = Rerr) →
      r.Bytes = .error "invalid rcall type") := by
  have hp := r.Pkt.property
  refine ⟨fun h => ?_, fun h => ?_, fun h => ?_, fun h => ?_, fun h => ?_, fun h => ?_,
    fun h => ?_⟩
  · simp [Call.Bytes, h, Trx, Rtx, Tping, Rping, pbit8, pbit16, patchLength,
      Nat.shiftRight_eq_div_pow]
    rfl
  · simp [Call.Bytes, h, Trx, Rtx, Tping, Rping, Ttxrx, pbit8, pbit16, patchLength,
      Nat.shiftRight_eq_div_pow, hp]
    rfl
  · simp [Call.Bytes, h, Trx, Rtx, Tping, Rping, Ttxrx, Ttx, pbit8, pbit16, patchLength,
      Nat.shiftRight_eq_div_pow, hp]
    rfl
  · rcases h with h | h <;>
      simp [Call.Bytes, h, Trx, Rtx, Tping, Rping, Ttxrx, Ttx, Rrx, Rtxrx, pbit8, patchLength,
        hp] <;> rfl
  · rcases h with h | h | h <;>
      simp [Call.Bytes, h, Rtx, Tping, Rping, pbit8, patchLength] <;> rfl
  · simp [Call.Bytes, h, Trx, Rtx, Tping, Rping, Ttxrx, Ttx, Rrx, Rtxrx, Rerr, pbit8,
      patchLength]
    rfl
  · simp only [not_or] at h
    simp [Call.Bytes, h]

/-- The length byte of every encoded call. -/
theorem Call.Bytes_length (r : Call)
    (hv : r.Typ = Trx ∨ r.Typ = Rrx ∨ r.Typ = Ttx ∨ r.Typ = Rtx ∨ r.Typ = Ttxrx ∨
      r.Typ = Rtxrx ∨ r.Typ = Tping ∨ r.Typ = Rping ∨ r.Typ = Rerr) :
    ∃ out, r.Bytes = .ok out ∧ out.head? = some (pump.byte out.length) ∧
      out.length ≤ CALLMAX ∧ (r.Typ = Ttxrx → out.length = CALLMAX) := by
  have hp := r.Pkt.property
  have hc := Call.Bytes_cases r
  have hne : ∀ t : pump.Byte, t ≠ Ttxrx → r.Typ = t → r.Typ = Ttxrx → False := by
    intro t ht h h'
    exact ht (h.symm.trans h')
  rcases hv with h | h | h | h | h | h | h | h | h
  · exact ⟨_, hc.1 h, rfl, by simp [CALLMAX], fun h' => (hne _ (by decide) h h').elim⟩
  · exact ⟨_, hc.2.2.2.1 (Or.inl h), by simp [hp]; rfl, by simp [hp, CALLMAX],
      fun h' => (hne _ (by decide) h h').elim⟩
  · exact ⟨_, hc.2.2.1 h, by simp [hp]; rfl, by simp [hp, CALLMAX],
      fun h' => (hne _ (by decide) h h').elim⟩
  · exact ⟨_, hc.2.2.2.2.1 (Or.inl h), rfl, by simp [CALLMAX],
      fun h' => (hne _ (by decide) h h').elim⟩
  · exact ⟨_, hc.2.1 h, by simp [hp]; rfl, by simp [hp, CALLMAX], fun _ => by simp [hp, CALLMAX]⟩
  · exact ⟨_, hc.2.2.2.1 (Or.inr h), by simp [hp]; rfl, by simp [hp, CALLMAX],
      fun h' => (hne _ (by decide) h h').elim⟩
  · exact ⟨_, hc.2.2.2.2.1 (Or.inr (Or.inl h)), rfl, by simp [CALLMAX],
      fun h' => (hne _ (by decide) h h').elim⟩
  · exact ⟨_, hc.2.2.2.2.1 (Or.inr (Or.inr h)), rfl, by simp [CALLMAX],
      fun h' => (hne _ (by decide) h h').elim⟩
  · exact ⟨_, hc.2.2.2.2.2.1 h, rfl, by simp [CALLMAX], fun h' => (hne _ (by decide) h h').elim⟩

/-- C20: the encoding of a radio call. For every call whose `Timeout` and
`Preamble` lie between 0 and 65535 ms, with `T` and `P` their whole milliseconds:
`Bytes` returns `[len][Type][Flag]` followed by, for `Trx`, `T` as u16 big-endian
and `Filterbyte3`; for `Ttxrx`, `T` big-endian, `Filterbyte3`, `P` big-endian and
the 78 packet bytes; for `Ttx`, `P` big-endian and the packet; for `Rrx` and
`Rtxrx`, the packet; for `Rtx`, `Tping`, `Rping`, nothing; for `Rerr`, the error
byte. The first byte is the number of bytes returned, at most `CALLMAX = 86` and
exactly 86 for `Ttxrx`. For every other type `Bytes` returns an error. -/
theorem Call.Bytes_encoding (r : Call) (hT0 : 0 ≤ r.Timeout)
    (hT1 : r.Timeout < 65536 * pump.Millisecond) (hP0 : 0 ≤ r.Preamble)
    (hP1 : r.Preamble < 65536 * pump.Millisecond) :
    ((r.Timeout / 1000000).toNat ≤ 65535 ∧ (r.Preamble / 1000000).toNat ≤ 65535) ∧
    (r.Typ = Trx → r.Bytes = .ok [6, Trx, r.Flag,
      pump.byte ((r.Timeout / 1000000).toNat / 256), pump.byte (r.Timeout / 1000000).toNat,
      r.Filterbyte3]) ∧
    (r.Typ = Ttxrx → r.Bytes = .ok ([86, Ttxrx, r.Flag,
      pump.byte ((r.Timeout / 1000000).toNat / 256), pump.byte (r.Timeout / 1000000).toNat,
      r.Filterbyte3,
      pump.byte ((r.Preamble / 1000000).toNat / 256), pump.byte (r.Preamble / 1000000).toNat] ++
      r.Pkt.val)) ∧
    (r.Typ = Ttx → r.Bytes = .ok ([83, Ttx, r.Flag,
      pump.byte ((r.Preamble / 1000000).toNat / 256), pump.byte (r.Preamble / 1000000).toNat] ++
      r.Pkt.val)) ∧
    (r.Typ = Rrx ∨ r.Typ = Rtxrx → r.Bytes = .ok ([81, r.Typ, r.Flag] ++ r.Pkt.val)) ∧
    (r.Typ = Rtx ∨ r.Typ = Tping ∨ r.Typ = Rping → r.Bytes = .ok [3, r.Typ, r.Flag]) ∧
    (r.Typ = Rerr → r.Bytes = .ok [4, Rerr, r.Flag, r.Err]) ∧
    ((r.Typ = Trx ∨ r.Typ = Rrx ∨ r.Typ = Ttx ∨ r.Typ = Rtx ∨ r.Typ = Ttxrx ∨ r.Typ = Rtxrx ∨
        r.Typ = Tping ∨ r.Typ = Rping ∨ r.Typ = Rerr) →
      ∃ out, r.Bytes = .ok out ∧ out.head? = some (pump.byte out.length) ∧
        out.length ≤ CALLMAX ∧ (r.Typ = Ttxrx → out.length = CALLMAX)) ∧
    (¬ (r.Typ = Trx ∨ r.Typ = Rrx ∨ r.Typ = Ttx ∨ r.Typ = Rtx ∨ r.Typ = Ttxrx ∨ r.Typ = Rtxrx ∨
        r.Typ = Tping ∨ r.Typ = Rping ∨ r.Typ = Rerr) →
      r.Bytes = .error "invalid rcall type") ∧
    r.Pkt.val.length = 78 ∧ CALLMAX = 86 := by
  have hT := millis16_eq r.Timeout hT0 hT1
  have hP := millis16_eq r.Preamble hP0 hP1
  have hc := Call.Bytes_cases r
  rw [hT.1, hP.1] at hc
  exact ⟨⟨hT.2, hP.2⟩, hc.1, hc.2.1, hc.2.2.1, hc.2.2.2.1, hc.2.2.2.2.1, hc.2.2.2.2.2.1,
    Call.Bytes_length r, hc.2.2.2.2.2.2, r.Pkt.property, rfl⟩

theorem Call.Bytes_encoding_witness :
    ((0 : ℤ) ≤ 300 * pump.Millisecond ∧ 300 * pump.Millisecond < 65536 * pump.Millisecond ∧
      (0 : ℤ) ≤ 2 * pump.Second ∧ 2 * pump.Second < 65536 * pump.Millisecond) ∧
    Call.Bytes ⟨Ttxrx, 0, 0, 300 * pump.Millisecond, 2 * pump.Second, 0, Packet.zero⟩ =
      .ok ([86, 5, 0, 1, 44, 0, 7, 208] ++ List.replicate 78 0) ∧
    Call.Bytes ⟨Nop, 0, 0, 0, 0, 0, Packet.zero⟩ = .error "invalid rcall type" ∧
    Call.Bytes ⟨Treset, 0, 0, 0, 0, 0, Packet.zero⟩ = .error "invalid rcall type" :=
  ⟨⟨by decide, by decide, by decide, by decide⟩,
    by
      rw [(Call.Bytes_encoding ⟨Ttxrx, 0, 0, 300 * pump.Millisecond, 2 * pump.Second, 0,
        Packet.zero⟩ (by decide) (by decide) (by decide) (by decide)).2.2.1 rfl]
      rfl,
    by rfl, by rfl⟩

end radio

namespace pump

/-! ## Tags -/

/-- One more call of `nextTag` in front of `n` calls. -/
theorem drawTags_succ (n : Nat) (p : Pump) :
    Pump.drawTags (n + 1) p =
      (((Pump.drawTags n p.nextTag.1).1,
        (p.nextTag.2.1, p.nextTag.2.2) :: (Pump.drawTags n p.nextTag.1).2)) := rfl

/-- Calls of `nextTag` in two batches. -/
theorem drawTags_add (m n : Nat) (p : Pump) :
    Pump.drawTags (m + n) p =
      ((Pump.drawTags n (Pump.drawTags m p).1).1,
        (Pump.drawTags m p).2 ++ (Pump.drawTags n (Pump.drawTags m p).1).2) := by
  induction m generalizing p with
  | zero => simp [Pump.drawTags]
  | succ m ih =>
    rw [show m + 1 + n = (m + n) + 1 by omega, drawTags_succ, drawTags_succ, ih]
    simp

/-- With the table used up every call of `nextTag` fails and changes nothing. -/
theorem nextTag_exhausted (p : Pump) (h : 11 ≤ p.tagidx.val) :
    p.nextTag = (p, 0, some "ran out of tags") := by
  simp [Pump.nextTag, tagSeq, h]

/-- With the table used up any number of calls of `nextTag` fail. -/
theorem drawTags_exhausted (n : Nat) (p : Pump) (h : 11 ≤ p.tagidx.val) :
    Pump.drawTags n p = (p, List.replicate n (0, some "ran out of tags")) := by
  induction n with
  | zero => rfl
  | succ n ih => rw [drawTags_succ, nextTag_exhausted p h]; simp [ih, List.replicate_succ]

/-- While tags are left a call of `nextTag` returns the tag at the index and
advances the index by one. -/
theorem nextTag_fresh (p : Pump) (h : p.tagidx.val < 11) :
    p.nextTag = ({ p with tagidx := p.tagidx + 1 }, tagSeq.getD p.tagidx.val 0, none) ∧
      (p.tagidx + 1).val = p.tagidx.val + 1 := by
  constructor
  · have : ¬ (11 ≤ p.tagidx.val) := by omega
    simp [Pump.nextTag, tagSeq, this]
  · rw [Fin.val_add]
    have : ((1 : Byte) : Nat) = 1 := rfl
    rw [this]
    omega

/-- C17: tag allocation. While the index is below 11 a draw returns the tag at the index and advances the
index by one; from 11 on a draw fails with the exhaustion error and leaves the
pump unchanged, so an index that is at most 11 stays at most 11. Starting from
index 0, the first eleven draws return the eleven tags in order and every
later draw fails, with the index left at 11. `Resume` starts from index 0
whatever the index was. -/
theorem Pump.nextTag_sequence (p : Pump) (n : Nat) :
    (p.tagidx.val < 11 →
      p.nextTag = ({ p with tagidx := p.tagidx + 1 }, tagSeq.getD p.tagidx.val 0, none) ∧
        (p.tagidx + 1).val = p.tagidx.val + 1) ∧
    (11 ≤ p.tagidx.val → p.nextTag = (p, 0, some "ran out of tags")) ∧
    (p.tagidx.val ≤ 11 → p.nextTag.1.tagidx.val ≤ 11) ∧
    Pump.drawTags (11 + n) { p with tagidx := 0 } =
      ({ p with tagidx := 11 },
        [(0x00, none), (0x0e, none), (0xf8, none), (0x12, none), (0xea, none), (0x24, none),
          (0xdc, none), (0x36, none), (0xc0, none), (0x4e, none), (0xb6, none)]
          ++ List.replicate n (0, some "ran out of tags")) ∧
    (∀ (crc32hd : List Byte → Word32 × Bool) (crc32 : List Byte → Word32) (i : Byte),
      Pump.Resume crc32hd crc32 { p with tagidx := i } = Pump.Resume crc32hd crc32 p ∧
      Pump.Resume crc32hd crc32 p =
        ((Pump.Call crc32hd crc32 { p with tagidx := 0 } CallWakeup (some Wakeup.Marshal)
            (none : Option PUnit) (fun r _ => (r, .ok))).1,
          (Pump.Call crc32hd crc32 { p with tagidx := 0 } CallWakeup (some Wakeup.Marshal)
            (none : Option PUnit) (fun r _ => (r, .ok))).2.2)) := by
  refine ⟨nextTag_fresh p, nextTag_exhausted p, ?_, ?_, ?_⟩
  · intro h
    rcases Nat.lt_or_ge p.tagidx.val 11 with h1 | h1
    · rw [(nextTag_fresh p h1).1]
      show (p.tagidx + 1).val ≤ 11
      rw [(nextTag_fresh p h1).2]; omega
    · rw [nextTag_exhausted p h1]; exact h
  · rw [drawTags_add]
    have h11 : Pump.drawTags 11 { p with tagidx := 0 } =
        ({ p with tagidx := 11 },
          [(0x00, none), (0x0e, none), (0xf8, none), (0x12, none), (0xea, none), (0x24, none),
            (0xdc, none), (0x36, none), (0xc0, none), (0x4e, none), (0xb6, none)]) := rfl
    rw [h11]
    simp only
    rw [drawTags_exhausted n _ (Nat.le_refl 11)]
  · intro crc32hd crc32 i
    exact ⟨rfl, rfl⟩

/-- C17 on a pump with the index at 5 and an empty world: twelve draws after a
reset. -/
theorem Pump.nextTag_sequence_witness :
    Pump.drawTags 12 { tagidx := 0, replies := [], calls := [], slept := [] } =
      ({ tagidx := 11, replies := [], calls := [], slept := [] },
        [(0x00, none), (0x0e, none), (0xf8, none), (0x12, none), (0xea, none), (0x24, none),
          (0xdc, none), (0x36, none), (0xc0, none), (0x4e, none), (0xb6, none),
          (0, some "ran out of tags")]) :=
  (Pump.nextTag_sequence { tagidx := 5, replies := [], calls := [], slept := [] } 1).2.2.2.1

/-! ## The reply tag -/

/-- The radio call that `txrx` issues for a marshalled frame. -/
theorem txrx_ok (crc32hd : List Byte → Word32 × Bool) (crc32 : List Byte → Word32)
    (p : Pump) (tx rx : frame) (preamble : Duration) (tries : Nat) (timeout : Duration)
    (p1 : Pump) (tx1 rx1 : frame)
    (h : Pump.txrx crc32hd crc32 p tx rx preamble tries timeout = (p1, tx1, rx1, .ok)) :
    rx1.Tag = tx1.Tag ^^^ 0xff ∧ tx1 = { tx with Tag := p.nextTag.2.1 } ∧
      p.nextTag.2.2 = none ∧
      ∃ pkt reply, frame.Marshal crc32hd crc32 tx1 = .ok pkt ∧
        Pump.txrxLoop
          { Typ := radio.Ttxrx, Flag := 0, Err := 0, Timeout := timeout, Preamble := preamble,
            Filterbyte3 := 0, Pkt := radio.Packet.copy pkt } tries p.nextTag.1
          = (p1, .ok reply) ∧
        frame.Unmarshal crc32hd crc32 rx reply.Pkt.val = (rx1, .ok) := by
  unfold Pump.txrx at h
  split at h
  · simp at h
  · rename_i p0 tag hn
    simp only at h
    split at h
    · simp at h
    · rename_i pkt hm
      split at h
      · simp at h
      · rename_i p2 reply hl
        split at h
        · simp at h
        · simp at h
        · rename_i rx2 hu
          split at h
          · simp at h
          · rename_i htag
            simp only [Prod.mk.injEq, and_true] at h
            obtain ⟨rfl, rfl, rfl⟩ := h
            rw [hn]
            refine ⟨by simpa using htag, rfl, rfl, pkt, reply, hm, ?_, hu⟩
            simpa using hl

/-- A reply that decodes with another tag makes `txrx` fail. -/
theorem txrx_bad_tag (crc32hd : List Byte → Word32 × Bool) (crc32 : List Byte → Word32)
    (p : Pump) (tx rx : frame) (preamble : Duration) (tries : Nat) (timeout : Duration)
    (p0 p1 : Pump) (tag : Byte) (pkt : List Byte) (reply : radio.Call) (rx1 : frame)
    (hn : p.nextTag = (p0, tag, none))
    (hm : frame.Marshal crc32hd crc32 { tx with Tag := tag } = .ok pkt)
    (hl : Pump.txrxLoop
        { Typ := radio.Ttxrx, Flag := 0, Err := 0, Timeout := timeout, Preamble := preamble,
          Filterbyte3 := 0, Pkt := radio.Packet.copy pkt } tries p0 = (p1, .ok reply))
    (hu : frame.Unmarshal crc32hd crc32 rx reply.Pkt.val = (rx1, .ok))
    (ht : rx1.Tag ≠ tag ^^^ 0xff) :
    Pump.txrx crc32hd crc32 p tx rx preamble tries timeout =
      (p1, { tx with Tag := tag }, rx1, .error "bad reply tag") := by
  unfold Pump.txrx
  rw [hn]
  simp only [hm, hl, hu]
  rw [if_pos (by simpa using ht)]

/-- The keepalive loop keeps the relation between the tags of the two frames, and
is left normally only with a reply that is not a keepalive. -/
theorem keepaliveLoop_ok (crc32hd : List Byte → Word32 × Bool) (crc32 : List Byte → Word32)
    (timeout : Duration) (fuel : Nat) (p : Pump) (tx rx : frame)
    (p2 : Pump) (tx2 rx2 : frame) (h0 : rx.Tag = tx.Tag ^^^ 0xff)
    (h : Pump.keepaliveLoop crc32hd crc32 timeout fuel p tx rx = (p2, tx2, rx2, some .ok)) :
    rx2.Tag = tx2.Tag ^^^ 0xff ∧ rx2.Typ ≠ CallKeepalive := by
  induction fuel generalizing p tx rx with
  | zero =>
    unfold Pump.keepaliveLoop at h
    split at h
    · have h1 : (p, tx, rx, (none : Option Outcome)) = (p2, tx2, rx2, some .ok) := h
      cases h1
    · rename_i hk
      simp only [Prod.mk.injEq, and_true] at h
      obtain ⟨-, rfl, rfl⟩ := h
      exact ⟨h0, hk⟩
  | succ fuel ih =>
    unfold Pump.keepaliveLoop at h
    split at h
    · simp only at h
      split at h
      · simp at h
      · simp at h
      · split at h
        · rename_i p3 tx3 rx3 hx
          exact ih p3 tx3 rx3 (txrx_ok _ _ _ _ _ _ _ _ _ _ _ hx).1 h
        · rename_i p3 tx3 rx3 out hne hx
          simp only [Prod.mk.injEq, Option.some.injEq] at h
          exact absurd h.2.2.2 hne
    · rename_i hk
      simp only [Prod.mk.injEq, and_true] at h
      obtain ⟨-, rfl, rfl⟩ := h
      exact ⟨h0, hk⟩

/-- A resend inside the keepalive loop that fails ends the loop with that result. -/
theorem keepaliveLoop_txrx_error (crc32hd : List Byte → Word32 × Bool)
    (crc32 : List Byte → Word32) (timeout : Duration) (fuel : Nat) (p : Pump) (tx rx : frame)
    (k : Keepalive) (p1 : Pump) (tx1 rx1 : frame) (out : Outcome)
    (hk : rx.Typ = CallKeepalive) (hu : Keepalive.Unmarshal ⟨0⟩ rx.Body = (k, .ok))
    (hx : Pump.txrx crc32hd crc32
        { p with slept := p.slept ++
          [if k.Backoff = 300 * Millisecond then 450 * Millisecond else k.Backoff] }
        { tx with Typ := CallKeepalive, Body := [] } rx (0 * Second) 10 (2 * timeout)
        = (p1, tx1, rx1, out))
    (hout : out ≠ .ok) :
    Pump.keepaliveLoop crc32hd crc32 timeout (fuel + 1) p tx rx = (p1, tx1, rx1, some out) := by
  unfold Pump.keepaliveLoop
  rw [if_pos hk]
  simp only [hu, hx]

/-- The timing profile and the first frame of `Call`. -/
theorem Call_txrx_error {ρ : Type} (crc32hd : List Byte → Word32 × Bool)
    (crc32 : List Byte → Word32) (p : Pump) (typ : Byte) (arg : Option (List Byte))
    (reply : Option ρ) (unmarshal : ρ → List Byte → ρ × Outcome)
    (p1 : Pump) (tx1 rx1 : frame) (out : Outcome) (ht : typ ≠ CallAdjourn)
    (hx : Pump.txrx crc32hd crc32 p { Typ := typ, Tag := 0, Body := arg.getD [] }
        { Typ := 0, Tag := 0, Body := [] }
        (if typ = CallWakeup then 2 * Second else 0)
        (if typ = CallWakeup then 10 else 15)
        (if typ = CallWakeup then 200 * Millisecond else 300 * Millisecond)
        = (p1, tx1, rx1, out))
    (hout : out ≠ .ok) :
    Pump.Call crc32hd crc32 p typ arg reply unmarshal = (p1, reply, some out) := by
  unfold Pump.Call
  simp only [if_neg ht, hx]

/-- A keepalive loop that is not left normally ends `Call` with the result of the
loop; the reply object is not touched. -/
theorem Call_loop_error {ρ : Type} (crc32hd : List Byte → Word32 × Bool)
    (crc32 : List Byte → Word32) (p : Pump) (typ : Byte) (arg : Option (List Byte))
    (reply : Option ρ) (unmarshal : ρ → List Byte → ρ × Outcome)
    (p1 : Pump) (tx1 rx1 : frame) (p2 : Pump) (tx2 rx2 : frame) (out : Option Outcome)
    (ht : typ ≠ CallAdjourn)
    (hx : Pump.txrx crc32hd crc32 p { Typ := typ, Tag := 0, Body := arg.getD [] }
        { Typ := 0, Tag := 0, Body := [] }
        (if typ = CallWakeup then 2 * Second else 0)
        (if typ = CallWakeup then 10 else 15)
        (if typ = CallWakeup then 200 * Millisecond else 300 * Millisecond)
        = (p1, tx1, rx1, .ok))
    (hl : Pump.keepaliveLoop crc32hd crc32
        (if typ = CallWakeup then 200 * Millisecond else 300 * Millisecond)
        (tagSeq.length + 1) p1 tx1 rx1 = (p2, tx2, rx2, out))
    (hout : out ≠ some .ok) :
    Pump.Call crc32hd crc32 p typ arg reply unmarshal = (p2, reply, out) := by
  unfold Pump.Call
  simp only [if_neg ht, hx, hl]

/-- A `Call` other than `Adjourn` whose exchange of frames succeeded: the type of
the reply is checked, then the body is handed to the reply object. -/
theorem Call_exchange_ok {ρ : Type} (crc32hd : List Byte → Word32 × Bool)
    (crc32 : List Byte → Word32) (p : Pump) (typ : Byte) (arg : Option (List Byte))
    (reply : Option ρ) (unmarshal : ρ → List Byte → ρ × Outcome)
    (p1 : Pump) (tx1 rx1 : frame) (p2 : Pump) (tx2 rx2 : frame)
    (ht : typ ≠ CallAdjourn)
    (hx : Pump.txrx crc32hd crc32 p { Typ := typ, Tag := 0, Body := arg.getD [] }
        { Typ := 0, Tag := 0, Body := [] }
        (if typ = CallWakeup then 2 * Second else 0)
        (if typ = CallWakeup then 10 else 15)
        (if typ = CallWakeup then 200 * Millisecond else 300 * Millisecond)
        = (p1, tx1, rx1, .ok))
    (hl : Pump.keepaliveLoop crc32hd crc32
        (if typ = CallWakeup then 200 * Millisecond else 300 * Millisecond)
        (tagSeq.length + 1) p1 tx1 rx1 = (p2, tx2, rx2, some .ok)) :
    Pump.Call crc32hd crc32 p typ arg reply unmarshal =
      if rx2.Typ ≠ typ then (p2, reply, some (.error "unexpected reply type"))
      else match reply with
        | none => (p2, none, some .ok)
        | some r => (p2, some (unmarshal r rx2.Body).1, some (unmarshal r rx2.Body).2) := by
  unfold Pump.Call
  simp only [if_neg ht, hx, hl]

/-- A `Call` other than `Adjourn` that returns without error has exchanged frames
successfully, and the last reply frame carries the complement of the last tag
sent. -/
theorem Call_ok {ρ : Type} (crc32hd : List Byte → Word32 × Bool)
    (crc32 : List Byte → Word32) (p : Pump) (typ : Byte) (arg : Option (List Byte))
    (reply : Option ρ) (unmarshal : ρ → List Byte → ρ × Outcome)
    (ht : typ ≠ CallAdjourn)
    (h : (Pump.Call crc32hd crc32 p typ arg reply unmarshal).2.2 = some .ok) :
    ∃ p1 tx1 rx1 p2 tx2 rx2,
      Pump.txrx crc32hd crc32 p { Typ := typ, Tag := 0, Body := arg.getD [] }
        { Typ := 0, Tag := 0, Body := [] }
        (if typ = CallWakeup then 2 * Second else 0)
        (if typ = CallWakeup then 10 else 15)
        (if typ = CallWakeup then 200 * Millisecond else 300 * Millisecond)
        = (p1, tx1, rx1, .ok) ∧
      Pump.keepaliveLoop crc32hd crc32
        (if typ = CallWakeup then 200 * Millisecond else 300 * Millisecond)
        (tagSeq.length + 1) p1 tx1 rx1 = (p2, tx2, rx2, some .ok) ∧
      rx2.Tag = tx2.Tag ^^^ 0xff ∧ rx2.Typ = typ := by
  obtain ⟨p1, tx1, rx1, out, hx⟩ :
      ∃ p1 tx1 rx1 out, Pump.txrx crc32hd crc32 p { Typ := typ, Tag := 0, Body := arg.getD [] }
        { Typ := 0, Tag := 0, Body := [] }
        (if typ = CallWakeup then 2 * Second else 0)
        (if typ = CallWakeup then 10 else 15)
        (if typ = CallWakeup then 200 * Millisecond else 300 * Millisecond)
        = (p1, tx1, rx1, out) := ⟨_, _, _, _, rfl⟩
  by_cases hout : out = .ok
  · subst hout
    obtain ⟨p2, tx2, rx2, out2, hl⟩ :
        ∃ p2 tx2 rx2 out2, Pump.keepaliveLoop crc32hd crc32
          (if typ = CallWakeup then 200 * Millisecond else 300 * Millisecond)
          (tagSeq.length + 1) p1 tx1 rx1 = (p2, tx2, rx2, out2) := ⟨_, _, _, _, rfl⟩
    by_cases hout2 : out2 = some .ok
    · subst hout2
      refine ⟨p1, tx1, rx1, p2, tx2, rx2, hx, hl, ?_, ?_⟩
      · exact (keepaliveLoop_ok _ _ _ _ _ _ _ _ _ _
          (txrx_ok _ _ _ _ _ _ _ _ _ _ _ hx).1 hl).1
      · by_contra hne
        rw [Call_exchange_ok crc32hd crc32 p typ arg reply unmarshal _ _ _ _ _ _ ht hx hl,
          if_pos hne] at h
        simp at h
    · rw [Call_loop_error crc32hd crc32 p typ arg reply unmarshal _ _ _ _ _ _ _ ht hx hl hout2]
        at h
      exact absurd h hout2
  · rw [Call_txrx_error crc32hd crc32 p typ arg reply unmarshal _ _ _ _ ht hx hout] at h
    simp only [Option.some.injEq] at h
    exact absurd h hout

/-- C18: the reply tag handshake. (1) When `txrx` succeeds, the frame it sent
carries the tag just drawn, the reply frame was decoded from the packet of the
radio reply, and the tag of the reply frame is the tag sent XOR 0xff. (2) When
the reply decodes and its tag differs, `txrx` returns the error `bad reply tag`.
(3) `Call` with the type `Adjourn` only transmits (`tx`) and decodes no reply
frame. For every other type: an error of the first `txrx` is returned with the
reply object untouched, and a `Call` that returns without error has exchanged
frames successfully, the last reply frame carrying the last tag sent XOR 0xff
and the type of the call. (4) An error of a resend inside the keepalive loop
ends the loop, and a loop that ends with an error ends `Call` with that error
and the reply object untouched. -/
theorem Pump.txrx_reply_tag (crc32hd : List Byte → Word32 × Bool)
    (crc32 : List Byte → Word32) :
    (∀ (p : Pump) (tx rx : frame) (preamble : Duration) (tries : Nat) (timeout : Duration)
        (p1 : Pump) (tx1 rx1 : frame),
      Pump.txrx crc32hd crc32 p tx rx preamble tries timeout = (p1, tx1, rx1, .ok) →
        rx1.Tag = tx1.Tag ^^^ 0xff ∧ tx1 = { tx with Tag := p.nextTag.2.1 } ∧
        p.nextTag.2.2 = none ∧
        ∃ pkt reply, frame.Marshal crc32hd crc32 tx1 = .ok pkt ∧
          Pump.txrxLoop
            { Typ := radio.Ttxrx, Flag := 0, Err := 0, Timeout := timeout,
              Preamble := preamble, Filterbyte3 := 0, Pkt := radio.Packet.copy pkt }
            tries p.nextTag.1 = (p1, .ok reply) ∧
          frame.Unmarshal crc32hd crc32 rx reply.Pkt.val = (rx1, .ok)) ∧
    (∀ (p : Pump) (tx rx : frame) (preamble : Duration) (tries : Nat) (timeout : Duration)
        (p0 p1 : Pump) (tag : Byte) (pkt : List Byte) (reply : radio.Call) (rx1 : frame),
      p.nextTag = (p0, tag, none) →
      frame.Marshal crc32hd crc32 { tx with Tag := tag } = .ok pkt →
      Pump.txrxLoop
        { Typ := radio.Ttxrx, Flag := 0, Err := 0, Timeout := timeout, Preamble := preamble,
          Filterbyte3 := 0, Pkt := radio.Packet.copy pkt } tries p0 = (p1, .ok reply) →
      frame.Unmarshal crc32hd crc32 rx reply.Pkt.val = (rx1, .ok) →
      rx1.Tag ≠ tag ^^^ 0xff →
      Pump.txrx crc32hd crc32 p tx rx preamble tries timeout =
        (p1, { tx with Tag := tag }, rx1, .error "bad reply tag")) ∧
    (∀ (ρ : Type) (p : Pump) (typ : Byte) (arg : Option (List Byte)) (reply : Option ρ)
        (unmarshal : ρ → List Byte → ρ × Outcome),
      (typ = CallAdjourn →
        Pump.Call crc32hd crc32 p typ arg reply unmarshal =
          ((Pump.tx crc32hd crc32 p { Typ := typ, Tag := 0, Body := arg.getD [] }).1, reply,
            some (Pump.tx crc32hd crc32 p { Typ := typ, Tag := 0, Body := arg.getD [] }).2.2)) ∧
      (typ ≠ CallAdjourn →
      (∀ (p1 : Pump) (tx1 rx1 : frame) (e : Error),
        Pump.txrx crc32hd crc32 p { Typ := typ, Tag := 0, Body := arg.getD [] }
          { Typ := 0, Tag := 0, Body := [] }
          (if typ = CallWakeup then 2 * Second else 0)
          (if typ = CallWakeup then 10 else 15)
          (if typ = CallWakeup then 200 * Millisecond else 300 * Millisecond)
          = (p1, tx1, rx1, .error e) →
        Pump.Call crc32hd crc32 p typ arg reply unmarshal = (p1, reply, some (.error e))) ∧
      ((Pump.Call crc32hd crc32 p typ arg reply unmarshal).2.2 = some .ok →
        ∃ p1 tx1 rx1 p2 tx2 rx2,
          Pump.txrx crc32hd crc32 p { Typ := typ, Tag := 0, Body := arg.getD [] }
            { Typ := 0, Tag := 0, Body := [] }
            (if typ = CallWakeup then 2 * Second else 0)
            (if typ = CallWakeup then 10 else 15)
            (if typ = CallWakeup then 200 * Millisecond else 300 * Millisecond)
            = (p1, tx1, rx1, .ok) ∧
          Pump.keepaliveLoop crc32hd crc32
            (if typ = CallWakeup then 200 * Millisecond else 300 * Millisecond)
            (tagSeq.length + 1) p1 tx1 rx1 = (p2, tx2, rx2, some .ok) ∧
          rx2.Tag = tx2.Tag ^^^ 0xff ∧ rx2.Typ = typ) ∧
      (∀ (p1 : Pump) (tx1 rx1 : frame) (p2 : Pump) (tx2 rx2 : frame) (e : Error),
        Pump.txrx crc32hd crc32 p { Typ := typ, Tag := 0, Body := arg.getD [] }
          { Typ := 0, Tag := 0, Body := [] }
          (if typ = CallWakeup then 2 * Second else 0)
          (if typ = CallWakeup then 10 else 15)
          (if typ = CallWakeup then 200 * Millisecond else 300 * Millisecond)
          = (p1, tx1, rx1, .ok) →
        Pump.keepaliveLoop crc32hd crc32
          (if typ = CallWakeup then 200 * Millisecond else 300 * Millisecond)
          (tagSeq.length + 1) p1 tx1 rx1 = (p2, tx2, rx2, some (.error e)) →
        Pump.Call crc32hd crc32 p typ arg reply unmarshal = (p2, reply, some (.error e))))) ∧
    (∀ (timeout : Duration) (fuel : Nat) (p : Pump) (tx rx : frame) (k : Keepalive)
        (p1 : Pump) (tx1 rx1 : frame) (e : Error),
      rx.Typ = CallKeepalive →
      Keepalive.Unmarshal ⟨0⟩ rx.Body = (k, .ok) →
      Pump.txrx crc32hd crc32
        { p with slept := p.slept ++
          [if k.Backoff = 300 * Millisecond then 450 * Millisecond else k.Backoff] }
        { tx with Typ := CallKeepalive, Body := [] } rx (0 * Second) 10 (2 * timeout)
        = (p1, tx1, rx1, .error e) →
      Pump.keepaliveLoop crc32hd crc32 timeout (fuel + 1) p tx rx =
        (p1, tx1, rx1, some (.error e))) := by
  refine ⟨?_, ?_, ?_, ?_⟩
  · intro p tx rx preamble tries timeout p1 tx1 rx1 h
    exact txrx_ok crc32hd crc32 p tx rx preamble tries timeout p1 tx1 rx1 h
  · intro p tx rx preamble tries timeout p0 p1 tag pkt reply rx1 hn hm hl hu ht
    exact txrx_bad_tag crc32hd crc32 p tx rx preamble tries timeout p0 p1 tag pkt reply rx1
      hn hm hl hu ht
  · intro ρ p typ arg reply unmarshal
    refine ⟨?_, ?_⟩
    · intro ht
      unfold Pump.Call
      simp only [if_pos ht]
    intro ht
    refine ⟨?_, ?_, ?_⟩
    · intro p1 tx1 rx1 e hx
      exact Call_txrx_error crc32hd crc32 p typ arg reply unmarshal p1 tx1 rx1 _ ht hx
        (by simp)
    · exact Call_ok crc32hd crc32 p typ arg reply unmarshal ht
    · intro p1 tx1 rx1 p2 tx2 rx2 e hx hl
      exact Call_loop_error crc32hd crc32 p typ arg reply unmarshal p1 tx1 rx1 p2 tx2 rx2 _
        ht hx hl (by simp)
  · intro timeout fuel p tx rx k p1 tx1 rx1 e hk hu hx
    exact keepaliveLoop_txrx_error crc32hd crc32 timeout fuel p tx rx k p1 tx1 rx1 _ hk hu hx
      (by simp)

/-- C18 on a run: a status call on a fresh session, with checksum functions that
accept every header, answered by a frame of type 0x50 whose tag is 0x00 where
0xff is due. `Call` returns `bad reply tag`, and the status object is the one
passed in. -/
theorem Pump.txrx_reply_tag_witness :
    Pump.Call (fun _ => (0, true)) (fun _ => 0)
        { tagidx := 0,
          replies :=
            [.ok
              { Typ := radio.Rtxrx, Flag := 0, Err := 0, Timeout := 0,
                Preamble := 0, Filterbyte3 := 0,
                Pkt := radio.Packet.copy [0x50, 0, 0x00, 0, 0, 0, 0, 0] }],
          calls := [], slept := [] }
        CallStatus none (some Status.zero)
        (fun s b => ((Status.Unmarshal s b).1, Outcome.ofError (Status.Unmarshal s b).2)) =
      ({ tagidx := 1, replies := [],
         calls :=
           [{ Typ := radio.Ttxrx, Flag := 0, Err := 0, Timeout := 300 * Millisecond,
              Preamble := 0, Filterbyte3 := 0,
              Pkt := radio.Packet.copy [0x50, 0, 0x00, 0, 0, 0, 0, 0] }],
         slept := [] },
        some Status.zero, some (.error "bad reply tag")) :=
  (((Pump.txrx_reply_tag (fun _ => (0, true)) (fun _ => 0)).2.2.1 Status _ CallStatus none
    _ _).2 (by decide)).1 _
    { Typ := CallStatus, Tag := 0, Body := [] } { Typ := 0x50, Tag := 0, Body := [] } _ rfl

/-! ## Panics that reach `Call` -/

/-- A run of `Call` that `frame.Unmarshal` ends with a panic: a status call on a
fresh session, with checksum functions that accept every header, answered by a
packet whose size byte is 255. Nothing between the frame decoder and the caller
of `Call` recovers. -/
theorem Call_reply_size_255_panics :
    Pump.Call (fun _ => (0, true)) (fun _ => 0)
        { tagidx := 0,
          replies :=
            [.ok
              { Typ := radio.Rtxrx, Flag := 0, Err := 0, Timeout := 0,
                Preamble := 0, Filterbyte3 := 0,
                Pkt := radio.Packet.copy [0x50, 0, 0xff, 255, 0, 0, 0, 0] }],
          calls := [], slept := [] }
        CallStatus none (some Status.zero)
        (fun s b => ((Status.Unmarshal s b).1, Outcome.ofError (Status.Unmarshal s b).2)) =
      ({ tagidx := 1, replies := [],
         calls :=
           [{ Typ := radio.Ttxrx, Flag := 0, Err := 0, Timeout := 300 * Millisecond,
              Preamble := 0, Filterbyte3 := 0,
              Pkt := radio.Packet.copy [0x50, 0, 0x00, 0, 0, 0, 0, 0] }],
         slept := [] },
        some Status.zero, some .panic) := rfl

/-- A run of `Call` that `Keepalive.Unmarshal` ends with a panic: the same call
answered by a keepalive frame (type 0x03, tag 0xff) of size 0. The body of the
fresh reply frame is empty, and `Keepalive.Unmarshal` reads two bytes of it. -/
theorem Call_keepalive_size_0_panics :
    Pump.Call (fun _ => (0, true)) (fun _ => 0)
        { tagidx := 0,
          replies :=
            [.ok
              { Typ := radio.Rtxrx, Flag := 0, Err := 0, Timeout := 0,
                Preamble := 0, Filterbyte3 := 0,
                Pkt := radio.Packet.copy [0x03, 0, 0xff, 0, 0, 0, 0, 0] }],
          calls := [], slept := [] }
        CallStatus none (some Status.zero)
        (fun s b => ((Status.Unmarshal s b).1, Outcome.ofError (Status.Unmarshal s b).2)) =
      ({ tagidx := 1, replies := [],
         calls :=
           [{ Typ := radio.Ttxrx, Flag := 0, Err := 0, Timeout := 300 * Millisecond,
              Preamble := 0, Filterbyte3 := 0,
              Pkt := radio.Packet.copy [0x50, 0, 0x00, 0, 0, 0, 0, 0] }],
         slept := [] },
        some Status.zero, some .panic) := rfl

end pump

namespace radio

/-! ## The round trip of radio calls -/

/-- The two bytes `pbit16` writes are read back by `gbit16`. -/
theorem gbit16_bytes (T : Nat) (hT : T ≤ 65535) (b : List pump.Byte) :
    gbit16 (pump.byte (T / 256) :: pump.byte T :: b) = some (T, b) := by
  simp only [gbit16, pump.byte]
  congr 2
  simp only [Nat.shiftLeft_eq]
  have h1 : T / 256 % 256 = T / 256 := Nat.mod_eq_of_lt (by omega)
  rw [h1]
  have h2 : T / 256 * 2 ^ 8 ||| T % 256 = T / 256 * 2 ^ 8 + T % 256 :=
    pump.mul_pow_or_eq_add (T % 256) (T / 256) 8 (Nat.mod_lt T (by decide))
  rw [h2]
  omega

/-- A whole number of milliseconds below 65536 is what `Call.Bytes` encodes. -/
theorem millis16_millis (T : Nat) (hT : T ≤ 65535) :
    millis16 ((T : Int) * pump.Millisecond) = T := by
  have h := (millis16_eq ((T : Int) * 1000000) (by positivity) (by omega)).1
  have e : pump.Millisecond = 1000000 := rfl
  rw [e, h]
  omega

/-- A packet is read back whole. -/
theorem gpkt_packet (p : Packet) (b : List pump.Byte) :
    gpkt (p.val ++ b) = some (p, b) := by
  have hp := p.property
  unfold gpkt
  rw [if_pos (by simp [hp])]
  have h1 : (p.val ++ b).take 78 = p.val := List.take_left' hp
  have h2 : (p.val ++ b).drop 78 = b := List.drop_left' hp
  rw [h1, h2]
  congr 2
  apply Subtype.ext
  simp [Packet.copy, hp]

/-- Decoding what `Call.Bytes` encoded gives the call back. -/
theorem UnmarshalRcall_Bytes (c : Call) (T P : Nat) (hT : T ≤ 65535) (hP : P ≤ 65535)
    (hTo : c.Timeout = (T : Int) * pump.Millisecond)
    (hPr : c.Preamble = (P : Int) * pump.Millisecond)
    (hv : c.Typ = Trx ∨ c.Typ = Rrx ∨ c.Typ = Ttx ∨ c.Typ = Rtx ∨ c.Typ = Ttxrx ∨
      c.Typ = Rtxrx ∨ c.Typ = Tping ∨ c.Typ = Rping ∨ c.Typ = Rerr)
    (hErr : c.Typ ≠ Rerr → c.Err = 0)
    (hTz : c.Typ ≠ Trx → c.Typ ≠ Ttxrx → c.Timeout = 0 ∧ c.Filterbyte3 = 0)
    (hPz : c.Typ ≠ Ttxrx → c.Typ ≠ Ttx → c.Preamble = 0)
    (hPkt : c.Typ ≠ Ttxrx → c.Typ ≠ Ttx → c.Typ ≠ Rrx → c.Typ ≠ Rtxrx → c.Pkt = Packet.zero) :
    ∃ b, c.Bytes = .ok b ∧ UnmarshalRcall b = .ok c := by
  have hc := Call.Bytes_cases c
  rcases c with ⟨typ, flag, err, tmo, pre, fb3, pkt⟩
  simp only at hTo hPr hv hErr hTz hPz hPkt hc
  have hmT := millis16_millis T hT
  have hmP := millis16_millis P hP
  have hpl := pkt.property
  rcases hv with h | h | h | h | h | h | h | h | h
  · subst h
    refine ⟨_, hc.1 rfl, ?_⟩
    clear hc
    obtain rfl := hErr (by decide)
    obtain rfl := hPz (by decide) (by decide)
    obtain rfl := hPkt (by decide) (by decide) (by decide) (by decide)
    subst hTo
    rw [hmT]
    simp [UnmarshalRcall, gbit8, gtimeout, gbit16_bytes T hT, Trx, Tping, Rping, Rtx]
    rfl
  · subst h
    refine ⟨_, hc.2.2.2.1 (Or.inl rfl), ?_⟩
    clear hc
    obtain rfl := hErr (by decide)
    obtain rfl := hPz (by decide) (by decide)
    obtain ⟨rfl, rfl⟩ := hTz (by decide) (by decide)
    have := gpkt_packet pkt []
    rw [List.append_nil] at this
    simp [UnmarshalRcall, gbit8, this, hpl, Rrx, Trx, Tping, Rping, Rtx, Ttxrx,
      Ttx, Rtxrx]
    rfl
  · subst h
    refine ⟨_, hc.2.2.1 rfl, ?_⟩
    clear hc
    obtain rfl := hErr (by decide)
    obtain ⟨rfl, rfl⟩ := hTz (by decide) (by decide)
    subst hPr
    rw [hmP]
    have := gpkt_packet pkt []
    rw [List.append_nil] at this
    simp [UnmarshalRcall, gbit8, gtimeout, gbit16_bytes P hP, this, hpl, Rrx, Trx, Tping,
      Rping, Rtx, Ttxrx, Ttx]
    rfl
  · subst h
    refine ⟨_, hc.2.2.2.2.1 (Or.inl rfl), ?_⟩
    clear hc
    obtain rfl := hErr (by decide)
    obtain ⟨rfl, rfl⟩ := hTz (by decide) (by decide)
    obtain rfl := hPz (by decide) (by decide)
    obtain rfl := hPkt (by decide) (by decide) (by decide) (by decide)
    simp [UnmarshalRcall, gbit8, Tping, Rping, Rtx]
    rfl
  · subst h
    refine ⟨_, hc.2.1 rfl, ?_⟩
    clear hc
    obtain rfl := hErr (by decide)
    subst hPr hTo
    rw [hmP, hmT]
    have := gpkt_packet pkt []
    rw [List.append_nil] at this
    simp [UnmarshalRcall, gbit8, gtimeout, gbit16_bytes P hP, gbit16_bytes T hT, this, hpl,
      Rrx, Trx, Tping, Rping, Rtx, Ttxrx, Ttx]
    rfl
  · subst h
    refine ⟨_, hc.2.2.2.1 (Or.inr rfl), ?_⟩
    clear hc
    obtain rfl := hErr (by decide)
    obtain rfl := hPz (by decide) (by decide)
    obtain ⟨rfl, rfl⟩ := hTz (by decide) (by decide)
    have := gpkt_packet pkt []
    rw [List.append_nil] at this
    simp [UnmarshalRcall, gbit8, this, hpl, Rrx, Trx, Tping, Rping, Rtx, Ttxrx,
      Ttx, Rtxrx]
    rfl
  · subst h
    refine ⟨_, hc.2.2.2.2.1 (Or.inr (Or.inl rfl)), ?_⟩
    clear hc
    obtain rfl := hErr (by decide)
    obtain ⟨rfl, rfl⟩ := hTz (by decide) (by decide)
    obtain rfl := hPz (by decide) (by decide)
    obtain rfl := hPkt (by decide) (by decide) (by decide) (by decide)
    simp [UnmarshalRcall, gbit8, Tping, Rping, Rtx]
    rfl
  · subst h
    refine ⟨_, hc.2.2.2.2.1 (Or.inr (Or.inr rfl)), ?_⟩
    clear hc
    obtain rfl := hErr (by decide)
    obtain ⟨rfl, rfl⟩ := hTz (by decide) (by decide)
    obtain rfl := hPz (by decide) (by decide)
    obtain rfl := hPkt (by decide) (by decide) (by decide) (by decide)
    simp [UnmarshalRcall, gbit8, Tping, Rping, Rtx]
    rfl
  · subst h
    refine ⟨_, hc.2.2.2.2.2.1 rfl, ?_⟩
    clear hc
    obtain ⟨rfl, rfl⟩ := hTz (by decide) (by decide)
    obtain rfl := hPz (by decide) (by decide)
    obtain rfl := hPkt (by decide) (by decide) (by decide) (by decide)
    simp [UnmarshalRcall, gbit8, Rerr, Rrx, Trx, Tping, Rping, Rtx, Ttxrx, Ttx, Rtxrx]
    rfl

/-- A first byte that is not the length of the slice is rejected. -/
theorem UnmarshalRcall_bad_length (n : pump.Byte) (rest : List pump.Byte)
    (h : n.val ≠ (n :: rest).length) : UnmarshalRcall (n :: rest) = .error "bad length" := by
  simp only [UnmarshalRcall, gbit8]
  rw [if_pos]
  simp only [List.length_cons] at h
  omega

/-- C21: round trip and length validation of radio calls. For every call of a
valid type whose `Timeout` and `Preamble` are whole milliseconds `T`, `P` in
0..65535 and whose fields not carried by its type are zero (`Err` unless the
type is `Rerr`; `Timeout` and `Filterbyte3` unless `Trx` or `Ttxrx`; `Preamble`
unless `Ttxrx` or `Ttx`; the packet unless `Ttxrx`, `Ttx`, `Rrx` or `Rtxrx`),
`Bytes` succeeds and `UnmarshalRcall` of its result is the call. For every slice
whose first byte is not the length of the slice, and for the empty slice,
`UnmarshalRcall` returns an error. -/
theorem UnmarshalRcall_roundtrip (c : Call) (T P : Nat) (hT : T ≤ 65535) (hP : P ≤ 65535)
    (hTo : c.Timeout = (T : Int) * pump.Millisecond)
    (hPr : c.Preamble = (P : Int) * pump.Millisecond)
    (hv : c.Typ = Trx ∨ c.Typ = Rrx ∨ c.Typ = Ttx ∨ c.Typ = Rtx ∨ c.Typ = Ttxrx ∨
      c.Typ = Rtxrx ∨ c.Typ = Tping ∨ c.Typ = Rping ∨ c.Typ = Rerr)
    (hErr : c.Typ ≠ Rerr → c.Err = 0)
    (hTz : c.Typ ≠ Trx → c.Typ ≠ Ttxrx → c.Timeout = 0 ∧ c.Filterbyte3 = 0)
    (hPz : c.Typ ≠ Ttxrx → c.Typ ≠ Ttx → c.Preamble = 0)
    (hPkt : c.Typ ≠ Ttxrx → c.Typ ≠ Ttx → c.Typ ≠ Rrx → c.Typ ≠ Rtxrx → c.Pkt = Packet.zero) :
    (∃ b, c.Bytes = .ok b ∧ UnmarshalRcall b = .ok c) ∧
    (∀ (n : pump.Byte) (rest : List pump.Byte), n.val ≠ (n :: rest).length →
      UnmarshalRcall (n :: rest) = .error "bad length") ∧
    UnmarshalRcall [] = .error "malformed Fcall" :=
  ⟨UnmarshalRcall_Bytes c T P hT hP hTo hPr hv hErr hTz hPz hPkt, UnmarshalRcall_bad_length, rfl⟩

/-- C21 on a `Ttxrx` call with a timeout of 300 ms, a preamble of 2 s and a
packet that starts `50 00 0e`, and on the slice `[5, 7, 0]`, whose first byte
is not its length. -/
theorem UnmarshalRcall_roundtrip_witness :
    (∃ b,
      Call.Bytes
        { Typ := Ttxrx, Flag := 0, Err := 0, Timeout := 300 * pump.Millisecond,
          Preamble := 2000 * pump.Millisecond, Filterbyte3 := 0,
          Pkt := Packet.copy [0x50, 0, 0x0e] } = .ok b ∧
      UnmarshalRcall b =
        .ok { Typ := Ttxrx, Flag := 0, Err := 0, Timeout := 300 * pump.Millisecond,
              Preamble := 2000 * pump.Millisecond, Filterbyte3 := 0,
              Pkt := Packet.copy [0x50, 0, 0x0e] }) ∧
    UnmarshalRcall [5, 7, 0] = .error "bad length" :=
  ⟨(UnmarshalRcall_roundtrip
      { Typ := Ttxrx, Flag := 0, Err := 0, Timeout := 300 * pump.Millisecond,
        Preamble := 2000 * pump.Millisecond, Filterbyte3 := 0,
        Pkt := Packet.copy [0x50, 0, 0x0e] }
      300 2000 (by decide) (by decide) rfl rfl (by decide) (fun _ => rfl)
      (fun _ h => absurd rfl h) (fun h => absurd rfl h) (fun h => absurd rfl h)).1,
    (UnmarshalRcall_roundtrip
      { Typ := Ttxrx, Flag := 0, Err := 0, Timeout := 300 * pump.Millisecond,
        Preamble := 2000 * pump.Millisecond, Filterbyte3 := 0,
        Pkt := Packet.copy [0x50, 0, 0x0e] }
      300 2000 (by decide) (by decide) rfl rfl (by decide) (fun _ => rfl)
      (fun _ h => absurd rfl h) (fun h => absurd rfl h) (fun h => absurd rfl h)).2.1 5 [7, 0]
      (by decide)⟩

end radio

namespace pump

/-! ## The keepalive loop -/

/-- Drawing a tag does not sleep. -/
theorem nextTag_slept (p : Pump) : p.nextTag.1.slept = p.slept := by
  unfold Pump.nextTag
  split <;> rfl

/-- A radio call does not sleep. -/
theorem radioCall_slept (p : Pump) (call : radio.Call) :
    (p.radioCall call).1.slept = p.slept := by
  unfold Pump.radioCall
  split <;> rfl

/-- The retries of a radio call do not sleep. -/
theorem txrxLoop_slept (call : radio.Call) (tries : Nat) (p : Pump) :
    (Pump.txrxLoop call tries p).1.slept = p.slept := by
  induction tries generalizing p with
  | zero =>
    unfold Pump.txrxLoop
    have h := radioCall_slept p call
    split
    · rename_i heq; rw [heq] at h; exact h
    · rename_i heq; rw [heq] at h
      split
      · split <;> exact h
      · exact h
  | succ n ih =>
    unfold Pump.txrxLoop
    have h := radioCall_slept p call
    split
    · rename_i heq; rw [heq] at h; exact h
    · rename_i heq; rw [heq] at h
      split
      · split
        · simp only
          rw [ih]; exact h
        · exact h
      · exact h

/-- A transmission does not sleep. -/
theorem txrx_slept (crc32hd : List Byte → Word32 × Bool) (crc32 : List Byte → Word32)
    (p : Pump) (tx rx : frame) (preamble : Duration) (tries : Nat) (timeout : Duration) :
    (Pump.txrx crc32hd crc32 p tx rx preamble tries timeout).1.slept = p.slept := by
  unfold Pump.txrx
  have h := nextTag_slept p
  split
  · rename_i heq; rw [heq] at h; exact h
  · rename_i p0 tag heq
    rw [heq] at h
    simp only at h ⊢
    split
    · exact h
    · rename_i pkt hm
      split
      · rename_i p1 e hl
        have := txrxLoop_slept
          { Typ := radio.Ttxrx, Flag := 0, Err := 0, Timeout := timeout, Preamble := preamble,
            Filterbyte3 := 0, Pkt := radio.Packet.copy pkt } tries p0
        rw [hl] at this
        exact this.trans h
      · rename_i p1 reply hl
        have := txrxLoop_slept
          { Typ := radio.Ttxrx, Flag := 0, Err := 0, Timeout := timeout, Preamble := preamble,
            Filterbyte3 := 0, Pkt := radio.Packet.copy pkt } tries p0
        rw [hl] at this
        have h2 := this.trans h
        split
        · exact h2
        · exact h2
        · split <;> exact h2

/-- The backoff a keepalive body of at least two bytes asks for. -/
theorem Keepalive_Unmarshal_cons (k : Keepalive) (b0 b1 : Byte) (rest : List Byte) :
    Keepalive.Unmarshal k (b0 :: b1 :: rest) =
      (⟨((b0.val + b1.val * 256 : Nat) : Int) * Millisecond⟩, .ok) := by
  simp only [Keepalive.Unmarshal, gbit16_cons]

/-- The sleep of one round of the keepalive loop, as a function of the
milliseconds asked for. -/
theorem backoff_eq (ms : Nat) :
    (if ((ms : Nat) : Int) * Millisecond = 300 * Millisecond then 450 * Millisecond
      else ((ms : Nat) : Int) * Millisecond) =
      (if ms = 300 then 450 * Millisecond else ((ms : Nat) : Int) * Millisecond) := by
  have e : Millisecond = (1000000 : Int) := rfl
  by_cases h : ms = 300
  · subst h; rfl
  · rw [if_neg h, if_neg]
    rw [e]
    omega

/-- One round of the keepalive loop: the sleep, then the resend. -/
theorem keepaliveLoop_round (crc32hd : List Byte → Word32 × Bool) (crc32 : List Byte → Word32)
    (timeout : Duration) (fuel : Nat) (p : Pump) (tx rx : frame) (b0 b1 : Byte)
    (rest : List Byte) (hk : rx.Typ = CallKeepalive) (hb : rx.Body = b0 :: b1 :: rest) :
    (∀ (p1 : Pump) (tx1 rx1 : frame),
      Pump.txrx crc32hd crc32
        { p with slept := p.slept ++
          [if b0.val + b1.val * 256 = 300 then 450 * Millisecond
            else ((b0.val + b1.val * 256 : Nat) : Int) * Millisecond] }
        { tx with Typ := CallKeepalive, Body := [] } rx (0 * Second) 10 (2 * timeout)
        = (p1, tx1, rx1, .ok) →
      Pump.keepaliveLoop crc32hd crc32 timeout (fuel + 1) p tx rx =
        Pump.keepaliveLoop crc32hd crc32 timeout fuel p1 tx1 rx1) ∧
    (∀ (p1 : Pump) (tx1 rx1 : frame) (out : Outcome),
      Pump.txrx crc32hd crc32
        { p with slept := p.slept ++
          [if b0.val + b1.val * 256 = 300 then 450 * Millisecond
            else ((b0.val + b1.val * 256 : Nat) : Int) * Millisecond] }
        { tx with Typ := CallKeepalive, Body := [] } rx (0 * Second) 10 (2 * timeout)
        = (p1, tx1, rx1, out) →
      out ≠ .ok →
      Pump.keepaliveLoop crc32hd crc32 timeout (fuel + 1) p tx rx = (p1, tx1, rx1, some out)) := by
  constructor
  · intro p1 tx1 rx1 hx
    rw [Pump.keepaliveLoop, if_pos hk]
    simp only [hb, Keepalive_Unmarshal_cons, backoff_eq, hx]
  · intro p1 tx1 rx1 out hx hout
    rw [Pump.keepaliveLoop, if_pos hk]
    simp only [hb, Keepalive_Unmarshal_cons, backoff_eq, hx]

/-- The keepalive loop only adds to the record of sleeps. -/
theorem keepaliveLoop_slept (crc32hd : List Byte → Word32 × Bool) (crc32 : List Byte → Word32)
    (timeout : Duration) (fuel : Nat) (p : Pump) (tx rx : frame) :
    ∃ more, (Pump.keepaliveLoop crc32hd crc32 timeout fuel p tx rx).1.slept =
      p.slept ++ more := by
  induction fuel generalizing p tx rx with
  | zero =>
    refine ⟨[], ?_⟩
    unfold Pump.keepaliveLoop
    split <;> simp
  | succ fuel ih =>
    unfold Pump.keepaliveLoop
    split
    · simp only
      split
      · exact ⟨[], by simp⟩
      · exact ⟨[], by simp⟩
      · rename_i k hu
        have hs := txrx_slept crc32hd crc32
          { p with slept := p.slept ++
            [if k.Backoff = 300 * Millisecond then 450 * Millisecond else k.Backoff] }
          { tx with Typ := CallKeepalive, Body := [] } rx (0 * Second) 10 (2 * timeout)
        split
        · rename_i p3 tx3 rx3 hx
          rw [hx] at hs
          obtain ⟨more, hm⟩ := ih p3 tx3 rx3
          simp only at hs
          refine ⟨(if k.Backoff = 300 * Millisecond then 450 * Millisecond else k.Backoff) ::
            more, ?_⟩
          rw [hm, hs]
          simp
        · rename_i p3 tx3 rx3 out hne hx
          rw [hx] at hs
          exact ⟨[if k.Backoff = 300 * Millisecond then 450 * Millisecond else k.Backoff], hs⟩
    · exact ⟨[], by simp⟩

/-- A round of the keepalive loop records its sleep first. -/
theorem keepaliveLoop_round_slept (crc32hd : List Byte → Word32 × Bool)
    (crc32 : List Byte → Word32) (timeout : Duration) (fuel : Nat) (p : Pump) (tx rx : frame)
    (b0 b1 : Byte) (rest : List Byte) (hk : rx.Typ = CallKeepalive)
    (hb : rx.Body = b0 :: b1 :: rest) :
    ∃ more, (Pump.keepaliveLoop crc32hd crc32 timeout (fuel + 1) p tx rx).1.slept =
      p.slept ++ (if b0.val + b1.val * 256 = 300 then 450 * Millisecond
        else ((b0.val + b1.val * 256 : Nat) : Int) * Millisecond) :: more := by
  have hr := keepaliveLoop_round crc32hd crc32 timeout fuel p tx rx b0 b1 rest hk hb
  have hs := txrx_slept crc32hd crc32
    { p with slept := p.slept ++
      [if b0.val + b1.val * 256 = 300 then 450 * Millisecond
        else ((b0.val + b1.val * 256 : Nat) : Int) * Millisecond] }
    { tx with Typ := CallKeepalive, Body := [] } rx (0 * Second) 10 (2 * timeout)
  obtain ⟨p1, tx1, rx1, out, hx⟩ : ∃ p1 tx1 rx1 out, Pump.txrx crc32hd crc32
    { p with slept := p.slept ++
      [if b0.val + b1.val * 256 = 300 then 450 * Millisecond
        else ((b0.val + b1.val * 256 : Nat) : Int) * Millisecond] }
    { tx with Typ := CallKeepalive, Body := [] } rx (0 * Second) 10 (2 * timeout)
      = (p1, tx1, rx1, out) := ⟨_, _, _, _, rfl⟩
  rw [hx] at hs
  simp only at hs
  by_cases hout : out = .ok
  · subst hout
    rw [hr.1 p1 tx1 rx1 hx]
    obtain ⟨more, hm⟩ := keepaliveLoop_slept crc32hd crc32 timeout fuel p1 tx1 rx1
    refine ⟨more, ?_⟩
    rw [hm, hs]
    simp
  · rw [hr.2 p1 tx1 rx1 out hx hout]
    refine ⟨[], ?_⟩
    simp only
    rw [hs]

/-- The pump a `Call` other than `Adjourn` leaves behind, after a first
transmission that succeeded, is the pump the keepalive loop leaves behind. -/
theorem Call_pump_eq {ρ : Type} (crc32hd : List Byte → Word32 × Bool)
    (crc32 : List Byte → Word32) (p : Pump) (typ : Byte) (arg : Option (List Byte))
    (reply : Option ρ) (unmarshal : ρ → List Byte → ρ × Outcome)
    (p1 : Pump) (tx1 rx1 : frame) (ht : typ ≠ CallAdjourn)
    (hx : Pump.txrx crc32hd crc32 p { Typ := typ, Tag := 0, Body := arg.getD [] }
        { Typ := 0, Tag := 0, Body := [] }
        (if typ = CallWakeup then 2 * Second else 0)
        (if typ = CallWakeup then 10 else 15)
        (if typ = CallWakeup then 200 * Millisecond else 300 * Millisecond)
        = (p1, tx1, rx1, .ok)) :
    (Pump.Call crc32hd crc32 p typ arg reply unmarshal).1 =
      (Pump.keepaliveLoop crc32hd crc32
        (if typ = CallWakeup then 200 * Millisecond else 300 * Millisecond)
        (tagSeq.length + 1) p1 tx1 rx1).1 := by
  obtain ⟨p2, tx2, rx2, out2, hl⟩ :
      ∃ p2 tx2 rx2 out2, Pump.keepaliveLoop crc32hd crc32
        (if typ = CallWakeup then 200 * Millisecond else 300 * Millisecond)
        (tagSeq.length + 1) p1 tx1 rx1 = (p2, tx2, rx2, out2) := ⟨_, _, _, _, rfl⟩
  rw [hl]
  by_cases hout2 : out2 = some .ok
  · subst hout2
    rw [Call_exchange_ok crc32hd crc32 p typ arg reply unmarshal _ _ _ _ _ _ ht hx hl]
    split
    · rfl
    · cases reply <;> rfl
  · rw [Call_loop_error crc32hd crc32 p typ arg reply unmarshal _ _ _ _ _ _ _ ht hx hl hout2]

/-- C22: keepalive compensation. For a keepalive reply (type 0x03) whose body
starts with the little-endian u16 `ms`: the decoder yields a backoff of `ms`
milliseconds; the loop of `Call` sleeps 450 ms when `ms = 300` and `ms`
milliseconds otherwise, never less than the backoff, and only then resends (the
resend runs on the pump whose record of sleeps has the new entry; its result
decides whether the loop goes on or ends). The sleep is the next entry in the
record of sleeps of the loop and of every `Call` whose first reply is that
keepalive. -/
theorem Pump.Call_keepalive_backoff (crc32hd : List Byte → Word32 × Bool)
    (crc32 : List Byte → Word32) (b0 b1 : Byte) (rest : List Byte) :
    (∀ k : Keepalive, Keepalive.Unmarshal k (b0 :: b1 :: rest) =
      (⟨((b0.val + b1.val * 256 : Nat) : Int) * Millisecond⟩, .ok)) ∧
    (b0.val + b1.val * 256 = 300 →
      (if b0.val + b1.val * 256 = 300 then 450 * Millisecond
        else ((b0.val + b1.val * 256 : Nat) : Int) * Millisecond) = 450 * Millisecond) ∧
    (b0.val + b1.val * 256 ≠ 300 →
      (if b0.val + b1.val * 256 = 300 then 450 * Millisecond
        else ((b0.val + b1.val * 256 : Nat) : Int) * Millisecond) =
        ((b0.val + b1.val * 256 : Nat) : Int) * Millisecond) ∧
    ((b0.val + b1.val * 256 : Nat) : Int) * Millisecond ≤
      (if b0.val + b1.val * 256 = 300 then 450 * Millisecond
        else ((b0.val + b1.val * 256 : Nat) : Int) * Millisecond) ∧
    (∀ (timeout : Duration) (fuel : Nat) (p : Pump) (tx rx : frame),
      rx.Typ = CallKeepalive → rx.Body = b0 :: b1 :: rest →
      (∀ (p1 : Pump) (tx1 rx1 : frame),
        Pump.txrx crc32hd crc32
          { p with slept := p.slept ++
            [if b0.val + b1.val * 256 = 300 then 450 * Millisecond
              else ((b0.val + b1.val * 256 : Nat) : Int) * Millisecond] }
          { tx with Typ := CallKeepalive, Body := [] } rx (0 * Second) 10 (2 * timeout)
          = (p1, tx1, rx1, .ok) →
        Pump.keepaliveLoop crc32hd crc32 timeout (fuel + 1) p tx rx =
          Pump.keepaliveLoop crc32hd crc32 timeout fuel p1 tx1 rx1) ∧
      (∀ (p1 : Pump) (tx1 rx1 : frame) (out : Outcome),
        Pump.txrx crc32hd crc32
          { p with slept := p.slept ++
            [if b0.val + b1.val * 256 = 300 then 450 * Millisecond
              else ((b0.val + b1.val * 256 : Nat) : Int) * Millisecond] }
          { tx with Typ := CallKeepalive, Body := [] } rx (0 * Second) 10 (2 * timeout)
          = (p1, tx1, rx1, out) →
        out ≠ .ok →
        Pump.keepaliveLoop crc32hd crc32 timeout (fuel + 1) p tx rx =
          (p1, tx1, rx1, some out)) ∧
      ∃ more, (Pump.keepaliveLoop crc32hd crc32 timeout (fuel + 1) p tx rx).1.slept =
        p.slept ++ (if b0.val + b1.val * 256 = 300 then 450 * Millisecond
          else ((b0.val + b1.val * 256 : Nat) : Int) * Millisecond) :: more) ∧
    (∀ (ρ : Type) (p : Pump) (typ : Byte) (arg : Option (List Byte)) (reply : Option ρ)
        (unmarshal : ρ → List Byte → ρ × Outcome) (p1 : Pump) (tx1 rx1 : frame),
      typ ≠ CallAdjourn →
      Pump.txrx crc32hd crc32 p { Typ := typ, Tag := 0, Body := arg.getD [] }
        { Typ := 0, Tag := 0, Body := [] }
        (if typ = CallWakeup then 2 * Second else 0)
        (if typ = CallWakeup then 10 else 15)
        (if typ = CallWakeup then 200 * Millisecond else 300 * Millisecond)
        = (p1, tx1, rx1, .ok) →
      rx1.Typ = CallKeepalive → rx1.Body = b0 :: b1 :: rest →
      ∃ more, (Pump.Call crc32hd crc32 p typ arg reply unmarshal).1.slept =
        p.slept ++ (if b0.val + b1.val * 256 = 300 then 450 * Millisecond
          else ((b0.val + b1.val * 256 : Nat) : Int) * Millisecond) :: more) := by
  refine ⟨fun k => Keepalive_Unmarshal_cons k b0 b1 rest, fun h => if_pos h, fun h => if_neg h,
    ?_, ?_, ?_⟩
  · have e : Millisecond = (1000000 : Int) := rfl
    split
    · rename_i h
      rw [h, e]
      decide
    · exact le_refl _
  · intro timeout fuel p tx rx hk hb
    have hr := keepaliveLoop_round crc32hd crc32 timeout fuel p tx rx b0 b1 rest hk hb
    exact ⟨hr.1, hr.2,
      keepaliveLoop_round_slept crc32hd crc32 timeout fuel p tx rx b0 b1 rest hk hb⟩
  · intro ρ p typ arg reply unmarshal p1 tx1 rx1 ht hx hk hb
    rw [Call_pump_eq crc32hd crc32 p typ arg reply unmarshal p1 tx1 rx1 ht hx]
    have hs := txrx_slept crc32hd crc32 p { Typ := typ, Tag := 0, Body := arg.getD [] }
        { Typ := 0, Tag := 0, Body := [] }
        (if typ = CallWakeup then 2 * Second else 0)
        (if typ = CallWakeup then 10 else 15)
        (if typ = CallWakeup then 200 * Millisecond else 300 * Millisecond)
    rw [hx] at hs
    simp only at hs
    rw [← hs]
    exact keepaliveLoop_round_slept crc32hd crc32 _ _ p1 tx1 rx1 b0 b1 rest hk hb

/-- C22 on a run: a status call on a fresh session, with checksum functions that
accept everything. The pump answers with a keepalive of 300 ms (body `2c 01`),
then with a status frame; `Call` sleeps 450 ms once, resends as a keepalive
with the next tag and returns `nil`. -/
theorem Pump.Call_keepalive_backoff_witness :
    (∃ more,
      (Pump.Call (fun _ => (0, true)) (fun _ => 0)
        { tagidx := 0,
          replies :=
            [.ok
              { Typ := radio.Rtxrx, Flag := 0, Err := 0, Timeout := 0,
                Preamble := 0, Filterbyte3 := 0,
                Pkt := radio.Packet.copy [0x03, 0, 0xff, 2, 0, 0, 0, 0, 0x2c, 0x01] },
             .ok
              { Typ := radio.Rtxrx, Flag := 0, Err := 0, Timeout := 0,
                Preamble := 0, Filterbyte3 := 0,
                Pkt := radio.Packet.copy [0x50, 0, 0xf1, 0, 0, 0, 0, 0] }],
          calls := [], slept := [] }
        CallStatus none (none : Option PUnit) (fun r _ => (r, .ok))).1.slept =
      [] ++ (if (0x2c : Byte).val + (0x01 : Byte).val * 256 = 300 then 450 * Millisecond
        else (((0x2c : Byte).val + (0x01 : Byte).val * 256 : Nat) : Int) * Millisecond) ::
        more) ∧
    Pump.Call (fun _ => (0, true)) (fun _ => 0)
        { tagidx := 0,
          replies :=
            [.ok
              { Typ := radio.Rtxrx, Flag := 0, Err := 0, Timeout := 0,
                Preamble := 0, Filterbyte3 := 0,
                Pkt := radio.Packet.copy [0x03, 0, 0xff, 2, 0, 0, 0, 0, 0x2c, 0x01] },
             .ok
              { Typ := radio.Rtxrx, Flag := 0, Err := 0, Timeout := 0,
                Preamble := 0, Filterbyte3 := 0,
                Pkt := radio.Packet.copy [0x50, 0, 0xf1, 0, 0, 0, 0, 0] }],
          calls := [], slept := [] }
        CallStatus none (none : Option PUnit) (fun r _ => (r, .ok)) =
      ({ tagidx := 2, replies := [],
         calls :=
           [{ Typ := radio.Ttxrx, Flag := 0, Err := 0, Timeout := 300 * Millisecond,
              Preamble := 0, Filterbyte3 := 0,
              Pkt := radio.Packet.copy [0x50, 0, 0x00, 0, 0, 0, 0, 0] },
            { Typ := radio.Ttxrx, Flag := 0, Err := 0, Timeout := 600 * Millisecond,
              Preamble := 0, Filterbyte3 := 0,
              Pkt := radio.Packet.copy [0x03, 0, 0x0e, 0, 0, 0, 0, 0] }],
         slept := [450 * Millisecond] },
        none, some .ok) :=
  ⟨(Pump.Call_keepalive_backoff (fun _ => (0, true)) (fun _ => 0) 0x2c 0x01 []).2.2.2.2.2
      PUnit _ CallStatus none none _ _
      { Typ := CallStatus, Tag := 0, Body := [] }
      { Typ := CallKeepalive, Tag := 0xff, Body := [0x2c, 0x01] } (by decide) rfl rfl rfl,
    rfl⟩

end pump

namespace pump

/-! ## Retries -/

/-- A radio call against an environment whose next answer is known. -/
theorem radioCall_cons (p : Pump) (call : radio.Call) (r : Except Error radio.Call)
    (rest : List (Except Error radio.Call)) (h : p.replies = r :: rest) :
    p.radioCall call = ({ p with replies := rest, calls := p.calls ++ [call] }, r) := by
  unfold Pump.radioCall
  rw [h]

/-- Against a radio that answers every attempt with `Rerr`/`ErrTimeout`, the loop
of `txrx` makes `tries + 1` radio calls before it gives up. -/
theorem txrxLoop_timeouts (call tmo : radio.Call) (tries : Nat) (p : Pump)
    (rest : List (Except Error radio.Call))
    (h1 : tmo.Typ = radio.Rerr) (h2 : tmo.Err = radio.ErrTimeout)
    (hr : p.replies = List.replicate (tries + 1) (.ok tmo) ++ rest) :
    Pump.txrxLoop call tries p =
      ({ p with replies := rest, calls := p.calls ++ List.replicate (tries + 1) call },
        .error "radio error") := by
  induction tries generalizing p with
  | zero =>
    unfold Pump.txrxLoop
    rw [radioCall_cons p call (.ok tmo) rest hr]
    simp [h1, h2]
  | succ n ih =>
    unfold Pump.txrxLoop
    rw [radioCall_cons p call (.ok tmo) (List.replicate (n + 1) (.ok tmo) ++ rest)
      (by rw [hr]; rfl)]
    simp only [h1, h2, if_true]
    rw [ih _ rfl]
    simp [List.replicate_succ]

/-- An `Rerr` reply other than a timeout ends the loop of `txrx` at once. -/
theorem txrxLoop_fatal (call bad : radio.Call) (tries : Nat) (p : Pump)
    (rest : List (Except Error radio.Call))
    (h1 : bad.Typ = radio.Rerr) (h2 : bad.Err ≠ radio.ErrTimeout)
    (hr : p.replies = .ok bad :: rest) :
    Pump.txrxLoop call tries p =
      ({ p with replies := rest, calls := p.calls ++ [call] }, .error "radio error") := by
  cases tries <;>
  · unfold Pump.txrxLoop
    rw [radioCall_cons p call (.ok bad) rest hr]
    simp [h1, h2]

/-- The whole of `txrx` against a radio that only times out. -/
theorem txrx_timeouts (crc32hd : List Byte → Word32 × Bool) (crc32 : List Byte → Word32)
    (p : Pump) (tx rx : frame) (preamble : Duration) (tries : Nat) (timeout : Duration)
    (tmo : radio.Call) (rest : List (Except Error radio.Call)) (pkt : List Byte)
    (h1 : tmo.Typ = radio.Rerr) (h2 : tmo.Err = radio.ErrTimeout) (hi : p.tagidx.val < 11)
    (hm : frame.Marshal crc32hd crc32 { tx with Tag := tagSeq.getD p.tagidx.val 0 } = .ok pkt)
    (hr : p.replies = List.replicate (tries + 1) (.ok tmo) ++ rest) :
    Pump.txrx crc32hd crc32 p tx rx preamble tries timeout =
      ({ tagidx := p.tagidx + 1, replies := rest,
         calls := p.calls ++ List.replicate (tries + 1)
           { Typ := radio.Ttxrx, Flag := 0, Err := 0, Timeout := timeout,
             Preamble := preamble, Filterbyte3 := 0, Pkt := radio.Packet.copy pkt },
         slept := p.slept },
        { tx with Tag := tagSeq.getD p.tagidx.val 0 }, rx, .error "radio error") := by
  unfold Pump.txrx
  rw [(nextTag_fresh p hi).1]
  simp only [hm]
  rw [txrxLoop_timeouts _ tmo tries { p with tagidx := p.tagidx + 1 } rest h1 h2 hr]

/-- The whole of `txrx` against an `Rerr` reply that is not a timeout. -/
theorem txrx_fatal (crc32hd : List Byte → Word32 × Bool) (crc32 : List Byte → Word32)
    (p : Pump) (tx rx : frame) (preamble : Duration) (tries : Nat) (timeout : Duration)
    (bad : radio.Call) (rest : List (Except Error radio.Call)) (pkt : List Byte)
    (h1 : bad.Typ = radio.Rerr) (h2 : bad.Err ≠ radio.ErrTimeout) (hi : p.tagidx.val < 11)
    (hm : frame.Marshal crc32hd crc32 { tx with Tag := tagSeq.getD p.tagidx.val 0 } = .ok pkt)
    (hr : p.replies = .ok bad :: rest) :
    Pump.txrx crc32hd crc32 p tx rx preamble tries timeout =
      ({ tagidx := p.tagidx + 1, replies := rest,
         calls := p.calls ++
           [{ Typ := radio.Ttxrx, Flag := 0, Err := 0, Timeout := timeout,
              Preamble := preamble, Filterbyte3 := 0, Pkt := radio.Packet.copy pkt }],
         slept := p.slept },
        { tx with Tag := tagSeq.getD p.tagidx.val 0 }, rx, .error "radio error") := by
  unfold Pump.txrx
  rw [(nextTag_fresh p hi).1]
  simp only [hm]
  rw [txrxLoop_fatal _ bad tries { p with tagidx := p.tagidx + 1 } rest h1 h2 hr]

/-- The status frame with tag 0x00, under checksum functions that return 0. -/
theorem Marshal_status_zero :
    frame.Marshal (fun _ => (0, true)) (fun _ => 0) { Typ := CallStatus, Tag := 0, Body := [] } =
      .ok [0x50, 0, 0x00, 0, 0, 0, 0, 0] := rfl

/-- The wakeup frame with tag 0x00, under checksum functions that return 0. -/
theorem Marshal_wakeup_zero :
    frame.Marshal (fun _ => (0, true)) (fun _ => 0)
        { Typ := CallWakeup, Tag := 0, Body := Wakeup.Marshal } =
      .ok [0x00, 0, 0x00, 4, 0, 0, 0, 0, 0x49, 0x01, 0x2d, 0x14, 0, 0, 0, 0] := rfl

/-- C25 (the code at the failing input): the retry budget of `txrx`. With a tag
left and a frame that marshals, against a radio that answers every attempt with
`Rerr`/`ErrTimeout`, `txrx` makes `tries + 1` radio calls, one more than
`tries`, all with the same `Ttxrx` call (same packet, same tag), draws one tag
and fails with a radio error; an `Rerr` reply with another error code fails
after one call. On a fresh session whose radio times out sixteen times, `Call`
makes 16 radio calls for a status call; when it times out eleven times,
`Resume` makes 11 radio calls for its wakeup. -/
theorem Pump.txrx_timeout_attempts (crc32hd : List Byte → Word32 × Bool)
    (crc32 : List Byte → Word32) :
    (∀ (p : Pump) (tx rx : frame) (preamble : Duration) (tries : Nat) (timeout : Duration)
        (tmo : radio.Call) (rest : List (Except Error radio.Call)) (pkt : List Byte),
      tmo.Typ = radio.Rerr → tmo.Err = radio.ErrTimeout → p.tagidx.val < 11 →
      frame.Marshal crc32hd crc32 { tx with Tag := tagSeq.getD p.tagidx.val 0 } = .ok pkt →
      p.replies = List.replicate (tries + 1) (.ok tmo) ++ rest →
      Pump.txrx crc32hd crc32 p tx rx preamble tries timeout =
        ({ tagidx := p.tagidx + 1, replies := rest,
           calls := p.calls ++ List.replicate (tries + 1)
             { Typ := radio.Ttxrx, Flag := 0, Err := 0, Timeout := timeout,
               Preamble := preamble, Filterbyte3 := 0, Pkt := radio.Packet.copy pkt },
           slept := p.slept },
          { tx with Tag := tagSeq.getD p.tagidx.val 0 }, rx, .error "radio error")) ∧
    (∀ (p : Pump) (tx rx : frame) (preamble : Duration) (tries : Nat) (timeout : Duration)
        (bad : radio.Call) (rest : List (Except Error radio.Call)) (pkt : List Byte),
      bad.Typ = radio.Rerr → bad.Err ≠ radio.ErrTimeout → p.tagidx.val < 11 →
      frame.Marshal crc32hd crc32 { tx with Tag := tagSeq.getD p.tagidx.val 0 } = .ok pkt →
      p.replies = .ok bad :: rest →
      Pump.txrx crc32hd crc32 p tx rx preamble tries timeout =
        ({ tagidx := p.tagidx + 1, replies := rest,
           calls := p.calls ++
             [{ Typ := radio.Ttxrx, Flag := 0, Err := 0, Timeout := timeout,
                Preamble := preamble, Filterbyte3 := 0, Pkt := radio.Packet.copy pkt }],
           slept := p.slept },
          { tx with Tag := tagSeq.getD p.tagidx.val 0 }, rx, .error "radio error")) ∧
    (∀ (tmo : radio.Call) (rest : List (Except Error radio.Call)),
      tmo.Typ = radio.Rerr → tmo.Err = radio.ErrTimeout →
      Pump.Call (fun _ => (0, true)) (fun _ => 0)
          { tagidx := 0, replies := List.replicate 16 (.ok tmo) ++ rest, calls := [],
            slept := [] }
          CallStatus none (none : Option PUnit) (fun r _ => (r, .ok)) =
        ({ tagidx := 1, replies := rest,
           calls := List.replicate 16
              { Typ := radio.Ttxrx, Flag := 0, Err := 0, Timeout := 300 * Millisecond,
                Preamble := 0, Filterbyte3 := 0,
                Pkt := radio.Packet.copy [0x50, 0, 0x00, 0, 0, 0, 0, 0] },
           slept := [] },
          none, some (.error "radio error")) ∧
      Pump.Resume (fun _ => (0, true)) (fun _ => 0)
          { tagidx := 7, replies := List.replicate 11 (.ok tmo) ++ rest, calls := [],
            slept := [] } =
        ({ tagidx := 1, replies := rest,
           calls := List.replicate 11
              { Typ := radio.Ttxrx, Flag := 0, Err := 0, Timeout := 200 * Millisecond,
                Preamble := 2 * Second, Filterbyte3 := 0,
                Pkt := radio.Packet.copy
                  [0x00, 0, 0x00, 4, 0, 0, 0, 0, 0x49, 0x01, 0x2d, 0x14, 0, 0, 0, 0] },
           slept := [] },
          some (.error "radio error"))) := by
  refine ⟨?_, ?_, ?_⟩
  · intro p tx rx preamble tries timeout tmo rest pkt h1 h2 hi hm hr
    exact txrx_timeouts crc32hd crc32 p tx rx preamble tries timeout tmo rest pkt h1 h2 hi hm hr
  · intro p tx rx preamble tries timeout bad rest pkt h1 h2 hi hm hr
    exact txrx_fatal crc32hd crc32 p tx rx preamble tries timeout bad rest pkt h1 h2 hi hm hr
  · intro tmo rest h1 h2
    constructor
    · have hx := txrx_timeouts (fun _ => (0, true)) (fun _ => 0)
        { tagidx := 0, replies := List.replicate 16 (.ok tmo) ++ rest, calls := [], slept := [] }
        { Typ := CallStatus, Tag := 0, Body := [] } { Typ := 0, Tag := 0, Body := [] }
        0 15 (300 * Millisecond) tmo rest [0x50, 0, 0x00, 0, 0, 0, 0, 0] h1 h2 (by simp)
        Marshal_status_zero rfl
      exact Call_txrx_error (fun _ => (0, true)) (fun _ => 0) _ CallStatus none none _ _ _ _ _
        (by decide) hx (by simp)
    · have hx := txrx_timeouts (fun _ => (0, true)) (fun _ => 0)
        { tagidx := 0, replies := List.replicate 11 (.ok tmo) ++ rest, calls := [], slept := [] }
        { Typ := CallWakeup, Tag := 0, Body := Wakeup.Marshal }
        { Typ := 0, Tag := 0, Body := [] }
        (2 * Second) 10 (200 * Millisecond) tmo rest
        [0x00, 0, 0x00, 4, 0, 0, 0, 0, 0x49, 0x01, 0x2d, 0x14, 0, 0, 0, 0] h1 h2 (by simp)
        Marshal_wakeup_zero rfl
      exact congrArg (fun r => (r.1, r.2.2))
        (Call_txrx_error (fun _ => (0, true)) (fun _ => 0) _ CallWakeup (some Wakeup.Marshal)
          (none : Option PUnit) (fun r _ => (r, .ok)) _ _ _ _ (by decide) hx (by simp))

end pump

namespace pump

/-! ## Tags drawn by `Call` -/

/-- A radio call does not touch the tag index. -/
theorem radioCall_tagidx (p : Pump) (call : radio.Call) :
    (p.radioCall call).1.tagidx = p.tagidx := by
  unfold Pump.radioCall
  split <;> rfl

/-- The retries of a radio call do not touch the tag index. -/
theorem txrxLoop_tagidx (call : radio.Call) (tries : Nat) (p : Pump) :
    (Pump.txrxLoop call tries p).1.tagidx = p.tagidx := by
  induction tries generalizing p with
  | zero =>
    unfold Pump.txrxLoop
    have h := radioCall_tagidx p call
    split
    · rename_i heq; rw [heq] at h; exact h
    · rename_i heq; rw [heq] at h
      split
      · split <;> exact h
      · exact h
  | succ n ih =>
    unfold Pump.txrxLoop
    have h := radioCall_tagidx p call
    split
    · rename_i heq; rw [heq] at h; exact h
    · rename_i heq; rw [heq] at h
      split
      · split
        · simp only
          rw [ih]; exact h
        · exact h
      · exact h

/-- With the table used up `txrx` fails before it transmits. -/
theorem txrx_exhausted (crc32hd : List Byte → Word32 × Bool) (crc32 : List Byte → Word32)
    (p : Pump) (tx rx : frame) (preamble : Duration) (tries : Nat) (timeout : Duration)
    (h : 11 ≤ p.tagidx.val) :
    Pump.txrx crc32hd crc32 p tx rx preamble tries timeout =
      (p, { tx with Tag := 0 }, rx, .error "ran out of tags") := by
  unfold Pump.txrx
  rw [nextTag_exhausted p h]

/-- With a tag left `txrx` draws exactly one tag, whatever happens next. -/
theorem txrx_tagidx (crc32hd : List Byte → Word32 × Bool) (crc32 : List Byte → Word32)
    (p : Pump) (tx rx : frame) (preamble : Duration) (tries : Nat) (timeout : Duration)
    (h : p.tagidx.val < 11) :
    (Pump.txrx crc32hd crc32 p tx rx preamble tries timeout).1.tagidx.val =
      p.tagidx.val + 1 := by
  unfold Pump.txrx
  rw [(nextTag_fresh p h).1]
  simp only
  have h1 := (nextTag_fresh p h).2
  split
  · exact h1
  · rename_i pkt hm
    have hl := txrxLoop_tagidx
      { Typ := radio.Ttxrx, Flag := 0, Err := 0, Timeout := timeout, Preamble := preamble,
        Filterbyte3 := 0, Pkt := radio.Packet.copy pkt } tries
      { p with tagidx := p.tagidx + 1 }
    split
    · rename_i p1 e heq
      rw [heq] at hl
      simp only at hl ⊢
      rw [hl]; exact h1
    · rename_i p1 reply heq
      rw [heq] at hl
      simp only at hl
      split
      · simp only; rw [hl]; exact h1
      · simp only; rw [hl]; exact h1
      · split <;> (simp only; rw [hl]; exact h1)

/-- A successful `txrx` had a tag left. -/
theorem txrx_ok_tagidx (crc32hd : List Byte → Word32 × Bool) (crc32 : List Byte → Word32)
    (p : Pump) (tx rx : frame) (preamble : Duration) (tries : Nat) (timeout : Duration)
    (p1 : Pump) (tx1 rx1 : frame)
    (h : Pump.txrx crc32hd crc32 p tx rx preamble tries timeout = (p1, tx1, rx1, .ok)) :
    p.tagidx.val < 11 ∧ p1.tagidx.val = p.tagidx.val + 1 := by
  by_cases hi : p.tagidx.val < 11
  · have := txrx_tagidx crc32hd crc32 p tx rx preamble tries timeout hi
    rw [h] at this
    exact ⟨hi, this⟩
  · rw [txrx_exhausted crc32hd crc32 p tx rx preamble tries timeout (by omega)] at h
    simp at h

/-- The keepalive loop ends before its fuel does, keeps the tag index within the
table, and draws one tag for every sleep (at most one when it ends with an
error). -/
theorem keepaliveLoop_bounded (crc32hd : List Byte → Word32 × Bool)
    (crc32 : List Byte → Word32) (timeout : Duration) (fuel : Nat) (p : Pump) (tx rx : frame)
    (hi : p.tagidx.val ≤ 11) (hf : 11 - p.tagidx.val < fuel) :
    (Pump.keepaliveLoop crc32hd crc32 timeout fuel p tx rx).2.2.2 ≠ none ∧
    p.tagidx.val ≤ (Pump.keepaliveLoop crc32hd crc32 timeout fuel p tx rx).1.tagidx.val ∧
    (Pump.keepaliveLoop crc32hd crc32 timeout fuel p tx rx).1.tagidx.val ≤ 11 ∧
    (Pump.keepaliveLoop crc32hd crc32 timeout fuel p tx rx).1.tagidx.val + p.slept.length ≤
      p.tagidx.val + (Pump.keepaliveLoop crc32hd crc32 timeout fuel p tx rx).1.slept.length ∧
    ((Pump.keepaliveLoop crc32hd crc32 timeout fuel p tx rx).2.2.2 = some .ok →
      (Pump.keepaliveLoop crc32hd crc32 timeout fuel p tx rx).1.tagidx.val + p.slept.length =
        p.tagidx.val +
          (Pump.keepaliveLoop crc32hd crc32 timeout fuel p tx rx).1.slept.length) := by
  induction fuel generalizing p tx rx with
  | zero => omega
  | succ fuel ih =>
    unfold Pump.keepaliveLoop
    split
    · simp only
      split
      · simp
        exact hi
      · simp
        exact hi
      · rename_i k hu
        have hs := txrx_slept crc32hd crc32
          { p with slept := p.slept ++
            [if k.Backoff = 300 * Millisecond then 450 * Millisecond else k.Backoff] }
          { tx with Typ := CallKeepalive, Body := [] } rx (0 * Second) 10 (2 * timeout)
        split
        · rename_i p3 tx3 rx3 hx
          rw [hx] at hs
          simp only at hs
          have ht := txrx_ok_tagidx crc32hd crc32 _ _ _ _ _ _ _ _ _ hx
          simp only at ht
          have hl : p3.slept.length = p.slept.length + 1 := by rw [hs]; simp
          have := ih p3 tx3 rx3 (by omega) (by omega)
          refine ⟨this.1, by omega, this.2.2.1, by omega, fun h => ?_⟩
          have := this.2.2.2.2 h
          omega
        · rename_i p3 tx3 rx3 out hne hx
          rw [hx] at hs
          simp only at hs
          have hl : p3.slept.length = p.slept.length + 1 := by rw [hs]; simp
          simp only
          by_cases h11 : p.tagidx.val < 11
          · have ht := txrx_tagidx crc32hd crc32
              { p with slept := p.slept ++
                [if k.Backoff = 300 * Millisecond then 450 * Millisecond else k.Backoff] }
              { tx with Typ := CallKeepalive, Body := [] } rx (0 * Second) 10 (2 * timeout) h11
            rw [hx] at ht
            simp only at ht
            refine ⟨by simp, by omega, by omega, by omega, fun h => ?_⟩
            simp only [Option.some.injEq] at h
            exact absurd h (hne)
          · have ht := txrx_exhausted crc32hd crc32
              { p with slept := p.slept ++
                [if k.Backoff = 300 * Millisecond then 450 * Millisecond else k.Backoff] }
              { tx with Typ := CallKeepalive, Body := [] } rx (0 * Second) 10 (2 * timeout)
              (by simp only; omega)
            rw [hx] at ht
            simp only [Prod.mk.injEq] at ht
            obtain ⟨rfl, -, -, -⟩ := ht
            refine ⟨by simp, by simp, by simpa using hi, by simp, fun h => ?_⟩
            simp only [Option.some.injEq] at h
            exact absurd h (hne)
    · simp
      exact hi

/-- A frame marshals whenever the header table knows every header. -/
theorem Marshal_ok_of_table (crc32hd : List Byte → Word32 × Bool) (crc32 : List Byte → Word32)
    (hc : ∀ hd, (crc32hd hd).2 = true) (f : frame) :
    ∃ pkt, frame.Marshal crc32hd crc32 f = .ok pkt := by
  rw [frame.Marshal_eq_wire, if_pos (hc _)]
  exact ⟨_, rfl⟩

/-- One transmission that is answered at once by a reply that decodes with the
right tag. -/
theorem txrx_reply (crc32hd : List Byte → Word32 × Bool) (crc32 : List Byte → Word32)
    (p : Pump) (tx rx : frame) (preamble : Duration) (tries : Nat) (timeout : Duration)
    (reply : radio.Call) (rest : List (Except Error radio.Call)) (pkt : List Byte)
    (rx1 : frame) (hi : p.tagidx.val < 11)
    (hm : frame.Marshal crc32hd crc32 { tx with Tag := tagSeq.getD p.tagidx.val 0 } = .ok pkt)
    (hr : p.replies = .ok reply :: rest) (ht : reply.Typ ≠ radio.Rerr)
    (hu : frame.Unmarshal crc32hd crc32 rx reply.Pkt.val = (rx1, .ok))
    (htag : rx1.Tag = tagSeq.getD p.tagidx.val 0 ^^^ 0xff) :
    Pump.txrx crc32hd crc32 p tx rx preamble tries timeout =
      ({ tagidx := p.tagidx + 1, replies := rest,
         calls := p.calls ++
           [{ Typ := radio.Ttxrx, Flag := 0, Err := 0, Timeout := timeout,
              Preamble := preamble, Filterbyte3 := 0, Pkt := radio.Packet.copy pkt }],
         slept := p.slept },
        { tx with Tag := tagSeq.getD p.tagidx.val 0 }, rx1, .ok) := by
  have hl : Pump.txrxLoop
      { Typ := radio.Ttxrx, Flag := 0, Err := 0, Timeout := timeout, Preamble := preamble,
        Filterbyte3 := 0, Pkt := radio.Packet.copy pkt } tries
      { p with tagidx := p.tagidx + 1 } =
      ({ tagidx := p.tagidx + 1, replies := rest,
         calls := p.calls ++
           [{ Typ := radio.Ttxrx, Flag := 0, Err := 0, Timeout := timeout,
              Preamble := preamble, Filterbyte3 := 0, Pkt := radio.Packet.copy pkt }],
         slept := p.slept }, .ok reply) := by
    cases tries <;>
    · unfold Pump.txrxLoop
      rw [radioCall_cons { p with tagidx := p.tagidx + 1 } _ (.ok reply) rest hr]
      simp [ht]
  unfold Pump.txrx
  rw [(nextTag_fresh p hi).1]
  simp only [hm, hl, hu]
  rw [if_neg (by simpa using htag)]

/-- The tags still to draw, from an index inside the table. -/
theorem tagSeq_drop (i : Nat) (h : i < 11) :
    tagSeq.drop i = tagSeq.getD i 0 :: tagSeq.drop (i + 1) := by
  interval_cases i <;> rfl

/-- The keepalive loop against a pump that answers every transmission with a
keepalive: it runs until the tags are used up. -/
theorem keepaliveLoop_forever (crc32hd : List Byte → Word32 × Bool)
    (crc32 : List Byte → Word32) (hc : ∀ hd, (crc32hd hd).2 = true)
    (mk : Byte → radio.Call) (B : Byte → List Byte)
    (hmk : ∀ t rx, (mk t).Typ ≠ radio.Rerr ∧
      frame.Unmarshal crc32hd crc32 rx (mk t).Pkt.val = (⟨CallKeepalive, t ^^^ 0xff, B t⟩, .ok))
    (hB : ∀ t, 2 ≤ (B t).length) (timeout : Duration)
    (rest : List (Except Error radio.Call)) (n : Nat) :
    ∀ (fuel : Nat) (p : Pump) (tx rx : frame), p.tagidx.val + n = 11 → n < fuel →
      rx.Typ = CallKeepalive → 2 ≤ rx.Body.length →
      p.replies = (tagSeq.drop p.tagidx.val).map (fun t => .ok (mk t)) ++ rest →
      ∃ p1 tx1 rx1, Pump.keepaliveLoop crc32hd crc32 timeout fuel p tx rx =
          (p1, tx1, rx1, some (.error "ran out of tags")) ∧
        p1.tagidx.val = 11 ∧ p1.replies = rest ∧ p1.calls.length = p.calls.length + n := by
  induction n with
  | zero =>
    intro fuel p tx rx hn hf hk hb hr
    obtain ⟨fuel, rfl⟩ : ∃ m, fuel = m + 1 := ⟨fuel - 1, by omega⟩
    obtain ⟨b0, b1, r, hbody⟩ : ∃ b0 b1 r, rx.Body = b0 :: b1 :: r := by
      rcases hrb : rx.Body with _ | ⟨b0, _ | ⟨b1, r⟩⟩
      · rw [hrb] at hb; simp at hb
      · rw [hrb] at hb; simp at hb
      · exact ⟨b0, b1, r, rfl⟩
    have hround := (keepaliveLoop_round crc32hd crc32 timeout fuel p tx rx b0 b1 r hk hbody).2
    have hx := txrx_exhausted crc32hd crc32
      { p with slept := p.slept ++
        [if b0.val + b1.val * 256 = 300 then 450 * Millisecond
          else ((b0.val + b1.val * 256 : Nat) : Int) * Millisecond] }
      { tx with Typ := CallKeepalive, Body := [] } rx (0 * Second) 10 (2 * timeout)
      (by simp only; omega)
    refine ⟨_, _, _, hround _ _ _ _ hx (by simp), by simp only; omega, ?_, by simp⟩
    simp only
    have h11 : p.tagidx.val = 11 := by omega
    rw [hr, h11]
    rfl
  | succ n ih =>
    intro fuel p tx rx hn hf hk hb hr
    obtain ⟨fuel, rfl⟩ : ∃ m, fuel = m + 1 := ⟨fuel - 1, by omega⟩
    obtain ⟨b0, b1, r, hbody⟩ : ∃ b0 b1 r, rx.Body = b0 :: b1 :: r := by
      rcases hrb : rx.Body with _ | ⟨b0, _ | ⟨b1, r⟩⟩
      · rw [hrb] at hb; simp at hb
      · rw [hrb] at hb; simp at hb
      · exact ⟨b0, b1, r, rfl⟩
    have hi : p.tagidx.val < 11 := by omega
    have hround := (keepaliveLoop_round crc32hd crc32 timeout fuel p tx rx b0 b1 r hk hbody).1
    obtain ⟨pkt, hm⟩ := Marshal_ok_of_table crc32hd crc32 hc
      { Typ := CallKeepalive, Tag := tagSeq.getD p.tagidx.val 0, Body := [] }
    rw [tagSeq_drop _ hi, List.map_cons, List.cons_append] at hr
    have hx := txrx_reply crc32hd crc32
      { p with slept := p.slept ++
        [if b0.val + b1.val * 256 = 300 then 450 * Millisecond
          else ((b0.val + b1.val * 256 : Nat) : Int) * Millisecond] }
      { tx with Typ := CallKeepalive, Body := [] } rx (0 * Second) 10 (2 * timeout)
      (mk (tagSeq.getD p.tagidx.val 0)) _ pkt _ hi hm hr (hmk _ rx).1 (hmk _ rx).2 rfl
    rw [hround _ _ _ hx]
    have hv := (nextTag_fresh p hi).2
    obtain ⟨p1, tx1, rx1, h1, h2, h3, h4⟩ := ih fuel
      { tagidx := p.tagidx + 1,
        replies := (tagSeq.drop (p.tagidx.val + 1)).map (fun t => .ok (mk t)) ++ rest,
        calls := p.calls ++
          [{ Typ := radio.Ttxrx, Flag := 0, Err := 0, Timeout := 2 * timeout,
             Preamble := 0 * Second, Filterbyte3 := 0, Pkt := radio.Packet.copy pkt }],
        slept := p.slept ++
          [if b0.val + b1.val * 256 = 300 then 450 * Millisecond
            else ((b0.val + b1.val * 256 : Nat) : Int) * Millisecond] }
      { Typ := CallKeepalive, Tag := tagSeq.getD p.tagidx.val 0, Body := [] }
      ⟨CallKeepalive, tagSeq.getD p.tagidx.val 0 ^^^ 0xff, B (tagSeq.getD p.tagidx.val 0)⟩
      (by simp only; omega) (by omega) rfl (hB _) (by simp only; rw [hv])
    refine ⟨p1, tx1, rx1, h1, h2, h3, ?_⟩
    rw [h4]
    simp
    omega

/-- What `tx` does to the tag index and to the record of sleeps. -/
theorem tx_tagidx (crc32hd : List Byte → Word32 × Bool) (crc32 : List Byte → Word32)
    (p : Pump) (f : frame) :
    (p.tagidx.val < 11 → (Pump.tx crc32hd crc32 p f).1.tagidx.val = p.tagidx.val + 1) ∧
    (11 ≤ p.tagidx.val →
      Pump.tx crc32hd crc32 p f = (p, { f with Tag := 0 }, .error "ran out of tags")) ∧
    (Pump.tx crc32hd crc32 p f).1.slept = p.slept := by
  refine ⟨fun h => ?_, fun h => ?_, ?_⟩
  · unfold Pump.tx
    rw [(nextTag_fresh p h).1]
    simp only
    have h1 := (nextTag_fresh p h).2
    split
    · exact h1
    · rename_i pkt hm
      have hr := radioCall_tagidx { p with tagidx := p.tagidx + 1 }
        { Typ := radio.Ttx, Flag := 0, Err := 0, Timeout := 0, Preamble := 0,
          Filterbyte3 := 0, Pkt := radio.Packet.copy pkt }
      split
      · rename_i p1 e heq
        rw [heq] at hr
        simp only at hr ⊢
        rw [hr]; exact h1
      · rename_i p1 reply heq
        rw [heq] at hr
        simp only at hr
        split <;> (simp only; rw [hr]; exact h1)
  · unfold Pump.tx
    rw [nextTag_exhausted p h]
  · unfold Pump.tx
    have h := nextTag_slept p
    split
    · rename_i heq; rw [heq] at h; exact h
    · rename_i p0 tag heq
      rw [heq] at h
      simp only at h ⊢
      split
      · exact h
      · rename_i pkt hm
        have hr := radioCall_slept p0
          { Typ := radio.Ttx, Flag := 0, Err := 0, Timeout := 0, Preamble := 0,
            Filterbyte3 := 0, Pkt := radio.Packet.copy pkt }
        split
        · rename_i p1 e heq2
          rw [heq2] at hr
          exact hr.trans h
        · rename_i p1 reply heq2
          rw [heq2] at hr
          split <;> exact hr.trans h

/-- The pump a `Call` leaves behind and how it ends, by cases on the first
transmission and on the keepalive loop. -/
theorem Call_cases {ρ : Type} (crc32hd : List Byte → Word32 × Bool)
    (crc32 : List Byte → Word32) (p : Pump) (typ : Byte) (arg : Option (List Byte))
    (reply : Option ρ) (unmarshal : ρ → List Byte → ρ × Outcome) (ht : typ ≠ CallAdjourn) :
    (∃ p1 tx1 rx1 out,
      Pump.txrx crc32hd crc32 p { Typ := typ, Tag := 0, Body := arg.getD [] }
        { Typ := 0, Tag := 0, Body := [] }
        (if typ = CallWakeup then 2 * Second else 0)
        (if typ = CallWakeup then 10 else 15)
        (if typ = CallWakeup then 200 * Millisecond else 300 * Millisecond)
        = (p1, tx1, rx1, out) ∧ out ≠ .ok ∧
      Pump.Call crc32hd crc32 p typ arg reply unmarshal = (p1, reply, some out)) ∨
    (∃ p1 tx1 rx1 p2 tx2 rx2 out2,
      Pump.txrx crc32hd crc32 p { Typ := typ, Tag := 0, Body := arg.getD [] }
        { Typ := 0, Tag := 0, Body := [] }
        (if typ = CallWakeup then 2 * Second else 0)
        (if typ = CallWakeup then 10 else 15)
        (if typ = CallWakeup then 200 * Millisecond else 300 * Millisecond)
        = (p1, tx1, rx1, .ok) ∧
      Pump.keepaliveLoop crc32hd crc32
        (if typ = CallWakeup then 200 * Millisecond else 300 * Millisecond)
        (tagSeq.length + 1) p1 tx1 rx1 = (p2, tx2, rx2, out2) ∧
      (Pump.Call crc32hd crc32 p typ arg reply unmarshal).1 = p2 ∧
      ((out2 = some .ok ∧ (Pump.Call crc32hd crc32 p typ arg reply unmarshal).2.2 ≠ none) ∨
        (out2 ≠ some .ok ∧
          (Pump.Call crc32hd crc32 p typ arg reply unmarshal).2.2 = out2))) := by
  obtain ⟨p1, tx1, rx1, out, hx⟩ :
      ∃ p1 tx1 rx1 out, Pump.txrx crc32hd crc32 p { Typ := typ, Tag := 0, Body := arg.getD [] }
        { Typ := 0, Tag := 0, Body := [] }
        (if typ = CallWakeup then 2 * Second else 0)
        (if typ = CallWakeup then 10 else 15)
        (if typ = CallWakeup then 200 * Millisecond else 300 * Millisecond)
        = (p1, tx1, rx1, out) := ⟨_, _, _, _, rfl⟩
  by_cases hout : out = .ok
  · subst hout
    right
    obtain ⟨p2, tx2, rx2, out2, hl⟩ :
        ∃ p2 tx2 rx2 out2, Pump.keepaliveLoop crc32hd crc32
          (if typ = CallWakeup then 200 * Millisecond else 300 * Millisecond)
          (tagSeq.length + 1) p1 tx1 rx1 = (p2, tx2, rx2, out2) := ⟨_, _, _, _, rfl⟩
    have hp := Call_pump_eq crc32hd crc32 p typ arg reply unmarshal p1 tx1 rx1 ht hx
    rw [hl] at hp
    refine ⟨p1, tx1, rx1, p2, tx2, rx2, out2, hx, hl, hp, ?_⟩
    by_cases hout2 : out2 = some .ok
    · subst hout2
      left
      refine ⟨rfl, ?_⟩
      rw [Call_exchange_ok crc32hd crc32 p typ arg reply unmarshal _ _ _ _ _ _ ht hx hl]
      split
      · simp
      · cases reply <;> simp
    · right
      refine ⟨hout2, ?_⟩
      rw [Call_loop_error crc32hd crc32 p typ arg reply unmarshal _ _ _ _ _ _ _ ht hx hl hout2]
  · left
    exact ⟨p1, tx1, rx1, out, hx, hout,
      Call_txrx_error crc32hd crc32 p typ arg reply unmarshal _ _ _ _ ht hx hout⟩

/-- Every `Call` ends, within the tag table. -/
theorem Call_bounded {ρ : Type} (crc32hd : List Byte → Word32 × Bool)
    (crc32 : List Byte → Word32) (p : Pump) (typ : Byte) (arg : Option (List Byte))
    (reply : Option ρ) (unmarshal : ρ → List Byte → ρ × Outcome) (hi : p.tagidx.val ≤ 11) :
    (Pump.Call crc32hd crc32 p typ arg reply unmarshal).2.2 ≠ none ∧
    p.tagidx.val ≤ (Pump.Call crc32hd crc32 p typ arg reply unmarshal).1.tagidx.val ∧
    (Pump.Call crc32hd crc32 p typ arg reply unmarshal).1.tagidx.val ≤ 11 ∧
    (Pump.Call crc32hd crc32 p typ arg reply unmarshal).1.tagidx.val + p.slept.length ≤
      p.tagidx.val + 1 +
        (Pump.Call crc32hd crc32 p typ arg reply unmarshal).1.slept.length ∧
    p.slept.length ≤ (Pump.Call crc32hd crc32 p typ arg reply unmarshal).1.slept.length ∧
    ((Pump.Call crc32hd crc32 p typ arg reply unmarshal).2.2 = some .ok →
      (Pump.Call crc32hd crc32 p typ arg reply unmarshal).1.tagidx.val + p.slept.length =
        p.tagidx.val + 1 +
          (Pump.Call crc32hd crc32 p typ arg reply unmarshal).1.slept.length) := by
  by_cases ht : typ = CallAdjourn
  · have hcall : Pump.Call crc32hd crc32 p typ arg reply unmarshal =
        ((Pump.tx crc32hd crc32 p { Typ := typ, Tag := 0, Body := arg.getD [] }).1, reply,
          some (Pump.tx crc32hd crc32 p { Typ := typ, Tag := 0, Body := arg.getD [] }).2.2) := by
      unfold Pump.Call
      simp only [if_pos ht]
    have htx := tx_tagidx crc32hd crc32 p { Typ := typ, Tag := 0, Body := arg.getD [] }
    rw [hcall]
    simp only
    by_cases h11 : p.tagidx.val < 11
    · have h1 := htx.1 h11
      have h3 := htx.2.2
      refine ⟨by simp, by omega, by omega, by rw [h3]; omega, by rw [h3], fun _ => ?_⟩
      rw [h3]; omega
    · have h2 := htx.2.1 (by omega)
      rw [h2]
      refine ⟨by simp, by simp, by simpa using hi, by simp, by simp, fun h => ?_⟩
      simp at h
  · rcases Call_cases crc32hd crc32 p typ arg reply unmarshal ht with
      ⟨p1, tx1, rx1, out, hx, hout, hcall⟩ | ⟨p1, tx1, rx1, p2, tx2, rx2, out2, hx, hl, hp, hc⟩
    · have hs := txrx_slept crc32hd crc32 p { Typ := typ, Tag := 0, Body := arg.getD [] }
        { Typ := 0, Tag := 0, Body := [] }
        (if typ = CallWakeup then 2 * Second else 0)
        (if typ = CallWakeup then 10 else 15)
        (if typ = CallWakeup then 200 * Millisecond else 300 * Millisecond)
      rw [hx] at hs
      simp only at hs
      rw [hcall]
      simp only
      by_cases h11 : p.tagidx.val < 11
      · have h1 := txrx_tagidx crc32hd crc32 p { Typ := typ, Tag := 0, Body := arg.getD [] }
          { Typ := 0, Tag := 0, Body := [] }
          (if typ = CallWakeup then 2 * Second else 0)
          (if typ = CallWakeup then 10 else 15)
          (if typ = CallWakeup then 200 * Millisecond else 300 * Millisecond) h11
        rw [hx] at h1
        simp only at h1
        refine ⟨by simp, by omega, by omega, by rw [hs]; omega, by rw [hs], fun h => ?_⟩
        simp only [Option.some.injEq] at h
        exact absurd h hout
      · have h2 := txrx_exhausted crc32hd crc32 p { Typ := typ, Tag := 0, Body := arg.getD [] }
          { Typ := 0, Tag := 0, Body := [] }
          (if typ = CallWakeup then 2 * Second else 0)
          (if typ = CallWakeup then 10 else 15)
          (if typ = CallWakeup then 200 * Millisecond else 300 * Millisecond) (by omega)
        rw [hx] at h2
        simp only [Prod.mk.injEq] at h2
        obtain ⟨rfl, -, -, -⟩ := h2
        refine ⟨by simp, le_refl _, hi, by omega, le_refl _, fun h => ?_⟩
        simp only [Option.some.injEq] at h
        exact absurd h hout
    · have hs := txrx_slept crc32hd crc32 p { Typ := typ, Tag := 0, Body := arg.getD [] }
        { Typ := 0, Tag := 0, Body := [] }
        (if typ = CallWakeup then 2 * Second else 0)
        (if typ = CallWakeup then 10 else 15)
        (if typ = CallWakeup then 200 * Millisecond else 300 * Millisecond)
      rw [hx] at hs
      simp only at hs
      have ht1 := txrx_ok_tagidx crc32hd crc32 _ _ _ _ _ _ _ _ _ hx
      have hb := keepaliveLoop_bounded crc32hd crc32
        (if typ = CallWakeup then 200 * Millisecond else 300 * Millisecond)
        (tagSeq.length + 1) p1 tx1 rx1 (by omega)
        (by have : tagSeq.length = 11 := rfl
            omega)
      rw [hl] at hb
      simp only at hb
      rw [hp]
      rw [hs] at hb
      rcases hc with ⟨h1, h2⟩ | ⟨h1, h2⟩
      · refine ⟨h2, by omega, hb.2.2.1, by omega, ?_, fun _ => ?_⟩
        · have := hb.2.2.2.1
          omega
        · have := hb.2.2.2.2 h1
          omega
      · refine ⟨by rw [h2]; exact hb.1, by omega, hb.2.2.1, by omega, ?_, fun h => ?_⟩
        · have := hb.2.2.2.1
          omega
        · rw [h2] at h
          exact absurd h h1

/-- A `Call` against a pump that answers every transmission with a keepalive
fails when the tags are used up. -/
theorem Call_forever {ρ : Type} (crc32hd : List Byte → Word32 × Bool)
    (crc32 : List Byte → Word32) (hc : ∀ hd, (crc32hd hd).2 = true)
    (mk : Byte → radio.Call) (B : Byte → List Byte)
    (hmk : ∀ t rx, (mk t).Typ ≠ radio.Rerr ∧
      frame.Unmarshal crc32hd crc32 rx (mk t).Pkt.val = (⟨CallKeepalive, t ^^^ 0xff, B t⟩, .ok))
    (hB : ∀ t, 2 ≤ (B t).length)
    (p : Pump) (typ : Byte) (arg : Option (List Byte))
    (reply : Option ρ) (unmarshal : ρ → List Byte → ρ × Outcome)
    (rest : List (Except Error radio.Call)) (ht : typ ≠ CallAdjourn)
    (hi : p.tagidx.val ≤ 11)
    (hr : p.replies = (tagSeq.drop p.tagidx.val).map (fun t => .ok (mk t)) ++ rest) :
    ∃ p1, Pump.Call crc32hd crc32 p typ arg reply unmarshal =
        (p1, reply, some (.error "ran out of tags")) ∧
      p1.tagidx.val = 11 ∧ p1.replies = rest ∧
      p1.calls.length = p.calls.length + (11 - p.tagidx.val) := by
  by_cases h11 : p.tagidx.val < 11
  · obtain ⟨pkt, hm⟩ := Marshal_ok_of_table crc32hd crc32 hc
      { Typ := typ, Tag := tagSeq.getD p.tagidx.val 0, Body := arg.getD [] }
    rw [tagSeq_drop _ h11, List.map_cons, List.cons_append] at hr
    have hx := txrx_reply crc32hd crc32 p { Typ := typ, Tag := 0, Body := arg.getD [] }
      { Typ := 0, Tag := 0, Body := [] }
      (if typ = CallWakeup then 2 * Second else 0)
      (if typ = CallWakeup then 10 else 15)
      (if typ = CallWakeup then 200 * Millisecond else 300 * Millisecond)
      (mk (tagSeq.getD p.tagidx.val 0)) _ pkt _ h11 hm hr
      (hmk _ { Typ := 0, Tag := 0, Body := [] }).1 (hmk _ { Typ := 0, Tag := 0, Body := [] }).2 rfl
    have hv := (nextTag_fresh p h11).2
    obtain ⟨p1, tx1, rx1, h1, h2, h3, h4⟩ := keepaliveLoop_forever crc32hd crc32 hc mk B hmk hB
      (if typ = CallWakeup then 200 * Millisecond else 300 * Millisecond) rest
      (11 - (p.tagidx.val + 1)) (tagSeq.length + 1)
      { tagidx := p.tagidx + 1,
        replies := (tagSeq.drop (p.tagidx.val + 1)).map (fun t => .ok (mk t)) ++ rest,
        calls := p.calls ++
          [{ Typ := radio.Ttxrx, Flag := 0, Err := 0,
             Timeout := if typ = CallWakeup then 200 * Millisecond else 300 * Millisecond,
             Preamble := if typ = CallWakeup then 2 * Second else 0, Filterbyte3 := 0,
             Pkt := radio.Packet.copy pkt }],
        slept := p.slept }
      { Typ := typ, Tag := tagSeq.getD p.tagidx.val 0, Body := arg.getD [] }
      ⟨CallKeepalive, tagSeq.getD p.tagidx.val 0 ^^^ 0xff, B (tagSeq.getD p.tagidx.val 0)⟩
      (by simp only; omega)
      (by have : tagSeq.length = 11 := rfl
          omega)
      rfl (hB _) (by simp only; rw [hv])
    refine ⟨p1, ?_, h2, h3, ?_⟩
    · exact Call_loop_error crc32hd crc32 p typ arg reply unmarshal _ _ _ _ _ _ _ ht hx h1
        (by simp)
    · rw [h4]
      simp
      omega
  · have h := txrx_exhausted crc32hd crc32 p { Typ := typ, Tag := 0, Body := arg.getD [] }
      { Typ := 0, Tag := 0, Body := [] }
      (if typ = CallWakeup then 2 * Second else 0)
      (if typ = CallWakeup then 10 else 15)
      (if typ = CallWakeup then 200 * Millisecond else 300 * Millisecond) (by omega)
    refine ⟨p, Call_txrx_error crc32hd crc32 p typ arg reply unmarshal _ _ _ _ ht h (by simp),
      by omega, ?_, by omega⟩
    have e : p.tagidx.val = 11 := by omega
    rw [hr, e]
    rfl

/-- The keepalive reply is not an `Rerr` and decodes, into any frame, as a
keepalive with the complement of the tag and a two-byte body. -/
theorem keepaliveReply_decodes (t : Byte) (rx : frame) :
    (keepaliveReply t).Typ ≠ radio.Rerr ∧
    frame.Unmarshal (fun _ => (0, true)) (fun _ => 0) rx (keepaliveReply t).Pkt.val =
      (⟨CallKeepalive, t ^^^ 0xff, [0x2c, 0x01]⟩, .ok) := by
  constructor
  · show radio.Rtxrx ≠ radio.Rerr
    decide
  · have hv : (keepaliveReply t).Pkt.val =
        0x03 :: 0 :: (t ^^^ 0xff) :: 2 :: 0 :: 0 :: 0 :: 0 ::
          ([0x2c, 0x01, 0, 0, 0, 0] ++ List.replicate 64 0) := rfl
    rw [hv, frame.Unmarshal_cons]
    simp [gbit32be_cons, CallKeepalive]

/-- C29: `Call` is bounded by the tag table. From a tag index `i ≤ 11`, for
every call type, argument, reply object and every sequence of radio replies:
`Call` ends (the rounds allowed to the keepalive loop always suffice), the
index never decreases and stays at most 11, so at most `11 - i` tags are drawn;
the index advances by at most one more than the number of sleeps (one sleep per
keepalive reply handled), and by exactly that, `k + 1`, when `Call` returns
`nil`. Against a pump that answers every transmission with a keepalive frame
carrying the right tag (header table complete, so that every frame marshals), a
`Call` other than `Adjourn` fails with the tag-exhaustion error after exactly
`11 - i` radio calls and leaves the index at 11. -/
theorem Pump.Call_tag_bound (crc32hd : List Byte → Word32 × Bool)
    (crc32 : List Byte → Word32) (p : Pump) (hi : p.tagidx.val ≤ 11) :
    (∀ (ρ : Type) (typ : Byte) (arg : Option (List Byte)) (reply : Option ρ)
        (unmarshal : ρ → List Byte → ρ × Outcome),
      (Pump.Call crc32hd crc32 p typ arg reply unmarshal).2.2 ≠ none ∧
      p.tagidx.val ≤ (Pump.Call crc32hd crc32 p typ arg reply unmarshal).1.tagidx.val ∧
      (Pump.Call crc32hd crc32 p typ arg reply unmarshal).1.tagidx.val ≤ 11 ∧
      (Pump.Call crc32hd crc32 p typ arg reply unmarshal).1.tagidx.val + p.slept.length ≤
        p.tagidx.val + 1 +
          (Pump.Call crc32hd crc32 p typ arg reply unmarshal).1.slept.length ∧
      p.slept.length ≤ (Pump.Call crc32hd crc32 p typ arg reply unmarshal).1.slept.length ∧
      ((Pump.Call crc32hd crc32 p typ arg reply unmarshal).2.2 = some .ok →
        (Pump.Call crc32hd crc32 p typ arg reply unmarshal).1.tagidx.val + p.slept.length =
          p.tagidx.val + 1 +
            (Pump.Call crc32hd crc32 p typ arg reply unmarshal).1.slept.length)) ∧
    (∀ (ρ : Type) (mk : Byte → radio.Call) (B : Byte → List Byte) (typ : Byte)
        (arg : Option (List Byte)) (reply : Option ρ)
        (unmarshal : ρ → List Byte → ρ × Outcome) (rest : List (Except Error radio.Call)),
      (∀ hd, (crc32hd hd).2 = true) →
      (∀ t rx, (mk t).Typ ≠ radio.Rerr ∧
        frame.Unmarshal crc32hd crc32 rx (mk t).Pkt.val =
          (⟨CallKeepalive, t ^^^ 0xff, B t⟩, .ok)) →
      (∀ t, 2 ≤ (B t).length) →
      typ ≠ CallAdjourn →
      p.replies = (tagSeq.drop p.tagidx.val).map (fun t => .ok (mk t)) ++ rest →
      ∃ p1, Pump.Call crc32hd crc32 p typ arg reply unmarshal =
          (p1, reply, some (.error "ran out of tags")) ∧
        p1.tagidx.val = 11 ∧ p1.replies = rest ∧
        p1.calls.length = p.calls.length + (11 - p.tagidx.val)) :=
  ⟨fun _ typ arg reply unmarshal => Call_bounded crc32hd crc32 p typ arg reply unmarshal hi,
    fun _ mk B typ arg reply unmarshal rest hc hmk hB ht hr =>
      Call_forever crc32hd crc32 hc mk B hmk hB p typ arg reply unmarshal rest ht hi hr⟩

/-- C29 on a run: a status call at tag index 1 (where a `Resume` answered at
once leaves it), with checksum functions that accept everything, against a
pump that answers every transmission with a keepalive. `Call` fails with the
tag-exhaustion error after 10 radio calls. -/
theorem Pump.Call_tag_bound_witness :
    ∃ p1,
      Pump.Call (fun _ => (0, true)) (fun _ => 0)
          { tagidx := 1,
            replies := (tagSeq.drop 1).map (fun t => .ok (keepaliveReply t)) ++ [],
            calls := [], slept := [] }
          CallStatus none (none : Option PUnit) (fun r _ => (r, .ok)) =
        (p1, none, some (.error "ran out of tags")) ∧
      p1.tagidx.val = 11 ∧ p1.replies = [] ∧ p1.calls.length = 0 + (11 - 1) :=
  (Pump.Call_tag_bound (fun _ => (0, true)) (fun _ => 0)
    { tagidx := 1,
      replies := (tagSeq.drop 1).map (fun t => .ok (keepaliveReply t)) ++ [],
      calls := [], slept := [] } (by decide)).2 PUnit keepaliveReply (fun _ => [0x2c, 0x01])
    CallStatus none none (fun r _ => (r, .ok)) [] (fun _ => rfl) keepaliveReply_decodes
    (fun _ => Nat.le_refl 2) (by decide) rfl

end pump

namespace pump

/-! ## Frames of size zero -/

/-- The frame decoder on a frame of size zero: only `Type` and `Tag` are
assigned. -/
theorem Unmarshal_size_zero (crc32hd : List Byte → Word32 × Bool) (crc32 : List Byte → Word32)
    (f : frame) (b : List Byte) (h8 : 8 ≤ b.length) (h3 : (b.getD 3 0).val = 0) :
    (¬ ((crc32hd (b.take 4)).2 = true ∧
        (crc32hd (b.take 4)).1.val ≠ (b.getD 4 0).val + (b.getD 5 0).val * 256 +
          (b.getD 6 0).val * 65536 + (b.getD 7 0).val * 16777216) →
      frame.Unmarshal crc32hd crc32 f b =
        ({ f with Typ := b.getD 0 0, Tag := b.getD 2 0 }, .ok)) ∧
    (∀ f1, frame.Unmarshal crc32hd crc32 f b = (f1, .ok) →
      f1 = { f with Typ := b.getD 0 0, Tag := b.getD 2 0 } ∧ f1.Body = f.Body) := by
  obtain ⟨b0, b1, b2, b3, r1, rfl, h4⟩ := exists_four_cons 4 b (by omega)
  obtain ⟨b4, b5, b6, b7, rest, rfl, -⟩ := exists_four_cons 0 r1 (by omega)
  simp only [List.getD_cons_zero, List.getD_cons_succ] at h3 ⊢
  rw [frame.Unmarshal_cons]
  simp only [List.take_succ_cons, List.take_zero]
  constructor
  · intro h
    rw [if_neg h, if_pos h3]
  · intro f1 h
    split at h
    · simp at h
    · simp only [Prod.mk.injEq, and_true] at h
      subst h
      exact ⟨rfl, rfl⟩

/-- The keepalive loop is left at once on a reply that is not a keepalive. -/
theorem keepaliveLoop_exit (crc32hd : List Byte → Word32 × Bool) (crc32 : List Byte → Word32)
    (timeout : Duration) (fuel : Nat) (p : Pump) (tx rx : frame)
    (h : rx.Typ ≠ CallKeepalive) :
    Pump.keepaliveLoop crc32hd crc32 timeout fuel p tx rx = (p, tx, rx, some .ok) := by
  cases fuel <;>
  · unfold Pump.keepaliveLoop
    rw [if_neg h]

/-- A `Call` whose first reply is a keepalive and whose second reply is a frame
of the expected type that leaves the body of the reply frame alone: the reply
object is handed the body of the keepalive. -/
theorem Call_stale_body {ρ : Type} (crc32hd : List Byte → Word32 × Bool)
    (crc32 : List Byte → Word32) (p : Pump) (typ : Byte) (arg : Option (List Byte))
    (r : ρ) (unmarshal : ρ → List Byte → ρ × Outcome)
    (p1 : Pump) (tx1 rx1 : frame) (b0 b1 : Byte) (rest : List Byte)
    (p2 : Pump) (tx2 : frame) (t : Byte)
    (ht : typ ≠ CallAdjourn) (htk : typ ≠ CallKeepalive)
    (hx : Pump.txrx crc32hd crc32 p { Typ := typ, Tag := 0, Body := arg.getD [] }
        { Typ := 0, Tag := 0, Body := [] }
        (if typ = CallWakeup then 2 * Second else 0)
        (if typ = CallWakeup then 10 else 15)
        (if typ = CallWakeup then 200 * Millisecond else 300 * Millisecond)
        = (p1, tx1, rx1, .ok))
    (hk : rx1.Typ = CallKeepalive) (hb : rx1.Body = b0 :: b1 :: rest)
    (hx2 : Pump.txrx crc32hd crc32
        { p1 with slept := p1.slept ++
          [if b0.val + b1.val * 256 = 300 then 450 * Millisecond
            else ((b0.val + b1.val * 256 : Nat) : Int) * Millisecond] }
        { tx1 with Typ := CallKeepalive, Body := [] } rx1 (0 * Second) 10
        (2 * (if typ = CallWakeup then 200 * Millisecond else 300 * Millisecond))
        = (p2, tx2, { rx1 with Typ := typ, Tag := t }, .ok)) :
    Pump.Call crc32hd crc32 p typ arg (some r) unmarshal =
      (p2, some (unmarshal r (b0 :: b1 :: rest)).1, some (unmarshal r (b0 :: b1 :: rest)).2) := by
  have hl : Pump.keepaliveLoop crc32hd crc32
      (if typ = CallWakeup then 200 * Millisecond else 300 * Millisecond)
      (tagSeq.length + 1) p1 tx1 rx1 =
      (p2, tx2, { rx1 with Typ := typ, Tag := t }, some .ok) := by
    rw [(keepaliveLoop_round crc32hd crc32 _ tagSeq.length p1 tx1 rx1 b0 b1 rest hk hb).1
      _ _ _ hx2]
    exact keepaliveLoop_exit crc32hd crc32 _ _ _ _ _ htk
  rw [Call_exchange_ok crc32hd crc32 p typ arg (some r) unmarshal _ _ _ _ _ _ ht hx hl]
  simp only [ne_eq, not_true_eq_false, if_false, hb]

/-- C28: a frame of size zero does not clear the body. For every frame value `f`
and every input of at least 8 bytes whose size byte `b[3]` is 0: when the header
checksum is accepted, `frame.Unmarshal` returns `nil` with only `Type` and `Tag`
assigned, and whenever it returns `nil` the body of `f` is the one it had before
the call. In `Call`, the reply frame is reused by the resend after a keepalive:
when the reply to the resend has the expected type and leaves the body alone (a
frame of size zero), `reply.Unmarshal` is handed the body of the keepalive. -/
theorem frame.Unmarshal_keeps_body (crc32hd : List Byte → Word32 × Bool)
    (crc32 : List Byte → Word32) (f : frame) (b : List Byte) (h8 : 8 ≤ b.length)
    (h3 : (b.getD 3 0).val = 0) :
    (¬ ((crc32hd (b.take 4)).2 = true ∧
        (crc32hd (b.take 4)).1.val ≠ (b.getD 4 0).val + (b.getD 5 0).val * 256 +
          (b.getD 6 0).val * 65536 + (b.getD 7 0).val * 16777216) →
      frame.Unmarshal crc32hd crc32 f b =
        ({ f with Typ := b.getD 0 0, Tag := b.getD 2 0 }, .ok)) ∧
    (∀ f1, frame.Unmarshal crc32hd crc32 f b = (f1, .ok) →
      f1 = { f with Typ := b.getD 0 0, Tag := b.getD 2 0 } ∧ f1.Body = f.Body) ∧
    (∀ (ρ : Type) (p : Pump) (typ : Byte) (arg : Option (List Byte)) (r : ρ)
        (unmarshal : ρ → List Byte → ρ × Outcome) (p1 : Pump) (tx1 rx1 : frame)
        (b0 b1 : Byte) (rest : List Byte) (p2 : Pump) (tx2 : frame) (t : Byte),
      typ ≠ CallAdjourn → typ ≠ CallKeepalive →
      Pump.txrx crc32hd crc32 p { Typ := typ, Tag := 0, Body := arg.getD [] }
        { Typ := 0, Tag := 0, Body := [] }
        (if typ = CallWakeup then 2 * Second else 0)
        (if typ = CallWakeup then 10 else 15)
        (if typ = CallWakeup then 200 * Millisecond else 300 * Millisecond)
        = (p1, tx1, rx1, .ok) →
      rx1.Typ = CallKeepalive → rx1.Body = b0 :: b1 :: rest →
      Pump.txrx crc32hd crc32
        { p1 with slept := p1.slept ++
          [if b0.val + b1.val * 256 = 300 then 450 * Millisecond
            else ((b0.val + b1.val * 256 : Nat) : Int) * Millisecond] }
        { tx1 with Typ := CallKeepalive, Body := [] } rx1 (0 * Second) 10
        (2 * (if typ = CallWakeup then 200 * Millisecond else 300 * Millisecond))
        = (p2, tx2, { rx1 with Typ := typ, Tag := t }, .ok) →
      Pump.Call crc32hd crc32 p typ arg (some r) unmarshal =
        (p2, some (unmarshal r (b0 :: b1 :: rest)).1,
          some (unmarshal r (b0 :: b1 :: rest)).2)) :=
  ⟨(Unmarshal_size_zero crc32hd crc32 f b h8 h3).1,
    (Unmarshal_size_zero crc32hd crc32 f b h8 h3).2,
    fun _ p typ arg r unmarshal p1 tx1 rx1 b0 b1 rest p2 tx2 t ht htk hx hk hb hx2 =>
      Call_stale_body crc32hd crc32 p typ arg r unmarshal p1 tx1 rx1 b0 b1 rest p2 tx2 t
        ht htk hx hk hb hx2⟩

/-- C28 on a run, with checksum functions that accept everything. A status frame
of size zero decoded into a frame that holds the keepalive body `2c 01` keeps
that body. A status call whose reply object is an `Empty` is answered by a
keepalive and then by a status frame of size zero: `Empty.Unmarshal` is handed
`2c 01` and rejects it, although the last reply has no body. -/
theorem frame.Unmarshal_keeps_body_witness :
    frame.Unmarshal (fun _ => (0, true)) (fun _ => 0)
        { Typ := CallKeepalive, Tag := 0xff, Body := [0x2c, 0x01] }
        [0x50, 0, 0xf1, 0, 0, 0, 0, 0] =
      ({ Typ := 0x50, Tag := 0xf1, Body := [0x2c, 0x01] }, .ok) ∧
    Pump.Call (fun _ => (0, true)) (fun _ => 0)
        { tagidx := 0,
          replies :=
            [.ok
              { Typ := radio.Rtxrx, Flag := 0, Err := 0, Timeout := 0,
                Preamble := 0, Filterbyte3 := 0,
                Pkt := radio.Packet.copy [0x03, 0, 0xff, 2, 0, 0, 0, 0, 0x2c, 0x01] },
             .ok
              { Typ := radio.Rtxrx, Flag := 0, Err := 0, Timeout := 0,
                Preamble := 0, Filterbyte3 := 0,
                Pkt := radio.Packet.copy [0x50, 0, 0xf1, 0, 0, 0, 0, 0] }],
          calls := [], slept := [] }
        CallStatus none (some PUnit.unit)
        (fun r b => (r, Outcome.ofError (Empty.Unmarshal b))) =
      ({ tagidx := 2, replies := [],
         calls :=
           [{ Typ := radio.Ttxrx, Flag := 0, Err := 0, Timeout := 300 * Millisecond,
              Preamble := 0, Filterbyte3 := 0,
              Pkt := radio.Packet.copy [0x50, 0, 0x00, 0, 0, 0, 0, 0] },
            { Typ := radio.Ttxrx, Flag := 0, Err := 0, Timeout := 600 * Millisecond,
              Preamble := 0, Filterbyte3 := 0,
              Pkt := radio.Packet.copy [0x03, 0, 0x0e, 0, 0, 0, 0, 0] }],
         slept := [450 * Millisecond] },
        some PUnit.unit, some (.error "expected empty message")) ∧
    Empty.Unmarshal [] = none :=
  ⟨(frame.Unmarshal_keeps_body (fun _ => (0, true)) (fun _ => 0)
      { Typ := CallKeepalive, Tag := 0xff, Body := [0x2c, 0x01] }
      [0x50, 0, 0xf1, 0, 0, 0, 0, 0] (by decide) (by decide)).1 (by decide),
    (frame.Unmarshal_keeps_body (fun _ => (0, true)) (fun _ => 0)
      { Typ := CallKeepalive, Tag := 0xff, Body := [0x2c, 0x01] }
      [0x50, 0, 0xf1, 0, 0, 0, 0, 0] (by decide) (by decide)).2.2
      PUnit _ CallStatus none PUnit.unit _ _
      { Typ := CallStatus, Tag := 0, Body := [] }
      { Typ := CallKeepalive, Tag := 0xff, Body := [0x2c, 0x01] } 0x2c 0x01 []
      _ { Typ := CallKeepalive, Tag := 0x0e, Body := [] } 0xf1
      (by decide) (by decide) rfl rfl rfl rfl,
    rfl⟩

end pump

namespace pump

/-! ## Sessions and their `Adjourn` -/

/-- What `Adjourn` transmits: with a tag left and a frame that marshals, one `Ttx`
radio call carrying the frame of type 0x05; with the tags used up, nothing. -/
theorem Adjourn_calls (crc32hd : List Byte → Word32 × Bool) (crc32 : List Byte → Word32)
    (p : Pump) :
    (∀ pkt, p.tagidx.val < 11 →
      frame.Marshal crc32hd crc32
        { Typ := CallAdjourn, Tag := tagSeq.getD p.tagidx.val 0, Body := [] } = .ok pkt →
      (Pump.Adjourn crc32hd crc32 p).1.calls = p.calls ++
        [{ Typ := radio.Ttx, Flag := 0, Err := 0, Timeout := 0, Preamble := 0,
           Filterbyte3 := 0, Pkt := radio.Packet.copy pkt }]) ∧
    (11 ≤ p.tagidx.val →
      Pump.Adjourn crc32hd crc32 p = (p, some (.error "ran out of tags"))) := by
  constructor
  · intro pkt hi hm
    unfold Pump.Adjourn Pump.Call
    simp only [if_true]
    unfold Pump.tx
    rw [(nextTag_fresh p hi).1]
    simp only [Option.getD_none, hm]
    unfold Pump.radioCall
    simp only
    rcases hr : p.replies with _ | ⟨r, rest⟩
    · simp
    · rcases r with e | reply
      · simp
      · simp only
        split <;> simp
  · intro hi
    unfold Pump.Adjourn Pump.Call
    simp only [if_true]
    unfold Pump.tx
    rw [nextTag_exhausted p hi]

/-- C26 (the code at the failing input): `Stat` has no deferred `Adjourn`. On a
fresh session, with checksum functions that accept everything, the radio
answers the wakeup and then rejects the status call with `Rerr`/`ErrBadcall`:
`Stat` returns the error after two radio calls, the last one the status call,
and no `Adjourn` frame is sent; in general, when the status call after a
successful `Resume` does not return `nil`, `Stat` returns at once with the pump
as that call left it. On the same radio `CancelCombo` sends its `Adjourn` (a
`Ttx` call with a frame of type 0x05) after the failed call; `CancelCombo`,
`ClearWarn` and the session of `Bolus` run their deferred `Adjourn` on every
path that follows a successful `Resume`. -/
theorem Pump.Stat_error_skips_Adjourn :
    Pump.Stat (fun _ => (0, true)) (fun _ => 0)
        { tagidx := 0,
          replies :=
            [.ok
              { Typ := radio.Rtxrx, Flag := 0, Err := 0, Timeout := 0,
                Preamble := 0, Filterbyte3 := 0,
                Pkt := radio.Packet.copy [0x00, 0, 0xff, 0, 0, 0, 0, 0] },
             .ok
              { Typ := radio.Rerr, Flag := 0, Err := radio.ErrBadcall, Timeout := 0,
                Preamble := 0, Filterbyte3 := 0, Pkt := radio.Packet.zero }],
          calls := [], slept := [] } =
      ({ tagidx := 2, replies := [],
         calls :=
           [{ Typ := radio.Ttxrx, Flag := 0, Err := 0, Timeout := 200 * Millisecond,
              Preamble := 2 * Second, Filterbyte3 := 0,
              Pkt := radio.Packet.copy
                [0x00, 0, 0x00, 4, 0, 0, 0, 0, 0x49, 0x01, 0x2d, 0x14, 0, 0, 0, 0] },
            { Typ := radio.Ttxrx, Flag := 0, Err := 0, Timeout := 300 * Millisecond,
              Preamble := 0, Filterbyte3 := 0,
              Pkt := radio.Packet.copy [0x50, 0, 0x0e, 0, 0, 0, 0, 0] }],
         slept := [] },
        none, some (.error "radio error")) ∧
    Pump.CancelCombo (fun _ => (0, true)) (fun _ => 0)
        { tagidx := 0,
          replies :=
            [.ok
              { Typ := radio.Rtxrx, Flag := 0, Err := 0, Timeout := 0,
                Preamble := 0, Filterbyte3 := 0,
                Pkt := radio.Packet.copy [0x00, 0, 0xff, 0, 0, 0, 0, 0] },
             .ok
              { Typ := radio.Rerr, Flag := 0, Err := radio.ErrBadcall, Timeout := 0,
                Preamble := 0, Filterbyte3 := 0, Pkt := radio.Packet.zero },
             .ok
              { Typ := radio.Rtx, Flag := 0, Err := 0, Timeout := 0,
                Preamble := 0, Filterbyte3 := 0, Pkt := radio.Packet.zero }],
          calls := [], slept := [] } =
      ({ tagidx := 3, replies := [],
         calls :=
           [{ Typ := radio.Ttxrx, Flag := 0, Err := 0, Timeout := 200 * Millisecond,
              Preamble := 2 * Second, Filterbyte3 := 0,
              Pkt := radio.Packet.copy
                [0x00, 0, 0x00, 4, 0, 0, 0, 0, 0x49, 0x01, 0x2d, 0x14, 0, 0, 0, 0] },
            { Typ := radio.Ttxrx, Flag := 0, Err := 0, Timeout := 300 * Millisecond,
              Preamble := 0, Filterbyte3 := 0,
              Pkt := radio.Packet.copy [0x35, 0, 0x0e, 0, 0, 0, 0, 0] },
            { Typ := radio.Ttx, Flag := 0, Err := 0, Timeout := 0,
              Preamble := 0, Filterbyte3 := 0,
              Pkt := radio.Packet.copy [0x05, 0, 0xf8, 0, 0, 0, 0, 0] }],
         slept := [] },
        some (.error "radio error")) ∧
    (∀ (crc32hd : List Byte → Word32 × Bool) (crc32 : List Byte → Word32) (p p1 p2 : Pump)
        (r : Option Status) (out : Option Outcome),
      Pump.Resume crc32hd crc32 p = (p1, some .ok) →
      Pump.Call crc32hd crc32 p1 CallStatus none (some Status.zero) Status.reply
        = (p2, r, out) →
      out ≠ some .ok →
      Pump.Stat crc32hd crc32 p = (p2, none, out)) ∧
    (∀ (crc32hd : List Byte → Word32 × Bool) (crc32 : List Byte → Word32) (p p1 : Pump)
        (bolus : Amount) (dur : Duration),
      Pump.Resume crc32hd crc32 p = (p1, some .ok) →
      Pump.CancelCombo crc32hd crc32 p =
        Pump.deferAdjourn crc32hd crc32 (Pump.callNil crc32hd crc32 p1 CallCancelcombo) ∧
      (∃ r, Pump.ClearWarn crc32hd crc32 p = Pump.deferAdjourn crc32hd crc32 r) ∧
      (∃ r, Pump.bolusSession crc32hd crc32 bolus dur p =
        Pump.deferAdjourn crc32hd crc32 r)) ∧
    (∀ (crc32hd : List Byte → Word32 × Bool) (crc32 : List Byte → Word32)
        (r : Pump × Option Outcome),
      (Pump.deferAdjourn crc32hd crc32 r).1 = (Pump.Adjourn crc32hd crc32 r.1).1 ∧
      (∀ pkt, r.1.tagidx.val < 11 →
        frame.Marshal crc32hd crc32
          { Typ := CallAdjourn, Tag := tagSeq.getD r.1.tagidx.val 0, Body := [] } = .ok pkt →
        (Pump.deferAdjourn crc32hd crc32 r).1.calls = r.1.calls ++
          [{ Typ := radio.Ttx, Flag := 0, Err := 0, Timeout := 0, Preamble := 0,
             Filterbyte3 := 0, Pkt := radio.Packet.copy pkt }])) := by
  refine ⟨rfl, rfl, ?_, ?_, ?_⟩
  · intro crc32hd crc32 p p1 p2 r out hres hcall hout
    unfold Pump.Stat
    simp only [hres, hcall]
    rcases out with _ | out
    · cases r <;> rfl
    · cases out with
      | ok => exact absurd rfl hout
      | error e => cases r <;> rfl
      | panic => cases r <;> rfl
  · intro crc32hd crc32 p p1 bolus dur hres
    refine ⟨?_, ?_, ?_⟩
    · unfold Pump.CancelCombo
      simp only [hres]
    · unfold Pump.ClearWarn
      simp only [hres]
      exact ⟨_, rfl⟩
    · unfold Pump.bolusSession
      simp only [hres]
      exact ⟨_, rfl⟩
  · intro crc32hd crc32 r
    have h1 : (Pump.deferAdjourn crc32hd crc32 r).1 = (Pump.Adjourn crc32hd crc32 r.1).1 := by
      unfold Pump.deferAdjourn
      split <;> simp_all
    refine ⟨h1, fun pkt hi hm => ?_⟩
    rw [h1]
    exact (Adjourn_calls crc32hd crc32 r.1).1 pkt hi hm

end pump

namespace pump

/-! ## The arithmetic of `SetRate` -/

/-- Rounding to a `float64` moves a positive number up by at most one part in
`2 ^ 52`. -/
theorem Float64.round_le_rel {x : ℚ} (hx : 0 < x) :
    Float64.round x ≤ x * (1 + 1 / (2 : ℚ) ^ 52) := by
  have hb := log_bounds hx
  unfold Float64.round
  rw [if_neg (ne_of_gt hx), abs_of_pos hx]
  set e := Int.log 2 x with he
  have hp : (0 : ℚ) < (2 : ℚ) ^ (e - 52) := by positivity
  have h1 := (roundHalfEven_bounds (x / (2 : ℚ) ^ (e - 52))).2
  have h2 : ((⌊x / (2 : ℚ) ^ (e - 52)⌋ : ℤ) : ℚ) ≤ x / (2 : ℚ) ^ (e - 52) := Int.floor_le _
  have h3 : ((roundHalfEven (x / (2 : ℚ) ^ (e - 52)) : ℤ) : ℚ) ≤ x / (2 : ℚ) ^ (e - 52) + 1 := by
    have : ((roundHalfEven (x / (2 : ℚ) ^ (e - 52)) : ℤ) : ℚ) ≤
        ((⌊x / (2 : ℚ) ^ (e - 52)⌋ + 1 : ℤ) : ℚ) := by exact_mod_cast h1
    push_cast at this
    linarith
  have h4 : ((roundHalfEven (x / (2 : ℚ) ^ (e - 52)) : ℤ) : ℚ) * (2 : ℚ) ^ (e - 52) ≤
      (x / (2 : ℚ) ^ (e - 52) + 1) * (2 : ℚ) ^ (e - 52) :=
    mul_le_mul_of_nonneg_right h3 hp.le
  have h5 : (x / (2 : ℚ) ^ (e - 52) + 1) * (2 : ℚ) ^ (e - 52) = x + (2 : ℚ) ^ (e - 52) := by
    field_simp
  have h6 : (2 : ℚ) ^ (e - 52) = (2 : ℚ) ^ e / (2 : ℚ) ^ 52 := by
    rw [zpow_sub₀ (by norm_num : (2 : ℚ) ≠ 0)]
    norm_cast
  have h7 : (2 : ℚ) ^ e / (2 : ℚ) ^ 52 ≤ x / (2 : ℚ) ^ 52 :=
    div_le_div_of_nonneg_right hb.1 (by positivity)
  calc _ ≤ x + (2 : ℚ) ^ (e - 52) := by rw [← h5]; exact h4
    _ ≤ x + x / (2 : ℚ) ^ 52 := by rw [h6]; linarith
    _ = x * (1 + 1 / (2 : ℚ) ^ 52) := by ring


/-- A number within one half of an integer rounds to that integer. -/
theorem roundHalfEven_of_near {q : ℚ} {m : ℤ} (h : |q - m| < 1 / 2) : roundHalfEven q = m := by
  rw [abs_lt] at h
  unfold roundHalfEven
  rcases le_or_lt (m : ℚ) q with hq | hq
  · have hf : ⌊q⌋ = m := by
      rw [Int.floor_eq_iff]
      constructor <;> linarith
    rw [hf, if_pos (by linarith)]
  · have hf : ⌊q⌋ = m - 1 := by
      rw [Int.floor_eq_iff]
      push_cast
      constructor <;> linarith
    rw [hf]
    push_cast
    rw [if_neg (by linarith), if_pos (by linarith)]
    ring

/-- A number nearer than half a unit in the last place to the `float64`
`m * 2 ^ e` (with a full 53-bit significand `m`) rounds to it. -/
theorem Float64.round_of_near {x : ℚ} (m e : ℤ) (hm1 : 2 ^ 52 < m) (hm2 : m < 2 ^ 53)
    (h : |x - m * (2 : ℚ) ^ e| < (2 : ℚ) ^ e / 2) :
    Float64.round x = m * (2 : ℚ) ^ e := by
  have hp : (0 : ℚ) < (2 : ℚ) ^ e := by positivity
  rw [abs_lt] at h
  have hm1q : ((2 : ℚ) ^ 52 + 1) ≤ m := by exact_mod_cast hm1
  have hm2q : (m : ℚ) + 1 ≤ 2 ^ 53 := by exact_mod_cast hm2
  have hx0 : 0 < x := by nlinarith
  have hlog : Int.log 2 |x| = e + 52 := by
    rw [abs_of_pos hx0]
    apply log_eq_of_bounds
    · rw [zpow_add₀ two_ne_zero]
      norm_num
      nlinarith
    · rw [show e + 52 + 1 = e + 53 by ring, zpow_add₀ two_ne_zero]
      norm_num
      nlinarith
  unfold Float64.round
  rw [if_neg hx0.ne', hlog, show e + 52 - 52 = e by ring]
  rw [roundHalfEven_of_near (m := m)]
  rw [abs_lt]
  constructor
  · rw [lt_sub_iff_add_lt, lt_div_iff₀ hp]
    linarith
  · rw [sub_lt_iff_lt_add, div_lt_iff₀ hp]
    linarith

theorem roundHalfEven_neg (q : ℚ) : roundHalfEven (-q) = -roundHalfEven q := by
  by_cases hz : (⌊q⌋ : ℚ) = q
  · rw [← hz, ← Int.cast_neg, roundHalfEven_intCast, roundHalfEven_intCast]
  have h1 : (⌊q⌋ : ℚ) < q := lt_of_le_of_ne (Int.floor_le q) hz
  have h2 : q < ⌊q⌋ + 1 := Int.lt_floor_add_one q
  have hf : ⌊-q⌋ = -⌊q⌋ - 1 := by
    rw [Int.floor_eq_iff]
    push_cast
    constructor <;> linarith
  unfold roundHalfEven
  rw [hf]
  push_cast
  split_ifs <;> first | omega | (exfalso; linarith)


/-- Rounding to a `float64` commutes with the change of sign. -/
theorem Float64.round_neg (x : ℚ) : Float64.round (-x) = -Float64.round x := by
  unfold Float64.round
  by_cases h : x = 0
  · simp [h]
  · rw [if_neg (neg_ne_zero.mpr h), if_neg h, abs_neg, neg_div, roundHalfEven_neg]
    push_cast
    ring

/-- The integer part of a quotient of non-negative integers is the integer
quotient. -/
theorem Float64.trunc_nonneg_div (a n : ℤ) (ha : 0 ≤ a) (hn : 0 < n) :
    Float64.trunc ((a : ℚ) / n) = a / n := by
  have hnq : (0 : ℚ) < n := by exact_mod_cast hn
  have haq : (0 : ℚ) ≤ a := by exact_mod_cast ha
  rw [Float64.trunc_of_nonneg (div_nonneg haq hnq.le), Int.floor_eq_iff]
  have h1 := Int.emod_add_ediv a n
  have h2 := Int.emod_nonneg a hn.ne'
  have h3 := Int.emod_lt_of_pos a hn
  constructor
  · rw [le_div_iff₀ hnq]
    exact_mod_cast (by nlinarith : a / n * n ≤ a)
  · rw [div_lt_iff₀ hnq]
    exact_mod_cast (by nlinarith : a < (a / n + 1) * n)

/-- The total of a rate `0 ≤ r ≤ 2 ^ 48` over `k` half hours, `k ≤ 10`, is the
integer part of `k * r / 2`: no rounding occurs. -/
theorem Rate.Total_half_hours (r k : ℤ) (hk0 : 0 < k) (hk : k ≤ 10) (hr0 : 0 ≤ r)
    (hr : r ≤ 2 ^ 48) : Rate.Total r (30 * k * Minute) = some (k * r / 2) := by
  have hm : Duration.Minutes (30 * k * Minute) = ((30 * k : ℤ) : ℚ) :=
    Duration.Minutes_whole (30 * k) (by rw [abs_le]; constructor <;> omega)
  have hd : Float64.div ((30 * k : ℤ) : ℚ) 60 = (k : ℚ) * (2 : ℚ) ^ (-1 : ℤ) := by
    unfold Float64.div
    rw [show (((30 * k : ℤ) : ℚ)) / 60 = (k : ℚ) * (2 : ℚ) ^ (-1 : ℤ) by
      push_cast
      rw [zpow_neg_one]
      ring]
    exact Float64.round_exact k (-1) (by rw [abs_lt]; constructor <;> omega)
  have hkr0 : 0 ≤ k * r := mul_nonneg hk0.le hr0
  have hkr1 : k * r ≤ 10 * 2 ^ 48 := mul_le_mul hk hr hr0 (by norm_num)
  have hkr : |k * r| < 2 ^ 53 := by rw [abs_lt]; constructor <;> omega
  have ho : Float64.ofInt r = r := Float64.ofInt_exact r (by rw [abs_le]; constructor <;> omega)
  have hmul : Float64.mul ((k : ℚ) * (2 : ℚ) ^ (-1 : ℤ)) r = ((k * r : ℤ) : ℚ) / ((2 : ℤ) : ℚ) := by
    unfold Float64.mul
    rw [show (k : ℚ) * (2 : ℚ) ^ (-1 : ℤ) * r = ((k * r : ℤ) : ℚ) * (2 : ℚ) ^ (-1 : ℤ) by
      push_cast
      ring]
    rw [Float64.round_exact (k * r) (-1) hkr, zpow_neg_one]
    push_cast
    ring
  unfold Rate.Total
  rw [hm, hd, ho, hmul, Float64.toInt64, Float64.trunc_nonneg_div (k * r) 2 hkr0 (by norm_num)]
  rw [if_pos]
  unfold isInt64 minInt64 maxInt64
  constructor <;> omega

/-- The hourly equivalent `Rate((60 / d.Minutes()) * float64(tot))` over `k` half
hours is defined, not negative, and at most the integer part of the exact
quotient `2 * tot / k`. -/
theorem SetRate.proposed_bounds (k tot : ℤ) (hk0 : 0 < k) (hk : k ≤ 10) (h0 : 0 ≤ tot)
    (ht : 2 * tot / k ≤ 2 ^ 47) :
    ∃ p, Float64.toInt64 (Float64.mul (Float64.div 60 (Duration.Minutes (30 * k * Minute)))
        (Float64.ofInt tot)) = some p ∧ 0 ≤ p ∧ p ≤ 2 * tot / k := by
  have hm : Duration.Minutes (30 * k * Minute) = ((30 * k : ℤ) : ℚ) :=
    Duration.Minutes_whole (30 * k) (by rw [abs_le]; constructor <;> omega)
  have hkq : (0 : ℚ) < k := by exact_mod_cast hk0
  have hkq10 : (k : ℚ) ≤ 10 := by exact_mod_cast hk
  have hd1 := Int.emod_add_ediv (2 * tot) k
  have hd2 := Int.emod_nonneg (2 * tot) hk0.ne'
  have hd3 := Int.emod_lt_of_pos (2 * tot) hk0
  have hF0 : 0 ≤ 2 * tot / k := Int.ediv_nonneg (by omega) hk0.le
  generalize hF : 2 * tot / k = F at *
  generalize hR : 2 * tot % k = R at *
  have hkF : k * F ≤ 10 * 2 ^ 47 := mul_le_mul hk ht hF0 (by norm_num)
  have ho : Float64.ofInt tot = tot :=
    Float64.ofInt_exact tot (by rw [abs_le]; constructor <;> omega)
  have hc0 : 0 ≤ Float64.div 60 ((30 * k : ℤ) : ℚ) :=
    Float64.round_nonneg (div_nonneg (by norm_num) (by push_cast; linarith))
  have hc : Float64.div 60 ((30 * k : ℤ) : ℚ) ≤ 2 / k * (1 + 1 / (2 : ℚ) ^ 52) := by
    have hpos : (0 : ℚ) < 60 / ((30 * k : ℤ) : ℚ) := div_pos (by norm_num) (by push_cast; linarith)
    have := Float64.round_le_rel hpos
    have he : (60 : ℚ) / ((30 * k : ℤ) : ℚ) = 2 / k := by
      push_cast
      field_simp
      ring
    rw [he] at this
    unfold Float64.div
    rw [he]
    exact this
  have htq : (0 : ℚ) ≤ tot := by exact_mod_cast h0
  have hx0 : 0 ≤ Float64.div 60 ((30 * k : ℤ) : ℚ) * tot := mul_nonneg hc0 htq
  have hFq : (F : ℚ) ≤ 2 ^ 47 := by exact_mod_cast ht
  have hFq0 : (0 : ℚ) ≤ F := by exact_mod_cast hF0
  have hq2 : (2 : ℚ) / k * tot ≤ F + 9 / 10 := by
    have e1 : (2 : ℚ) * tot = k * F + R := by
      have : 2 * tot = k * F + R := by omega
      exact_mod_cast this
    have e2 : (R : ℚ) ≤ k - 1 := by
      have : R ≤ k - 1 := by omega
      exact_mod_cast this
    have e3 : (2 : ℚ) / k * tot = F + R / k := by
      field_simp
      linarith
    rw [e3]
    have e4 : (R : ℚ) / k ≤ 9 / 10 := by
      rw [div_le_iff₀ hkq]
      linarith
    linarith
  have hxy : Float64.div 60 ((30 * k : ℤ) : ℚ) * tot ≤
      ((16 * F + 15 : ℤ) : ℚ) * (2 : ℚ) ^ (-4 : ℤ) := by
    have a1 : Float64.div 60 ((30 * k : ℤ) : ℚ) * tot ≤
        2 / k * (1 + 1 / (2 : ℚ) ^ 52) * tot := mul_le_mul_of_nonneg_right hc htq
    have a2 : (2 : ℚ) / k * (1 + 1 / (2 : ℚ) ^ 52) * tot =
        2 / k * tot * (1 + 1 / (2 : ℚ) ^ 52) := by ring
    have a3 : (2 : ℚ) / k * tot * (1 + 1 / (2 : ℚ) ^ 52) ≤
        (F + 9 / 10) * (1 + 1 / (2 : ℚ) ^ 52) :=
      mul_le_mul_of_nonneg_right hq2 (by norm_num)
    have a4 : ((16 * F + 15 : ℤ) : ℚ) * (2 : ℚ) ^ (-4 : ℤ) = F + 15 / 16 := by
      push_cast
      norm_num
      ring
    rw [a4]
    have a5 : (F + 9 / 10) * (1 + 1 / (2 : ℚ) ^ 52) ≤ F + 15 / 16 := by
      norm_num at hFq ⊢
      linarith
    linarith
  have hy := Float64.round_exact (16 * F + 15) (-4) (by rw [abs_lt]; constructor <;> omega)
  have hrx := (Float64.round_mono hx0 hxy).trans_eq hy
  have hrx0 := Float64.round_nonneg hx0
  have hlt : Float64.round (Float64.div 60 ((30 * k : ℤ) : ℚ) * tot) < ((F + 1 : ℤ) : ℚ) := by
    have a4 : ((16 * F + 15 : ℤ) : ℚ) * (2 : ℚ) ^ (-4 : ℤ) = F + 15 / 16 := by
      push_cast
      norm_num
      ring
    rw [a4] at hrx
    rw [Int.cast_add, Int.cast_one]
    linarith
  have hfl : ⌊Float64.round (Float64.div 60 ((30 * k : ℤ) : ℚ) * tot)⌋ < F + 1 :=
    Int.floor_lt.mpr hlt
  have hfl0 : 0 ≤ ⌊Float64.round (Float64.div 60 ((30 * k : ℤ) : ℚ) * tot)⌋ :=
    Int.floor_nonneg.mpr hrx0
  refine ⟨⌊Float64.round (Float64.div 60 ((30 * k : ℤ) : ℚ) * tot)⌋, ?_, hfl0, by omega⟩
  rw [hm, ho, Float64.mul, Float64.toInt64, Float64.trunc_of_nonneg hrx0, if_pos]
  unfold isInt64 minInt64 maxInt64
  constructor <;> omega


/-- The candidate of `SetRate` over `k` half hours, for a missing rate
`0 ≤ need ≤ 2 ^ 46`: the total is `k * need / 2` cut down to a multiple of 50, the
proposed rate `p` lies between 0 and `need`, and the difference is
`|rate - p|`. -/
theorem SetRate.candidate_range (rate need k : ℤ) (hk0 : 0 < k) (hk : k ≤ 10)
    (hn0 : 0 ≤ need) (hn : need ≤ 2 ^ 46) (hr : |rate| ≤ 2 ^ 62) :
    ∃ p, SetRate.candidate rate need (30 * k * Minute) =
        some (|rate - p|, k * need / 2 - k * need / 2 % 50, p) ∧ 0 ≤ p ∧ p ≤ need ∧
      p ≤ 2 * (k * need / 2 - k * need / 2 % 50) / k := by
  have hkn0 : 0 ≤ k * need := mul_nonneg hk0.le hn0
  have hkn1 : k * need ≤ 10 * 2 ^ 46 := mul_le_mul hk hn hn0 (by norm_num)
  have hT0 : 0 ≤ k * need / 2 := Int.ediv_nonneg hkn0 (by norm_num)
  have hT1 : 2 * (k * need / 2) ≤ k * need := by omega
  have hm0 := Int.emod_nonneg (k * need / 2) (by norm_num : (50 : ℤ) ≠ 0)
  have hm1 := Int.emod_lt_of_pos (k * need / 2) (by norm_num : (0 : ℤ) < 50)
  have hm2 := emod_le_self_of_nonneg (k * need / 2) hT0 (by norm_num : (0 : ℤ) < 50)
  have hFn : 2 * (k * need / 2 - k * need / 2 % 50) / k ≤ need := by
    apply Int.ediv_le_of_le_mul hk0
    have : need * k = k * need := mul_comm _ _
    omega
  obtain ⟨p, hp, hp0, hpF⟩ := SetRate.proposed_bounds k (k * need / 2 - k * need / 2 % 50)
    hk0 hk (by omega) (by omega)
  refine ⟨p, ?_, hp0, le_trans hpF hFn, hpF⟩
  have hpn : p ≤ need := le_trans hpF hFn
  rw [abs_le] at hr
  have hw1 : wrapInt64 (p * 1) = p := by
    rw [mul_one]
    apply wrapInt64_of_isInt64
    unfold isInt64 minInt64 maxInt64
    constructor <;> omega
  have hw2 : wrapInt64 (rate - p) = rate - p := by
    apply wrapInt64_of_isInt64
    unfold isInt64 minInt64 maxInt64
    constructor <;> omega
  have hw3 : wrapInt64 (-(rate - p)) = -(rate - p) := by
    apply wrapInt64_of_isInt64
    unfold isInt64 minInt64 maxInt64
    constructor <;> omega
  unfold SetRate.candidate
  rw [Rate.Total_half_hours need k hk0 hk hn0 (by omega)]
  simp only []
  rw [Amount.Truncate_eq (k * need / 2) 50
    (by unfold isInt64 minInt64 maxInt64; constructor <;> omega) (by norm_num),
    Int.tmod_eq_emod hT0 (by norm_num)]
  simp only []
  rw [hp]
  simp only [hw1, hw2, hw3]
  congr 2
  split_ifs with h
  · rw [abs_of_neg h]
  · rw [abs_of_nonneg (not_lt.mp h)]

/-- Bounds of the rounding of a number between -1 and 3. -/
theorem Float64.round_scale {x : ℚ} (h1 : -1 ≤ x) (h2 : x ≤ 3) :
    -1 ≤ Float64.round x ∧ Float64.round x ≤ 3 := by
  have r1 : Float64.round 1 = 1 := by simpa using Float64.round_intCast 1 (by norm_num)
  have r3 : Float64.round 3 = 3 := by simpa using Float64.round_intCast 3 (by norm_num)
  rcases le_total 0 x with h | h
  · have a := Float64.round_nonneg h
    have b := Float64.round_mono h h2
    rw [r3] at b
    constructor <;> linarith
  · have hn : 0 ≤ -x := by linarith
    have a := Float64.round_nonneg hn
    have b := Float64.round_mono hn (by linarith : -x ≤ 1)
    rw [r1, Float64.round_neg] at b
    rw [Float64.round_neg] at a
    constructor <;> linarith

/-- The value `base` of `SetRate` is defined for a basal rate `0 ≤ basal ≤ 2 ^ 40`
and a temp percentage that is an `int8`, and is at most `3 * 2 ^ 40` in absolute
value. -/
theorem SetRate.base_range (basal temp : ℤ) (hb0 : 0 ≤ basal) (hb : basal ≤ 2 ^ 40)
    (ht1 : -128 ≤ temp) (ht2 : temp ≤ 127) :
    ∃ base, SetRate.base basal temp = some base ∧ |base| ≤ 3 * 2 ^ 40 := by
  have ho : Float64.ofInt basal = basal :=
    Float64.ofInt_exact basal (by rw [abs_le]; constructor <;> omega)
  have hot : Float64.ofInt temp = temp :=
    Float64.ofInt_exact temp (by rw [abs_le]; constructor <;> omega)
  have hadd : Float64.add 100 temp = ((100 + temp : ℤ) : ℚ) := by
    unfold Float64.add
    have := Float64.round_intCast (100 + temp) (by rw [abs_le]; constructor <;> omega)
    push_cast at this ⊢
    exact this
  have ht1q : (-128 : ℚ) ≤ temp := by exact_mod_cast ht1
  have ht2q : (temp : ℚ) ≤ 127 := by exact_mod_cast ht2
  have hs := Float64.round_scale (x := ((100 + temp : ℤ) : ℚ) / 100)
    (by push_cast; rw [le_div_iff₀ (by norm_num)]; linarith)
    (by push_cast; rw [div_le_iff₀ (by norm_num)]; linarith)
  generalize hsc : Float64.round (((100 + temp : ℤ) : ℚ) / 100) = sc at hs
  have hbq0 : (0 : ℚ) ≤ basal := by exact_mod_cast hb0
  have hbq : (basal : ℚ) ≤ 2 ^ 40 := by exact_mod_cast hb
  have r3 : Float64.round (3 * 2 ^ 40) = 3 * 2 ^ 40 := by
    have := Float64.round_intCast (3 * 2 ^ 40) (by norm_num)
    norm_num at this ⊢
    exact this
  have hprod : -(3 * 2 ^ 40) ≤ Float64.round (basal * sc) ∧
      Float64.round (basal * sc) ≤ 3 * 2 ^ 40 := by
    rcases le_total 0 sc with h | h
    · have h0 : 0 ≤ (basal : ℚ) * sc := mul_nonneg hbq0 h
      have a := Float64.round_nonneg h0
      have b := Float64.round_mono h0 (by nlinarith : (basal : ℚ) * sc ≤ 3 * 2 ^ 40)
      rw [r3] at b
      constructor <;> linarith
    · have h0 : 0 ≤ -((basal : ℚ) * sc) := by nlinarith
      have a := Float64.round_nonneg h0
      have b := Float64.round_mono h0 (by nlinarith : -((basal : ℚ) * sc) ≤ 3 * 2 ^ 40)
      rw [r3, Float64.round_neg] at b
      rw [Float64.round_neg] at a
      constructor <;> linarith
  generalize hpr : Float64.round (basal * sc) = pr at hprod
  have htr : |Float64.trunc pr| ≤ 3 * 2 ^ 40 := by
    rw [abs_le]
    unfold Float64.trunc
    split_ifs with h
    · constructor
      · have := Int.floor_nonneg.mpr h
        omega
      · have : ⌊pr⌋ < 3 * 2 ^ 40 + 1 := Int.floor_lt.mpr (by push_cast; linarith [hprod.2])
        omega
    · constructor
      · have : -(3 * 2 ^ 40) - 1 < ⌈pr⌉ := Int.lt_ceil.mpr (by push_cast; linarith [hprod.1])
        omega
      · have : ⌈pr⌉ ≤ 0 := Int.ceil_le.mpr (by push_cast; linarith)
        omega
  refine ⟨Float64.trunc pr, ?_, htr⟩
  unfold SetRate.base
  rw [ho, hot, hadd, Float64.div, hsc, Float64.mul, hpr, Float64.toInt64, if_pos]
  rw [abs_le] at htr
  unfold isInt64 minInt64 maxInt64
  constructor <;> omega

/-- The loop of `SetRate` after its first round: the result has the least
difference of all candidates met, and is either the combo the loop started from
or the first candidate that attains a difference below it and below every
candidate before. -/
theorem SetRate.loop_spec (rate need : ℤ) : ∀ (ds : List Duration) (c0 c : Combo),
    SetRate.loop rate need ds false c0 = some c →
    (∀ d ∈ ds, ∃ v, SetRate.candidate rate need d = some v ∧ c.min ≤ v.1) ∧
    (c = c0 ∨ (c.min < c0.min ∧ ∃ pre d post, ds = pre ++ d :: post ∧
        SetRate.candidate rate need d = some (c.min, c.total, c.matched) ∧ c.dur = d ∧
        ∀ d1 ∈ pre, ∃ v, SetRate.candidate rate need d1 = some v ∧ c.min < v.1)) := by
  intro ds
  induction ds with
  | nil =>
    intro c0 c h
    simp only [SetRate.loop, Option.some.injEq] at h
    exact ⟨by simp, Or.inl h.symm⟩
  | cons d ds ih =>
    intro c0 c h
    rw [SetRate.loop] at h
    rcases hc : SetRate.candidate rate need d with _ | ⟨diff, tot, prop⟩
    · rw [hc] at h
      simp at h
    · rw [hc] at h
      simp only [Bool.false_eq_true, false_or] at h
      by_cases hlt : diff < c0.min
      · rw [if_pos hlt] at h
        obtain ⟨i1, i2⟩ := ih _ c h
        have hle : c.min ≤ diff := by
          rcases i2 with e | ⟨e, _⟩
          · rw [e]
          · exact le_of_lt e
        refine ⟨?_, Or.inr ⟨lt_of_le_of_lt hle hlt, ?_⟩⟩
        · intro d1 hd1
          rcases List.mem_cons.mp hd1 with e | e
          · exact ⟨_, by rw [e, hc], hle⟩
          · exact i1 d1 e
        · rcases i2 with e | ⟨e, pre, d2, post, e1, e2, e3, e4⟩
          · refine ⟨[], d, ds, rfl, ?_, by rw [e], by simp⟩
            rw [hc, e]
          · refine ⟨d :: pre, d2, post, by rw [e1]; rfl, e2, e3, ?_⟩
            intro d1 hd1
            rcases List.mem_cons.mp hd1 with e5 | e5
            · exact ⟨_, by rw [e5, hc], e⟩
            · exact e4 d1 e5
      · rw [if_neg hlt] at h
        obtain ⟨i1, i2⟩ := ih _ c h
        have hle : c.min ≤ c0.min := by
          rcases i2 with e | ⟨e, _⟩
          · rw [e]
          · exact le_of_lt e
        refine ⟨?_, ?_⟩
        · intro d1 hd1
          rcases List.mem_cons.mp hd1 with e | e
          · exact ⟨_, by rw [e, hc], le_trans hle (not_lt.mp hlt)⟩
          · exact i1 d1 e
        · rcases i2 with e | ⟨e, pre, d2, post, e1, e2, e3, e4⟩
          · exact Or.inl e
          · refine Or.inr ⟨e, d :: pre, d2, post, by rw [e1]; rfl, e2, e3, ?_⟩
            intro d1 hd1
            rcases List.mem_cons.mp hd1 with e5 | e5
            · exact ⟨_, by rw [e5, hc], lt_of_lt_of_le e (not_lt.mp hlt)⟩
            · exact e4 d1 e5

/-- The combo `SetRate` selects is the first candidate, in the order of the
durations, whose difference is the least: every candidate before it has a
greater difference, every candidate after it has one that is not less. -/
theorem SetRate.select_first_min (rate need : ℤ) (c : Combo)
    (h : SetRate.select rate need = some c) :
    ∃ pre d post, SetRate.durations = pre ++ d :: post ∧ c.dur = d ∧
      SetRate.candidate rate need d = some (c.min, c.total, c.matched) ∧
      (∀ d1 ∈ pre, ∃ v, SetRate.candidate rate need d1 = some v ∧ c.min < v.1) ∧
      (∀ d1 ∈ post, ∃ v, SetRate.candidate rate need d1 = some v ∧ c.min ≤ v.1) := by
  unfold SetRate.select at h
  rw [SetRate.durations, SetRate.loop] at h
  rcases hc : SetRate.candidate rate need (30 * Minute) with _ | ⟨diff, tot, prop⟩
  · rw [hc] at h
    simp at h
  · rw [hc] at h
    simp only [true_or, if_true] at h
    obtain ⟨i1, i2⟩ := SetRate.loop_spec rate need _ _ c h
    rcases i2 with e | ⟨e, pre, d2, post, e1, e2, e3, e4⟩
    · refine ⟨[], 30 * Minute, _, rfl, by rw [e], by rw [hc, e], by simp, i1⟩
    · refine ⟨30 * Minute :: pre, d2, post, ?_, e3, e2, ?_, ?_⟩
      · rw [SetRate.durations, e1]
        rfl
      · intro d1 hd1
        rcases List.mem_cons.mp hd1 with e5 | e5
        · exact ⟨_, by rw [e5, hc], e⟩
        · exact e4 d1 e5
      · intro d1 hd1
        exact i1 d1 (by rw [e1]; simp [hd1])

end pump

namespace pump

/-! ## The selection of `SetRate` -/

/-- Every candidate duration is a number `k ≤ 10` of half hours. -/
theorem SetRate.durations_form :
    ∀ d ∈ SetRate.durations, ∃ k : ℤ, 0 < k ∧ k ≤ 10 ∧ d = 30 * k * Minute := by
  intro d hd
  simp only [SetRate.durations, List.mem_cons, List.mem_singleton, List.mem_nil_iff,
    or_false] at hd
  rcases hd with h | h | h | h | h | h | h
  · exact ⟨1, by norm_num, by norm_num, by rw [h]; rfl⟩
  · exact ⟨2, by norm_num, by norm_num, by rw [h]; rfl⟩
  · exact ⟨3, by norm_num, by norm_num, by rw [h]; rfl⟩
  · exact ⟨4, by norm_num, by norm_num, by rw [h]; rfl⟩
  · exact ⟨6, by norm_num, by norm_num, by rw [h]; rfl⟩
  · exact ⟨8, by norm_num, by norm_num, by rw [h]; rfl⟩
  · exact ⟨10, by norm_num, by norm_num, by rw [h]; rfl⟩

theorem Float64.toInt64_isInt64 {x : ℚ} {p : ℤ} (h : Float64.toInt64 x = some p) :
    isInt64 p := by
  unfold Float64.toInt64 at h
  split_ifs at h with h1
  simp only [Option.some.injEq] at h
  rw [← h]
  exact h1

/-- What a candidate of `SetRate` is made of: the total is the truncated
`need.Total(d)`, the proposed rate is the conversion of the `float64` product
`(60 / d.Minutes()) * float64(tot)`, the difference is `rate - proposed` with
its sign removed (in `int64`). -/
theorem SetRate.candidate_inv {rate need : ℤ} {d : Duration} {diff tot prop : ℤ}
    (h : SetRate.candidate rate need d = some (diff, tot, prop)) :
    (∃ t, Rate.Total need d = some t ∧ Amount.Truncate t 50 = some tot) ∧
    Float64.toInt64 (Float64.mul (Float64.div 60 (Duration.Minutes d)) (Float64.ofInt tot)) =
      some prop ∧
    diff = (if wrapInt64 (rate - prop) < 0 then wrapInt64 (-wrapInt64 (rate - prop))
      else wrapInt64 (rate - prop)) := by
  unfold SetRate.candidate at h
  rcases h1 : Rate.Total need d with _ | t
  · rw [h1] at h
    simp at h
  rw [h1] at h
  simp only [] at h
  rcases h2 : Amount.Truncate t 50 with _ | tot1
  · rw [h2] at h
    simp at h
  rw [h2] at h
  simp only [] at h
  rcases h3 : Float64.toInt64
      (Float64.mul (Float64.div 60 (Duration.Minutes d)) (Float64.ofInt tot1)) with _ | p
  · rw [h3] at h
    simp at h
  rw [h3] at h
  have hp : wrapInt64 (p * 1) = p := by
    rw [mul_one]
    exact wrapInt64_of_isInt64 (Float64.toInt64_isInt64 h3)
  simp only [hp, Option.some.injEq, Prod.mk.injEq] at h
  obtain ⟨e1, e2, e3⟩ := h
  subst e2 e3
  exact ⟨⟨t, rfl, h2⟩, h3, e1.symm⟩

/-- The loop of `SetRate` returns when every candidate is defined. -/
theorem SetRate.loop_defined (rate need : ℤ) : ∀ (ds : List Duration),
    (∀ d ∈ ds, ∃ v, SetRate.candidate rate need d = some v) →
    ∀ first c0, ∃ c, SetRate.loop rate need ds first c0 = some c := by
  intro ds
  induction ds with
  | nil =>
    intro _ first c0
    exact ⟨c0, rfl⟩
  | cons d ds ih =>
    intro h first c0
    obtain ⟨⟨diff, tot, prop⟩, hv⟩ := h d (List.mem_cons_self d ds)
    have hds : ∀ d1 ∈ ds, ∃ v, SetRate.candidate rate need d1 = some v :=
      fun d1 hd1 => h d1 (List.mem_cons_of_mem d hd1)
    rw [SetRate.loop, hv]
    simp only []
    split_ifs
    · exact ih hds _ _
    · exact ih hds _ _

/-- The selection of `SetRate` for a missing rate `0 ≤ need ≤ 2 ^ 46` and a target
`|rate| ≤ 2 ^ 62`: it is defined, its duration is a candidate duration of `k`
half hours, its total is `k * need / 2` cut down to a multiple of 50, its
proposed rate lies between 0 and `need`, and its difference is
`|rate - proposed|`. -/
theorem SetRate.select_range (rate need : ℤ) (hn0 : 0 ≤ need) (hn : need ≤ 2 ^ 46)
    (hr : |rate| ≤ 2 ^ 62) :
    ∃ (c : Combo) (k : ℤ), SetRate.select rate need = some c ∧ 0 < k ∧ k ≤ 10 ∧
      c.dur ∈ SetRate.durations ∧ c.dur = 30 * k * Minute ∧
      c.total = k * need / 2 - k * need / 2 % 50 ∧ c.min = |rate - c.matched| ∧
      0 ≤ c.matched ∧ c.matched ≤ need := by
  have hall : ∀ d ∈ SetRate.durations, ∃ v, SetRate.candidate rate need d = some v := by
    intro d hd
    obtain ⟨k, hk0, hk, e⟩ := SetRate.durations_form d hd
    obtain ⟨p, hp, _⟩ := SetRate.candidate_range rate need k hk0 hk hn0 hn hr
    exact ⟨_, by rw [e, hp]⟩
  obtain ⟨c, hc⟩ := SetRate.loop_defined rate need SetRate.durations hall true
    { min := 0, matched := 0, total := 0, dur := 0 }
  have hsel : SetRate.select rate need = some c := hc
  obtain ⟨pre, d, post, e1, e2, e3, _, _⟩ := SetRate.select_first_min rate need c hsel
  have hd : d ∈ SetRate.durations := by
    rw [e1]
    simp
  obtain ⟨k, hk0, hk, e⟩ := SetRate.durations_form d hd
  obtain ⟨p, hp, hp0, hpn, _⟩ := SetRate.candidate_range rate need k hk0 hk hn0 hn hr
  rw [e, hp] at e3
  simp only [Option.some.injEq, Prod.mk.injEq] at e3
  obtain ⟨a1, a2, a3⟩ := e3
  refine ⟨c, k, hsel, hk0, hk, by rw [e2]; exact hd, by rw [e2, e], a2.symm, ?_, ?_, ?_⟩
  · rw [← a1, a3]
  · rw [← a3]
    exact hp0
  · rw [← a3]
    exact hpn

/-- The value `need` of `SetRate` is `max(0, rate - base)` when the difference is
an `int64`. -/
theorem SetRate.need_eq_max (rate base : ℤ) (h : isInt64 (rate - base)) :
    SetRate.need rate base = max 0 (rate - base) := by
  unfold SetRate.need
  rw [wrapInt64_of_isInt64 h]
  split_ifs with h1
  · rw [max_eq_left (sub_nonpos.mpr (le_of_lt h1))]
  · rw [max_eq_right (sub_nonneg.mpr (not_lt.mp h1))]


/-! ### A target beyond the integers that `float64` represents -/

/-- A number nearer than 32 to `25 * 2 ^ 54` rounds to it. -/
theorem Float64.round_near_huge {x : ℚ} (h : |x - 450359962737049600| < 32) :
    Float64.round x = 450359962737049600 := by
  have := Float64.round_of_near (x := x) 7036874417766400 6 (by norm_num) (by norm_num)
    (by norm_num; exact h)
  norm_num at this
  exact this

theorem Float64.round_two_thirds :
    Float64.round (2 / 3) = 6004799503160661 * (2 : ℚ) ^ (-53 : ℤ) := by
  have := Float64.round_of_near (x := 2 / 3) 6004799503160661 (-53) (by norm_num) (by norm_num)
    (by rw [abs_lt]; constructor <;> norm_num)
  exact_mod_cast this

theorem Float64.round_one_third :
    Float64.round (1 / 3) = 6004799503160661 * (2 : ℚ) ^ (-54 : ℤ) := by
  have := Float64.round_of_near (x := 1 / 3) 6004799503160661 (-54) (by norm_num) (by norm_num)
    (by rw [abs_lt]; constructor <;> norm_num)
  exact_mod_cast this

theorem Float64.round_one_fifth :
    Float64.round (1 / 5) = 7205759403792794 * (2 : ℚ) ^ (-55 : ℤ) := by
  have := Float64.round_of_near (x := 1 / 5) 7205759403792794 (-55) (by norm_num) (by norm_num)
    (by rw [abs_lt]; constructor <;> norm_num)
  exact_mod_cast this

/-- The candidate over `k` half hours for the target and missing rate
`25 * 2 ^ 54 - 20`, given the rounding of its `float64` product: `float64(need)` is
`25 * 2 ^ 54`, the total is `25 * k * 2 ^ 53` and the proposed rate
`25 * 2 ^ 54`. -/
theorem SetRate.candidate_huge (k : ℤ) (hk0 : 0 < k) (hk : k ≤ 10)
    (hr : Float64.round (Float64.div 60 ((30 * k : ℤ) : ℚ) * ((25 * k * 2 ^ 53 : ℤ) : ℚ)) =
      450359962737049600) :
    SetRate.candidate 450359962737049580 450359962737049580 (30 * k * Minute) =
      some (20, 25 * k * 2 ^ 53, 450359962737049600) := by
  have hm : Duration.Minutes (30 * k * Minute) = ((30 * k : ℤ) : ℚ) :=
    Duration.Minutes_whole (30 * k) (by rw [abs_le]; constructor <;> omega)
  have hd : Float64.div ((30 * k : ℤ) : ℚ) 60 = (k : ℚ) * (2 : ℚ) ^ (-1 : ℤ) := by
    unfold Float64.div
    rw [show (((30 * k : ℤ) : ℚ)) / 60 = (k : ℚ) * (2 : ℚ) ^ (-1 : ℤ) by
      push_cast
      rw [zpow_neg_one]
      ring]
    exact Float64.round_exact k (-1) (by rw [abs_lt]; constructor <;> omega)
  have hN : Float64.ofInt 450359962737049580 = 450359962737049600 := by
    unfold Float64.ofInt
    apply Float64.round_near_huge
    norm_num [abs_lt]
  have hex : Float64.round (((25 * k : ℤ) : ℚ) * (2 : ℚ) ^ (53 : ℤ)) =
      ((25 * k : ℤ) : ℚ) * (2 : ℚ) ^ (53 : ℤ) :=
    Float64.round_exact (25 * k) 53 (by rw [abs_lt]; constructor <;> omega)
  have hcast : ((25 * k : ℤ) : ℚ) * (2 : ℚ) ^ (53 : ℤ) = ((25 * k * 2 ^ 53 : ℤ) : ℚ) := by
    push_cast
    norm_num
  rw [hcast] at hex
  have hi : isInt64 (25 * k * 2 ^ 53) := by
    unfold isInt64 minInt64 maxInt64
    constructor <;> omega
  have hT : Rate.Total 450359962737049580 (30 * k * Minute) = some (25 * k * 2 ^ 53) := by
    unfold Rate.Total
    rw [hm, hd, hN, Float64.mul]
    rw [show (k : ℚ) * (2 : ℚ) ^ (-1 : ℤ) * 450359962737049600 = ((25 * k * 2 ^ 53 : ℤ) : ℚ) by
      push_cast
      rw [zpow_neg_one]
      norm_num
      ring]
    rw [hex, Float64.toInt64, Float64.trunc_intCast, if_pos hi]
  have hmod : Int.tmod (25 * k * 2 ^ 53) 50 = 0 := by
    rw [Int.tmod_eq_emod (by omega) (by norm_num)]
    omega
  have hTr : Amount.Truncate (25 * k * 2 ^ 53) 50 = some (25 * k * 2 ^ 53) := by
    rw [Amount.Truncate_eq _ _ hi (by norm_num), hmod, sub_zero]
  have hP : Float64.toInt64 (Float64.mul (Float64.div 60 (Duration.Minutes (30 * k * Minute)))
      (Float64.ofInt (25 * k * 2 ^ 53))) = some 450359962737049600 := by
    rw [hm, Float64.ofInt, hex, Float64.mul, hr]
    have := Float64.trunc_intCast 450359962737049600
    rw [Float64.toInt64]
    norm_num at this
    rw [this, if_pos (by decide)]
  unfold SetRate.candidate
  rw [hT]
  simp only []
  rw [hTr]
  simp only []
  rw [hP]
  simp only [show wrapInt64 (450359962737049600 * 1) = 450359962737049600 by decide,
    show wrapInt64 (450359962737049580 - 450359962737049600) = -20 by decide,
    show wrapInt64 (-(-20)) = 20 by decide]
  rfl


theorem SetRate.candidate_huge_1 :
    SetRate.candidate 450359962737049580 450359962737049580 (30 * Minute) =
      some (20, 225179981368524800, 450359962737049600) := by
  have hc : Float64.div 60 ((30 * 1 : ℤ) : ℚ) = 2 := by
    unfold Float64.div
    have := Float64.round_exact 1 (1) (by norm_num)
    norm_num at this ⊢
    exact this
  exact SetRate.candidate_huge 1 (by norm_num) (by norm_num) (by
    rw [hc]
    apply Float64.round_near_huge
    norm_num [abs_lt])

theorem SetRate.candidate_huge_2 :
    SetRate.candidate 450359962737049580 450359962737049580 (60 * Minute) =
      some (20, 450359962737049600, 450359962737049600) := by
  have hc : Float64.div 60 ((30 * 2 : ℤ) : ℚ) = 1 := by
    unfold Float64.div
    have := Float64.round_exact 1 (0) (by norm_num)
    norm_num at this ⊢
    exact this
  exact SetRate.candidate_huge 2 (by norm_num) (by norm_num) (by
    rw [hc]
    apply Float64.round_near_huge
    norm_num [abs_lt])

theorem SetRate.candidate_huge_3 :
    SetRate.candidate 450359962737049580 450359962737049580 (90 * Minute) =
      some (20, 675539944105574400, 450359962737049600) := by
  have hc : Float64.div 60 ((30 * 3 : ℤ) : ℚ) = Float64.round (2 / 3) := by
    unfold Float64.div
    norm_num
  exact SetRate.candidate_huge 3 (by norm_num) (by norm_num) (by
    rw [hc, Float64.round_two_thirds]
    apply Float64.round_near_huge
    norm_num [abs_lt])

theorem SetRate.candidate_huge_4 :
    SetRate.candidate 450359962737049580 450359962737049580 (120 * Minute) =
      some (20, 900719925474099200, 450359962737049600) := by
  have hc : Float64.div 60 ((30 * 4 : ℤ) : ℚ) = 1 / 2 := by
    unfold Float64.div
    have := Float64.round_exact 1 (-1) (by norm_num)
    norm_num at this ⊢
    exact this
  exact SetRate.candidate_huge 4 (by norm_num) (by norm_num) (by
    rw [hc]
    apply Float64.round_near_huge
    norm_num [abs_lt])

theorem SetRate.candidate_huge_6 :
    SetRate.candidate 450359962737049580 450359962737049580 (180 * Minute) =
      some (20, 1351079888211148800, 450359962737049600) := by
  have hc : Float64.div 60 ((30 * 6 : ℤ) : ℚ) = Float64.round (1 / 3) := by
    unfold Float64.div
    norm_num
  exact SetRate.candidate_huge 6 (by norm_num) (by norm_num) (by
    rw [hc, Float64.round_one_third]
    apply Float64.round_near_huge
    norm_num [abs_lt])

theorem SetRate.candidate_huge_8 :
    SetRate.candidate 450359962737049580 450359962737049580 (240 * Minute) =
      some (20, 1801439850948198400, 450359962737049600) := by
  have hc : Float64.div 60 ((30 * 8 : ℤ) : ℚ) = 1 / 4 := by
    unfold Float64.div
    have := Float64.round_exact 1 (-2) (by norm_num)
    norm_num at this ⊢
    exact this
  exact SetRate.candidate_huge 8 (by norm_num) (by norm_num) (by
    rw [hc]
    apply Float64.round_near_huge
    norm_num [abs_lt])

theorem SetRate.candidate_huge_10 :
    SetRate.candidate 450359962737049580 450359962737049580 (300 * Minute) =
      some (20, 2251799813685248000, 450359962737049600) := by
  have hc : Float64.div 60 ((30 * 10 : ℤ) : ℚ) = Float64.round (1 / 5) := by
    unfold Float64.div
    norm_num
  exact SetRate.candidate_huge 10 (by norm_num) (by norm_num) (by
    rw [hc, Float64.round_one_fifth]
    apply Float64.round_near_huge
    norm_num [abs_lt])

/-- When all seven candidates have the same difference, the first is selected. -/
theorem SetRate.select_all_equal (rate need diff prop : ℤ) (t1 t2 t3 t4 t6 t8 t10 : ℤ)
    (h1 : SetRate.candidate rate need (30 * Minute) = some (diff, t1, prop))
    (h2 : SetRate.candidate rate need (60 * Minute) = some (diff, t2, prop))
    (h3 : SetRate.candidate rate need (90 * Minute) = some (diff, t3, prop))
    (h4 : SetRate.candidate rate need (120 * Minute) = some (diff, t4, prop))
    (h6 : SetRate.candidate rate need (180 * Minute) = some (diff, t6, prop))
    (h8 : SetRate.candidate rate need (240 * Minute) = some (diff, t8, prop))
    (h10 : SetRate.candidate rate need (300 * Minute) = some (diff, t10, prop)) :
    SetRate.select rate need =
      some { min := diff, matched := prop, total := t1, dur := 30 * Minute } := by
  unfold SetRate.select
  simp only [SetRate.durations, SetRate.loop, h1, h2, h3, h4, h6, h8, h10,
    true_or, if_true, Bool.false_eq_true, false_or, lt_self_iff_false, if_false]

/-- For the target `25 * 2 ^ 54 - 20` and no basal rate every candidate proposes
`25 * 2 ^ 54`, and the first one is selected. -/
theorem SetRate.select_huge :
    SetRate.select 450359962737049580 450359962737049580 =
      some { min := 20, matched := 450359962737049600, total := 225179981368524800,
             dur := 30 * Minute } :=
  SetRate.select_all_equal _ _ _ _ _ _ _ _ _ _ _ SetRate.candidate_huge_1
    SetRate.candidate_huge_2 SetRate.candidate_huge_3 SetRate.candidate_huge_4
    SetRate.candidate_huge_6 SetRate.candidate_huge_8 SetRate.candidate_huge_10

theorem SetRate.base_zero : SetRate.base 0 0 = some 0 := by
  have r100 : Float64.round 100 = 100 := by
    simpa using Float64.round_intCast 100 (by norm_num)
  have r1 : Float64.round 1 = 1 := by
    simpa using Float64.round_intCast 1 (by norm_num)
  unfold SetRate.base Float64.ofInt Float64.add Float64.div Float64.mul
  simp only [Int.cast_zero, Float64.round_zero, add_zero, r100, div_self, ne_eq,
    OfNat.ofNat_ne_zero, not_false_eq_true, r1, mul_one, Float64.toInt64]
  have := Float64.trunc_intCast 0
  simp only [Int.cast_zero] at this
  rw [this, if_pos (by decide)]


/-- C27 (as stated, refuted): for the target `25 * 2 ^ 54 - 20` mU/h with the basal
rate 0 and the temp 0, `base` is 0 and `need` is the target, the conversion
`float64(need)` rounds up to `25 * 2 ^ 54`, and the combo selected has the total
`25 * 2 ^ 53` over 30 minutes, whose hourly equivalent `25 * 2 ^ 54` (as `SetRate`
computes it, and also exactly) is 20 more than `need`; so `base + proposed`
exceeds the target although `base ≤ target`. -/
theorem SetRate.select_exceeds_need :
    SetRate.base 0 0 = some 0 ∧
    SetRate.need 450359962737049580 0 = 450359962737049580 ∧
    SetRate.select 450359962737049580 (SetRate.need 450359962737049580 0) =
      some { min := 20, matched := 450359962737049600, total := 225179981368524800,
             dur := 30 * Minute } ∧
    ¬ ((450359962737049600 : ℤ) ≤ SetRate.need 450359962737049580 0) ∧
    ¬ ((60 : ℚ) / ((30 * Minute / Minute : ℤ) : ℚ) * ((225179981368524800 : ℤ) : ℚ) ≤
        ((SetRate.need 450359962737049580 0 : ℤ) : ℚ)) ∧
    (0 : ℤ) ≤ 450359962737049580 ∧
    ¬ ((0 : ℤ) + 450359962737049600 ≤ 450359962737049580) := by
  have hn : SetRate.need 450359962737049580 0 = 450359962737049580 := by decide
  refine ⟨SetRate.base_zero, hn, ?_, ?_, ?_, by norm_num, by norm_num⟩
  · rw [hn]
    exact SetRate.select_huge
  · rw [hn]
    norm_num
  · rw [hn, show (30 * Minute / Minute : ℤ) = 30 by decide]
    norm_num

/-- C27 (amended): for every target rate `|target| ≤ 2 ^ 40` mU/h, basal rate
`0 ≤ basal ≤ 2 ^ 40` mU/h and temp percentage that is an `int8`, `SetRate` computes
`base` and `need = max(0, target - base)` and selects a combo of a candidate
duration such that: `total ≥ 0`; `total` is a multiple of 50; the proposed rate
`matched`, which is `Rate((60 / dur.Minutes()) * float64(total))`, is at most
`need`, and so is the exact hourly equivalent `(60 / minutes(dur)) * total`;
hence `base + proposed ≤ target` whenever `base ≤ target`, and `total = 0`
whenever `base ≥ target`. -/
theorem SetRate.select_within_need (target basal temp : ℤ) (ht : |target| ≤ 2 ^ 40)
    (hb0 : 0 ≤ basal) (hb : basal ≤ 2 ^ 40) (ht1 : -128 ≤ temp) (ht2 : temp ≤ 127) :
    ∃ base c, SetRate.base basal temp = some base ∧
      SetRate.need target base = max 0 (target - base) ∧
      SetRate.select target (SetRate.need target base) = some c ∧
      c.dur ∈ SetRate.durations ∧ 0 ≤ c.total ∧ 50 ∣ c.total ∧
      Float64.toInt64 (Float64.mul (Float64.div 60 (Duration.Minutes c.dur))
        (Float64.ofInt c.total)) = some c.matched ∧
      c.matched ≤ SetRate.need target base ∧
      (60 : ℚ) / ((c.dur / Minute : ℤ) : ℚ) * ((c.total : ℤ) : ℚ) ≤
        ((SetRate.need target base : ℤ) : ℚ) ∧
      (base ≤ target → base + c.matched ≤ target) ∧
      (target ≤ base → c.total = 0) := by
  obtain ⟨base, hbase, hab⟩ : ∃ base : ℤ, SetRate.base basal temp = some base ∧
      |base| ≤ 3 * 2 ^ 40 := SetRate.base_range basal temp hb0 hb ht1 ht2
  rw [abs_le] at ht hab
  have hneed : SetRate.need target base = max 0 (target - base) :=
    SetRate.need_eq_max target base
      (by unfold isInt64 minInt64 maxInt64; constructor <;> omega)
  obtain ⟨need, hneq⟩ : ∃ need : ℤ, SetRate.need target base = need := ⟨_, rfl⟩
  rw [hneq] at hneed
  have hn0 : 0 ≤ need := by
    rw [hneed]
    exact le_max_left _ _
  have hn1 : need ≤ 2 ^ 46 := by
    rw [hneed]
    apply max_le <;> omega
  obtain ⟨c, k, hsel, hk0, hk, hmem, hdur, htot, hmin, hm0, hmn⟩ :=
    SetRate.select_range target need hn0 hn1 (by rw [abs_le]; constructor <;> omega)
  obtain ⟨pre, d, post, _, e2, e3, _, _⟩ := SetRate.select_first_min _ _ c hsel
  have hinv := (SetRate.candidate_inv e3).2.1
  rw [← e2] at hinv
  obtain ⟨ct, hct⟩ : ∃ ct : ℤ, c.total = ct := ⟨_, rfl⟩
  obtain ⟨cm, hcm⟩ : ∃ cm : ℤ, c.matched = cm := ⟨_, rfl⟩
  rw [hct] at htot hinv
  rw [hcm] at hmn hinv
  have htotZ : @Eq ℤ ct (k * need / 2 - k * need / 2 % 50) := htot
  have hmnZ : @LE.le ℤ _ cm need := hmn
  have hkn0 : 0 ≤ k * need := mul_nonneg hk0.le hn0
  have hT0 : 0 ≤ k * need / 2 := Int.ediv_nonneg hkn0 (by norm_num)
  have hT1 : 2 * (k * need / 2) ≤ k * need := by omega
  have hm1 := Int.emod_nonneg (k * need / 2) (by norm_num : (50 : ℤ) ≠ 0)
  have hm2 := emod_le_self_of_nonneg (k * need / 2) hT0 (by norm_num : (0 : ℤ) < 50)
  have hm3 := Int.emod_add_ediv (k * need / 2) 50
  have g1 : 0 ≤ ct := by omega
  have g2 : ct = 50 * (k * need / 2 / 50) := by omega
  refine ⟨base, c, hbase, ?_⟩
  rw [hneq, hct, hcm]
  refine ⟨hneed, hsel, hmem, g1, ⟨k * need / 2 / 50, g2⟩, hinv, hmn, ?_, ?_, ?_⟩
  · have hdm : c.dur / Minute = 30 * k := by
      rw [hdur]
      exact Int.mul_ediv_cancel _ (by decide)
    rw [hdm]
    have hkq : (0 : ℚ) < k := by exact_mod_cast hk0
    have h2 : (2 : ℚ) * (ct : ℚ) ≤ k * need := by
      have : 2 * ct ≤ k * need := by omega
      exact_mod_cast this
    have e : (60 : ℚ) / ((30 * k : ℤ) : ℚ) * (ct : ℚ) = 2 * (ct : ℚ) / k := by
      push_cast
      field_simp
      ring
    rw [e, div_le_iff₀ hkq]
    linarith
  · intro h
    have h1 : @LE.le ℤ _ base target := h
    rw [max_eq_right (by omega)] at hneed
    have hneedZ : @Eq ℤ need (target - base) := hneed
    show @LE.le ℤ _ (base + cm) target
    omega
  · intro h
    have h1 : @LE.le ℤ _ target base := h
    rw [max_eq_left (by omega)] at hneed
    rw [htot, hneed]
    simp

/-- C27 (amended), at the target 800 mU/h with the basal rate 1000 mU/h and the
temp -50 %. -/
theorem SetRate.select_within_need_witness :
    (|(800 : ℤ)| ≤ 2 ^ 40 ∧ (0 : ℤ) ≤ 1000 ∧ (1000 : ℤ) ≤ 2 ^ 40 ∧ (-128 : ℤ) ≤ -50 ∧
      (-50 : ℤ) ≤ 127) ∧
    ∃ base c, SetRate.base 1000 (-50) = some base ∧
      SetRate.need 800 base = max 0 (800 - base) ∧
      SetRate.select 800 (SetRate.need 800 base) = some c ∧
      c.dur ∈ SetRate.durations ∧ 0 ≤ c.total ∧ 50 ∣ c.total ∧
      Float64.toInt64 (Float64.mul (Float64.div 60 (Duration.Minutes c.dur))
        (Float64.ofInt c.total)) = some c.matched ∧
      c.matched ≤ SetRate.need 800 base ∧
      (60 : ℚ) / ((c.dur / Minute : ℤ) : ℚ) * ((c.total : ℤ) : ℚ) ≤
        ((SetRate.need 800 base : ℤ) : ℚ) ∧
      (base ≤ 800 → base + c.matched ≤ 800) ∧
      (800 ≤ base → c.total = 0) :=
  ⟨⟨by norm_num, by norm_num, by norm_num, by norm_num, by norm_num⟩,
    SetRate.select_within_need 800 1000 (-50) (by norm_num) (by norm_num) (by norm_num)
      (by norm_num) (by norm_num)⟩

end pump
